import Mathlib

/-!
# libhl `refcnt.c`: reference-counted nodes with deferred reclamation

A shallow embedding of `src/src/refcnt.c`.  Every C function becomes a Lean
function of the same name over an explicit `State`; a result of `none`
stands for a run that has no defined result (a dereference of `NULL`, of a
pointer carrying the mark bit, or of an address that was never allocated).

* `count` is a `uint32_t`: increments and decrements are taken modulo `2^32`.
* `delete` is an `int` used as a 0/1 gate through compare-and-swap.
* A link (`refcnt_node_t **`) is passed by reference: a function that takes a
  link receives the content of the slot and returns the content it leaves.
* The callbacks, `rqueue_write` and `free` are external calls; each call is
  appended to `State.trace` in program order.
* `free(ref)` is recorded in the trace and the record of the node is left in
  `State.nodes`: the functions themselves never read a node after freeing it.
  `State.freed` tells whether a node has been passed to `free`, and
  `Op.run_live` gives no result to a call that dereferences such a node.
-/

namespace Refcnt

/-! ## Data model -/

/-- Modulus of `uint32_t` arithmetic. -/
def UINT32_MOD : Nat := 4294967296

/-- Modelled from the spec: the header `refcnt.h` with the mark macros is
missing.  A pointer to a node is an address (0 is `NULL`) together with the
one-bit "logically removed" mark held in the low bit of the word. -/
structure Ptr where
  addr : Nat
  mark : Bool
deriving DecidableEq, Repr

/-- The null pointer. -/
def NULL : Ptr := { addr := 0, mark := false }

/-- Modelled from the spec: `REFCNT_MARK_ON` of the missing header `refcnt.h`
sets the mark bit of a pointer. -/
def REFCNT_MARK_ON (p : Ptr) : Ptr := { addr := p.addr, mark := true }

/-- Modelled from the spec: `REFCNT_MARK_OFF` of the missing header `refcnt.h`
strips the mark bit of a pointer. -/
def REFCNT_MARK_OFF (p : Ptr) : Ptr := { addr := p.addr, mark := false }

/-- The record `struct __refcnt_node`. -/
structure Node where
  ptr : Nat
  count : Nat
  delete : Nat
deriving DecidableEq, Repr

/-- Modelled from the spec: the deferred-free buffer `rqueue_t` (header
`rqueue.h` is missing).  A FIFO of handles with the two cumulative counters;
`size` and `blocking` record the arguments of `rqueue_create`.  A push never
blocks in this sequential model. -/
structure RQueue where
  items : List Ptr
  writes : Nat
  reads : Nat
  size : Int
  blocking : Bool
deriving DecidableEq, Repr

/-- Modelled from the spec: `rqueue_create(size, mode)`. -/
def rqueue_create (size : Int) (blocking : Bool) : RQueue :=
  { items := [], writes := 0, reads := 0, size := size, blocking := blocking }

/-- Modelled from the spec: `rqueue_write` pushes a handle and counts it. -/
def rqueue_write (q : RQueue) (v : Ptr) : RQueue :=
  { q with items := q.items ++ [v], writes := q.writes + 1 }

/-- Modelled from the spec: `rqueue_read` is the non-blocking try-read; it
returns the oldest handle and counts it, or `NULL` when nothing is pending. -/
def rqueue_read (q : RQueue) : Ptr × RQueue :=
  match q.items with
  | [] => (NULL, q)
  | x :: xs => (x, { q with items := xs, reads := q.reads + 1 })

/-- Modelled from the spec: `rqueue_write_count`, cumulative items written. -/
def rqueue_write_count (q : RQueue) : Nat := q.writes

/-- Modelled from the spec: `rqueue_read_count`, cumulative items read. -/
def rqueue_read_count (q : RQueue) : Nat := q.reads

/-- The record `struct __refcnt`.  A callback field is `true` when the
function pointer is not `NULL`. -/
structure Domain where
  terminate_node_cb : Bool
  free_node_ptr_cb : Bool
  free_list : RQueue
  gc_threshold : Nat
deriving DecidableEq, Repr

/-- External calls made by the code, in program order.  The node recorded in
`free_node_ptr_cb` is the handle whose payload is passed to the callback. -/
inductive Event where
  | terminate_node_cb (ref : Ptr)
  | rqueue_write (ref : Ptr)
  | free_node_ptr_cb (ref : Ptr) (arg : Nat)
  | free (ref : Ptr)
  | rqueue_destroy
  | free_domain
deriving DecidableEq, Repr

/-- A `refcnt_t *` argument: `NULL`, or the address of the domain of the state. -/
inductive RefcntPtr where
  | null
  | dom
deriving DecidableEq, Repr

/-- The memory the functions work on: the domain, the node heap, the next
address `calloc` hands out, and the trace of external calls. -/
structure State where
  refcnt : Domain
  nodes : Nat → Option Node
  brk : Nat
  trace : List Event

/-- The node a pointer designates; `none` for `NULL`, for a pointer carrying
the mark (a misaligned address) and for an address never allocated. -/
def State.node (s : State) (p : Ptr) : Option Node :=
  if p.mark = true ∨ p.addr = 0 then none else s.nodes p.addr

/-- Overwrite the node record at the address of `p`. -/
def State.setNode (s : State) (p : Ptr) (n : Node) : State :=
  { s with nodes := Function.update s.nodes p.addr (some n) }

/-- Append an external call to the trace. -/
def State.emit (s : State) (e : Event) : State :=
  { s with trace := s.trace ++ [e] }

/-- Replace the deferred buffer of the domain. -/
def State.setQueue (s : State) (q : RQueue) : State :=
  { s with refcnt := { s.refcnt with free_list := q } }

/-- Backlog of the deferred buffer: cumulative writes minus cumulative reads. -/
def State.backlog (s : State) : Nat :=
  rqueue_write_count s.refcnt.free_list - rqueue_read_count s.refcnt.free_list

/-! ## Atomic primitives on node fields -/

/-- The macro `ATOMIC_READ(ref->count)`. -/
def atomic_read_count (s : State) (ref : Ptr) : Option Nat :=
  (s.node ref).map Node.count

/-- The macro `ATOMIC_READ(ref->delete)`. -/
def atomic_read_delete (s : State) (ref : Ptr) : Option Nat :=
  (s.node ref).map Node.delete

/-- The macro `ATOMIC_INCREMENT(ref->count)` on a `uint32_t`. -/
def atomic_increment_count (s : State) (ref : Ptr) : Option State :=
  (s.node ref).map fun n => s.setNode ref { n with count := (n.count + 1) % UINT32_MOD }

/-- The macro `ATOMIC_DECREMENT(ref->count)` on a `uint32_t`. -/
def atomic_decrement_count (s : State) (ref : Ptr) : Option State :=
  (s.node ref).map fun n =>
    s.setNode ref { n with count := (n.count + (UINT32_MOD - 1)) % UINT32_MOD }

/-- The macro `ATOMIC_CAS(ref->delete, old, new)`: whether the swap took place,
and the state it leaves. -/
def atomic_cas_delete (s : State) (ref : Ptr) (old new : Nat) : Option (Bool × State) :=
  (s.node ref).map fun n =>
    if n.delete = old then (true, s.setNode ref { n with delete := new }) else (false, s)

/-- The builtin `__sync_bool_compare_and_swap(link, old, ref)` on a link slot:
whether the swap took place, and the content of the slot afterwards. -/
def sync_bool_compare_and_swap (link old ref : Ptr) : Bool × Ptr :=
  if link = old then (true, ref) else (false, link)

/-- The builtin `__sync_fetch_and_add(link, 0)`: the value read, and the content of
the slot afterwards. -/
def sync_fetch_and_add_zero (link : Ptr) : Ptr × Ptr := (link, link)

/-! ## The functions of `refcnt.c` -/

/-- The value of `int rqueue_size = gc_threshold + gc_threshold/2`: the sum is
taken in `uint32_t` and converted to `int`. -/
def rqueue_size_of (gc_threshold : Nat) : Int :=
  let u := (gc_threshold + gc_threshold / 2) % UINT32_MOD
  if u < 2147483648 then (u : Int) else (u : Int) - 4294967296

/-- The macro `RQUEUE_MIN_SIZE`, `1<<8`. -/
def RQUEUE_MIN_SIZE : Int := 256

/-- The function `refcnt_create`: the domain it builds. -/
def refcnt_create (gc_threshold : Nat) (terminate_node_cb free_node_ptr_cb : Bool) : Domain :=
  let rqueue_size := rqueue_size_of gc_threshold
  let rqueue_size := if rqueue_size < RQUEUE_MIN_SIZE then RQUEUE_MIN_SIZE else rqueue_size
  { terminate_node_cb := terminate_node_cb
    free_node_ptr_cb := free_node_ptr_cb
    free_list := rqueue_create rqueue_size true
    gc_threshold := gc_threshold }

/-- The state right after `refcnt_create`: no node allocated, nothing traced. -/
def State.fresh (gc_threshold : Nat) (terminate_node_cb free_node_ptr_cb : Bool) : State :=
  { refcnt := refcnt_create gc_threshold terminate_node_cb free_node_ptr_cb
    nodes := fun _ => none
    brk := 1
    trace := [] }

/-- The `while` loop of `gc`.  Each iteration that continues pops one handle,
so `gc` runs it with one unit of fuel more than there are pending handles.
`free(ref)` is the trace entry `Event.free ref`; the storage of `ref` is dead
from that entry on (`State.freed`). -/
def gc_loop (limit : Nat) : Nat → State → Option State
  | 0, _ => none
  | fuel + 1, s =>
    if s.backlog > limit then
      match rqueue_read s.refcnt.free_list with
      | (ref, q) =>
        if ref = NULL then some (s.setQueue q)
        else
          match (s.setQueue q).node ref with
          | none => none
          | some n =>
            let s1 := s.setQueue q
            let s2 := if s1.refcnt.free_node_ptr_cb then s1.emit (.free_node_ptr_cb ref n.ptr) else s1
            gc_loop limit fuel (s2.emit (.free ref))
    else some s

/-- The function `gc`. -/
def gc (force : Bool) (s : State) : Option State :=
  let limit := if force then 0 else s.refcnt.gc_threshold / 2
  gc_loop limit (s.refcnt.free_list.items.length + 1) s

/-- The function `refcnt_destroy`. -/
def refcnt_destroy (s : State) : Option State :=
  (gc true s).map fun s1 => (s1.emit .rqueue_destroy).emit .free_domain

/-- The function `deref_link_internal`.  Every path of the `while (1)` body
returns, so the body runs once.  Result: the returned pointer, the content of
the link afterwards, the state afterwards. -/
def deref_link_internal (_refcnt : RefcntPtr) (link : Ptr) (skip_deleted : Bool) (s : State) :
    Option (Ptr × Ptr × State) :=
  match sync_fetch_and_add_zero link with
  | (node, link1) =>
    if node = REFCNT_MARK_ON node ∧ skip_deleted = true then some (NULL, link1, s)
    else
      let node := if node = REFCNT_MARK_ON node then REFCNT_MARK_OFF node else node
      if node = NULL then some (NULL, link1, s)
      else
        match atomic_read_delete s node, atomic_read_count s node with
        | some d, some c =>
          if ¬ (d = 1 ∧ c = 0) then
            (atomic_increment_count s node).map fun s1 => (node, link1, s1)
          else some (NULL, link1, s)
        | _, _ => none

/-- The function `deref_link_d`. -/
def deref_link_d (refcnt : RefcntPtr) (link : Ptr) (s : State) : Option (Ptr × Ptr × State) :=
  deref_link_internal refcnt link false s

/-- The function `deref_link`. -/
def deref_link (refcnt : RefcntPtr) (link : Ptr) (s : State) : Option (Ptr × Ptr × State) :=
  deref_link_internal refcnt link true s

/-- The gate step of `release_ref` (lines 119-128): the state it leaves and the
value of `terminated`. -/
def release_gate (ref : Ptr) (s : State) : Option (State × Bool) :=
  match atomic_cas_delete s ref 0 1 with
  | none => none
  | some (false, s1) => some (s1, false)
  | some (true, s1) =>
    match atomic_read_count s1 ref with
    | none => none
    | some c =>
      if c = 0 then
        let s2 := if s1.refcnt.terminate_node_cb then s1.emit (.terminate_node_cb ref) else s1
        some ((s2.setQueue (rqueue_write s2.refcnt.free_list ref)).emit (.rqueue_write ref), true)
      else
        (atomic_cas_delete s1 ref 1 0).map fun r => (r.2, false)

/-- The function `release_ref`. -/
def release_ref (refcnt : RefcntPtr) (ref : Ptr) (s : State) : Option (Ptr × State) :=
  match refcnt with
  | .null => some (NULL, s)
  | .dom =>
    match atomic_read_count s ref with
    | none => none
    | some c =>
      match (if c > 0 then atomic_decrement_count s ref else some s) with
      | none => none
      | some s1 =>
        match release_gate ref s1 with
        | none => none
        | some (s2, terminated) =>
          match (if s2.backlog > s2.refcnt.gc_threshold then gc false s2 else some s2) with
          | none => none
          | some s3 => some (if terminated then NULL else ref, s3)

/-- The function `compare_and_swap_ref`.  Result: the returned `int`, the
content of the link afterwards, the state afterwards. -/
def compare_and_swap_ref (_refcnt : RefcntPtr) (link old ref : Ptr) (s : State) :
    Option (Nat × Ptr × State) :=
  match sync_bool_compare_and_swap link old ref with
  | (true, link1) =>
    match (if ref ≠ NULL then atomic_increment_count s ref else some s) with
    | none => none
    | some s1 =>
      match (if old ≠ NULL then atomic_decrement_count s1 old else some s1) with
      | none => none
      | some s2 => some (1, link1, s2)
  | (false, link1) => some (0, link1, s)

/-- The function `retain_ref`: `deref_link` on the slot of its own parameter. -/
def retain_ref (refcnt : RefcntPtr) (ref : Ptr) (s : State) : Option (Ptr × State) :=
  (deref_link refcnt ref s).map fun r => (r.1, r.2.2)

/-- The `do ... while` loop of `store_ref`.  Result: the value of `old`, the
content of the link afterwards, and the number of times the body ran. -/
def store_ref_loop (ref : Ptr) : Nat → Ptr → Option (Ptr × Ptr × Nat)
  | 0, _ => none
  | fuel + 1, link =>
    match sync_fetch_and_add_zero link with
    | (old, link1) =>
      match sync_bool_compare_and_swap link1 old ref with
      | (true, link2) => some (old, link2, 1)
      | (false, link2) => (store_ref_loop ref fuel link2).map fun r => (r.1, r.2.1, r.2.2 + 1)

/-- The function `store_ref`.  Without interference the compare-and-swap of the
loop succeeds at once (`store_ref_loop_fuel`), so one unit of fuel is enough.
Result: the content of the link afterwards and the state afterwards. -/
def store_ref (refcnt : RefcntPtr) (link ref : Ptr) (s : State) : Option (Ptr × State) :=
  match store_ref_loop ref 1 link with
  | none => none
  | some (old, link1, _) =>
    match (if ref ≠ NULL then (retain_ref refcnt ref s).map Prod.snd else some s) with
    | none => none
    | some s1 =>
      if old ≠ NULL then (release_ref refcnt (REFCNT_MARK_OFF old) s1).map fun r => (link1, r.2)
      else some (link1, s1)

/-- The function `new_node`: `calloc` hands out the address `brk`. -/
def new_node (_refcnt : RefcntPtr) (ptr : Nat) (s : State) : Ptr × State :=
  let node : Ptr := { addr := s.brk, mark := false }
  let s1 : State := { s with nodes := Function.update s.nodes s.brk (some { ptr := 0, count := 0, delete := 0 })
                             brk := s.brk + 1 }
  let s2 := s1.setNode node { ptr := ptr, count := 0, delete := 0 }
  (node, s2.setNode node { ptr := ptr, count := (0 + 1) % UINT32_MOD, delete := 0 })

/-- The function `get_node_ptr`; `some 0` is the `NULL` it returns for a null node. -/
def get_node_ptr (s : State) (node : Ptr) : Option Nat :=
  if node ≠ NULL then (s.node node).map Node.ptr else some 0

/-- The conversion of a `uint32_t` value to `int`: values from `2^31` on come
out negative. -/
def uint32_to_int (u : Nat) : Int :=
  if u < 2147483648 then (u : Int) else (u : Int) - 4294967296

/-- The function `get_node_refcount`: the `uint32_t` count, returned as `int`. -/
def get_node_refcount (s : State) (node : Ptr) : Option Int :=
  (atomic_read_count s node).map uint32_to_int

/-- Three nodes A, B, C created by `new_node` in a fresh domain of threshold 4,
at addresses 1, 2, 3 with payloads 10, 20, 30. -/
def State.abc : State :=
  (new_node .dom 30 (new_node .dom 20 (new_node .dom 10 (State.fresh 4 true true)).2).2).2

/-- The same state with the count of node A (address 1) replaced. -/
def State.abc_with (count : Nat) : State :=
  State.abc.setNode ⟨1, false⟩ { ptr := 10, count := count, delete := 0 }

/-- A domain of threshold 4 in which nodes A and B (addresses 1 and 2, payloads
10 and 20) have been retired and are pending in the deferred buffer. -/
def State.retired_ab : State :=
  { refcnt :=
      { terminate_node_cb := true
        free_node_ptr_cb := true
        free_list :=
          { items := [⟨1, false⟩, ⟨2, false⟩], writes := 2, reads := 0, size := 256,
            blocking := true }
        gc_threshold := 4 }
    nodes := Function.update (Function.update (fun _ => none) 1
      (some { ptr := 10, count := 0, delete := 1 })) 2 (some { ptr := 20, count := 0, delete := 1 })
    brk := 3
    trace := [.terminate_node_cb ⟨1, false⟩, .rqueue_write ⟨1, false⟩,
      .terminate_node_cb ⟨2, false⟩, .rqueue_write ⟨2, false⟩] }

/-! ## Well-formed states and the closed form of a sweep -/

/-- The deferred buffer is consistent: its counters account for exactly the
pending handles, and every pending handle designates an allocated node. -/
def State.queue_ok (s : State) : Prop :=
  s.refcnt.free_list.writes = s.refcnt.free_list.reads + s.refcnt.free_list.items.length ∧
  ∀ p ∈ s.refcnt.free_list.items, (s.node p).isSome = true

instance (s : State) : Decidable s.queue_ok := by
  unfold State.queue_ok
  infer_instance

/-- The external calls one iteration of the loop of `gc` makes for handle `p`. -/
def sweep_one (s : State) (p : Ptr) : List Event :=
  match s.node p with
  | some n =>
    (if s.refcnt.free_node_ptr_cb then [Event.free_node_ptr_cb p n.ptr] else []) ++ [Event.free p]
  | none => []

/-- The external calls `gc` makes when it pops the handles `ps` in order. -/
def sweep_events (s : State) (ps : List Ptr) : List Event :=
  ps.flatMap (sweep_one s)

/-- The state after popping the `k` oldest pending handles. -/
def State.swept (s : State) (k : Nat) : State :=
  { refcnt :=
      { terminate_node_cb := s.refcnt.terminate_node_cb
        free_node_ptr_cb := s.refcnt.free_node_ptr_cb
        free_list :=
          { items := s.refcnt.free_list.items.drop k
            writes := s.refcnt.free_list.writes
            reads := s.refcnt.free_list.reads + k
            size := s.refcnt.free_list.size
            blocking := s.refcnt.free_list.blocking }
        gc_threshold := s.refcnt.gc_threshold }
    nodes := s.nodes
    brk := s.brk
    trace := s.trace ++ sweep_events s (s.refcnt.free_list.items.take k) }

/-- The handle and payload of a `free_node_ptr_cb` call, `none` for other calls. -/
def Event.freed_payload : Event → Option (Ptr × Nat)
  | .free_node_ptr_cb ref arg => some (ref, arg)
  | _ => none

/-- The handle a `terminate_node_cb` or `rqueue_write` call is made with. -/
def Event.retired : Event → Option Ptr
  | .terminate_node_cb ref => some ref
  | .rqueue_write ref => some ref
  | _ => none

/-- Whether an external call mentions handle `p`. -/
def Event.about (p : Ptr) : Event → Bool
  | .terminate_node_cb ref => decide (ref = p)
  | .rqueue_write ref => decide (ref = p)
  | .free_node_ptr_cb ref _ => decide (ref = p)
  | .free ref => decide (ref = p)
  | .rqueue_destroy => false
  | .free_domain => false

/-- The handle passed to a `terminate_node_cb` call, `none` for other calls. -/
def Event.terminated : Event → Option Ptr
  | .terminate_node_cb ref => some ref
  | _ => none

/-- The handle pushed by an `rqueue_write` call, `none` for other calls. -/
def Event.pushed : Event → Option Ptr
  | .rqueue_write ref => some ref
  | _ => none

/-- The handle released by a `free` call, `none` for other calls. -/
def Event.freed : Event → Option Ptr
  | .free ref => some ref
  | _ => none

/-- The opportunistic sweep at the end of `release_ref` (lines 129-130), in
closed form. -/
def State.sweep_if (s : State) : State :=
  if s.backlog > s.refcnt.gc_threshold then
    s.swept (s.refcnt.free_list.items.length - s.refcnt.gc_threshold / 2)
  else s

/-- The trace as a forced sweep would complete it: the calls made so far followed
by the calls that popping every pending handle makes. -/
def State.pending_trace (s : State) : List Event :=
  s.trace ++ sweep_events s s.refcnt.free_list.items

/-- The calls that free one node: the payload callback when it is configured,
then `free`. -/
def free_events (cb : Bool) (ref : Ptr) (ptr : Nat) : List Event :=
  (if cb then [Event.free_node_ptr_cb ref ptr] else []) ++ [Event.free ref]

/-- How many handles the opportunistic sweep of `release_ref` pops. -/
def State.sweep_k (s : State) : Nat :=
  if s.backlog > s.refcnt.gc_threshold then
    s.refcnt.free_list.items.length - s.refcnt.gc_threshold / 2
  else 0

/-- The external calls that retire `ref`: the terminate callback when it is
configured, then the push onto the deferred buffer. -/
def retire_events (s : State) (ref : Ptr) : List Event :=
  (if s.refcnt.terminate_node_cb then [Event.terminate_node_cb ref] else []) ++
    [Event.rqueue_write ref]

/-- The state after `ref` (whose record is `n`) has been retired: count 0, gate
set, the retirement calls traced and the handle pending. -/
def State.retire (s : State) (ref : Ptr) (n : Node) : State :=
  { refcnt :=
      { terminate_node_cb := s.refcnt.terminate_node_cb
        free_node_ptr_cb := s.refcnt.free_node_ptr_cb
        free_list := rqueue_write s.refcnt.free_list ref
        gc_threshold := s.refcnt.gc_threshold }
    nodes := Function.update s.nodes ref.addr (some { ptr := n.ptr, count := 0, delete := 1 })
    brk := s.brk
    trace := s.trace ++ retire_events s ref }

/-- The count `release_ref` leaves in a node: decremented when it was positive. -/
def release_count (n : Node) : Nat :=
  if n.count > 0 then (n.count + (UINT32_MOD - 1)) % UINT32_MOD else n.count

/-- The link holds `link`, and the counts are in balance with respect to the
initial state `s0`: domain and trace are those of `s0`, the same nodes are
allocated, every gate is clear, the node the link holds has count 2 and every
other node count 1. -/
def Balanced (s0 : State) (link : Ptr) (s : State) : Prop :=
  s.refcnt = s0.refcnt ∧ s.trace = s0.trace ∧
  (link = NULL ∨ (s.node link).isSome = true) ∧
  (∀ p, (s.node p).isSome = (s0.node p).isSome) ∧
  ∀ p n, s.node p = some n → n.delete = 0 ∧ n.count = if p = link then 2 else 1

/-! ## Runs of several calls -/

/-- Run `release_ref(refcnt, ref)` `k` times in a row; the returned pointers in
call order and the final state. -/
def release_ref_n (refcnt : RefcntPtr) (ref : Ptr) : Nat → State → Option (List Ptr × State)
  | 0, s => some ([], s)
  | k + 1, s =>
    match release_ref refcnt ref s with
    | none => none
    | some (r, s1) => (release_ref_n refcnt ref k s1).map fun rs => (r :: rs.1, rs.2)

/-- A call that replaces the target of a link. -/
inductive LinkOp where
  | store (ref : Ptr)
  | cas (old ref : Ptr)
deriving DecidableEq, Repr

/-- The node arguments of a link operation. -/
def LinkOp.args : LinkOp → List Ptr
  | .store ref => [ref]
  | .cas old ref => [old, ref]

/-- Run a sequence of `store_ref` / `compare_and_swap_ref` calls on one link. -/
def run_link_ops (refcnt : RefcntPtr) : List LinkOp → Ptr → State → Option (Ptr × State)
  | [], link, s => some (link, s)
  | .store ref :: ops, link, s =>
    match store_ref refcnt link ref s with
    | none => none
    | some (link1, s1) => run_link_ops refcnt ops link1 s1
  | .cas old ref :: ops, link, s =>
    match compare_and_swap_ref refcnt link old ref s with
    | none => none
    | some (_, link1, s1) => run_link_ops refcnt ops link1 s1

/-! ## Interleaved `release_ref` calls

Each thread runs lines 116-128 of `release_ref` on the same node; one step of
a thread is one atomic access of those lines. -/

/-- The program points of lines 116-128 of `release_ref`. -/
inductive ReleasePc where
  | read_count
  | decrement
  | cas_gate
  | probe_count
  | retire
  | reset_gate
  | done
deriving DecidableEq, Repr

/-- The local state of a thread inside `release_ref`. -/
structure ReleaseThread where
  pc : ReleasePc
  terminated : Bool
deriving DecidableEq, Repr

/-- One atomic step of a thread running `release_ref(refcnt, ref)`. -/
def release_step (ref : Ptr) (t : ReleaseThread) (s : State) : Option (ReleaseThread × State) :=
  match t.pc with
  | .read_count =>
    (atomic_read_count s ref).map fun c =>
      ({ t with pc := if c > 0 then .decrement else .cas_gate }, s)
  | .decrement =>
    (atomic_decrement_count s ref).map fun s1 => ({ t with pc := .cas_gate }, s1)
  | .cas_gate =>
    (atomic_cas_delete s ref 0 1).map fun r =>
      ({ t with pc := if r.1 then .probe_count else .done }, r.2)
  | .probe_count =>
    (atomic_read_count s ref).map fun c =>
      ({ t with pc := if c = 0 then .retire else .reset_gate }, s)
  | .retire =>
    let s1 := if s.refcnt.terminate_node_cb then s.emit (.terminate_node_cb ref) else s
    some ({ pc := .done, terminated := true },
      (s1.setQueue (rqueue_write s1.refcnt.free_list ref)).emit (.rqueue_write ref))
  | .reset_gate =>
    (atomic_cas_delete s ref 1 0).map fun r => ({ t with pc := .done }, r.2)
  | .done => some (t, s)

/-- Run the threads under a schedule: each entry names the thread that takes
the next atomic step. -/
def run_schedule (ref : Ptr) : List Nat → List ReleaseThread → State → Option (List ReleaseThread × State)
  | [], ts, s => some (ts, s)
  | i :: sched, ts, s =>
    match ts.get? i with
    | none => none
    | some t =>
      match release_step ref t s with
      | none => none
      | some (t1, s1) => run_schedule ref sched (ts.set i t1) s1

/-- A thread about to enter `release_ref`. -/
def ReleaseThread.start : ReleaseThread := { pc := .read_count, terminated := false }

/-- A state holding one node at address 1 with the given count and gate, an
empty deferred buffer and both callbacks configured. -/
def State.single (gc_threshold ptr count delete : Nat) : State :=
  { refcnt := refcnt_create gc_threshold true true
    nodes := Function.update (fun _ => none) 1 (some { ptr := ptr, count := count, delete := delete })
    brk := 2
    trace := [] }

/-! ## Sequential runs of the public operations -/

/-- The state after the decrement and gate steps of `release_ref` (lines
116-128), before the test for the opportunistic sweep, with the value of
`terminated`. -/
def release_ref_mid (ref : Ptr) (s : State) : Option (State × Bool) :=
  match atomic_read_count s ref with
  | none => none
  | some c =>
    match (if c > 0 then atomic_decrement_count s ref else some s) with
    | none => none
    | some s1 => release_gate ref s1

/-- The link slots of the client structures together with the memory. -/
structure World where
  links : Nat → Ptr
  st : State

/-- A call of a public operation; a link argument is the index of a slot. -/
inductive Op where
  | new_node (rc : RefcntPtr) (ptr : Nat)
  | deref_link (rc : RefcntPtr) (l : Nat)
  | deref_link_d (rc : RefcntPtr) (l : Nat)
  | retain_ref (rc : RefcntPtr) (ref : Ptr)
  | release_ref (rc : RefcntPtr) (ref : Ptr)
  | store_ref (rc : RefcntPtr) (l : Nat) (ref : Ptr)
  | compare_and_swap_ref (rc : RefcntPtr) (l : Nat) (old ref : Ptr)
deriving DecidableEq, Repr

/-- Run one call; the value it returns is dropped (any pointer may be passed to
a later call). -/
def Op.run : Op → World → Option World
  | .new_node rc ptr, w => some { links := w.links, st := (Refcnt.new_node rc ptr w.st).2 }
  | .deref_link rc l, w =>
    (Refcnt.deref_link rc (w.links l) w.st).map fun r =>
      { links := Function.update w.links l r.2.1, st := r.2.2 }
  | .deref_link_d rc l, w =>
    (Refcnt.deref_link_d rc (w.links l) w.st).map fun r =>
      { links := Function.update w.links l r.2.1, st := r.2.2 }
  | .retain_ref rc ref, w =>
    (Refcnt.retain_ref rc ref w.st).map fun r => { links := w.links, st := r.2 }
  | .release_ref rc ref, w =>
    (Refcnt.release_ref rc ref w.st).map fun r => { links := w.links, st := r.2 }
  | .store_ref rc l ref, w =>
    (Refcnt.store_ref rc (w.links l) ref w.st).map fun r =>
      { links := Function.update w.links l r.1, st := r.2 }
  | .compare_and_swap_ref rc l old ref, w =>
    (Refcnt.compare_and_swap_ref rc (w.links l) old ref w.st).map fun r =>
      { links := Function.update w.links l r.2.1, st := r.2.2 }

/-- Run a sequence of calls; `none` when one of them has no defined result. -/
def run_ops : List Op → World → Option World
  | [], w => some w
  | op :: ops, w =>
    match op.run w with
    | none => none
    | some w1 => run_ops ops w1

/-- The invariant of a run, bound on the backlog left out.  The configuration
is that of the created domain; the counters account for the pending handles;
addresses from `brk` on are unallocated; a gate is 0 or 1 and is set exactly for
the handles pushed so far; the handles pushed are allocated nodes, each pushed
once; the handles freed so far followed by the pending ones are the handles
pushed, in order; the terminate callback was called for the handles pushed and
the payload-free callback for the handles freed (when configured); the calls
that retired a handle occur in order in the trace, and before its payload-free
call. -/
structure State.Core (t : Nat) (cb_t cb_f : Bool) (s : State) : Prop where
  threshold : s.refcnt.gc_threshold = t
  terminate_cb : s.refcnt.terminate_node_cb = cb_t
  free_cb : s.refcnt.free_node_ptr_cb = cb_f
  counters :
    s.refcnt.free_list.writes = s.refcnt.free_list.reads + s.refcnt.free_list.items.length
  brk_pos : s.brk ≠ 0
  unalloc : ∀ a, s.brk ≤ a → s.nodes a = none
  gate : ∀ p n, s.node p = some n →
    (n.delete = 0 ∧ p ∉ s.trace.filterMap Event.pushed) ∨
    (n.delete = 1 ∧ p ∈ s.trace.filterMap Event.pushed)
  pushed_alloc : ∀ p ∈ s.trace.filterMap Event.pushed, (s.node p).isSome = true
  fifo : s.trace.filterMap Event.freed ++ s.refcnt.free_list.items =
    s.trace.filterMap Event.pushed
  nodup : (s.trace.filterMap Event.pushed).Nodup
  terminated : s.trace.filterMap Event.terminated =
    if cb_t then s.trace.filterMap Event.pushed else []
  paid : (s.trace.filterMap Event.freed_payload).map Prod.fst =
    if cb_f then s.trace.filterMap Event.freed else []
  retire_order : ∀ p ∈ s.trace.filterMap Event.pushed,
    List.Sublist (retire_events s p) s.trace
  free_order : ∀ x ∈ s.trace.filterMap Event.freed_payload,
    List.Sublist (retire_events s x.1 ++ [Event.free_node_ptr_cb x.1 x.2]) s.trace

/-- The invariant of a run at the boundaries between calls: `State.Core` and a
backlog of at most the threshold. -/
def State.Sound (t : Nat) (cb_t cb_f : Bool) (s : State) : Prop :=
  s.Core t cb_t cb_f ∧ s.refcnt.free_list.items.length ≤ t

/-- The world right after `refcnt_create`: every link slot null. -/
def World.start (t : Nat) (cb_t cb_f : Bool) : World :=
  { links := fun _ => NULL, st := State.fresh t cb_t cb_f }

/-- A run on a domain of threshold 1: nodes A, B, C (addresses 1, 2, 3) are
created; link 0 receives A and the creator drops its pin; the link receives B
(which retires A) and the creator of B drops its pin; the link is cleared
(which retires B, and the sweep frees A and B); C is released by its creator. -/
def demo_ops : List Op :=
  [.new_node .dom 10, .new_node .dom 20, .new_node .dom 30,
    .store_ref .dom 0 ⟨1, false⟩, .release_ref .dom ⟨1, false⟩,
    .store_ref .dom 0 ⟨2, false⟩, .release_ref .dom ⟨2, false⟩,
    .store_ref .dom 0 NULL, .release_ref .dom ⟨3, false⟩]

/-- The world at the end of the run `demo_ops`. -/
def World.demo : World :=
  (run_ops demo_ops (World.start 1 true true)).getD (World.start 1 true true)

/-- Whether a call leaves the count of node `a` to the protocol: every call
does, except a `compare_and_swap_ref` that succeeds with `a` as its expected or
new value, and a `new_node` for which `calloc` hands out the address of `a`
again. -/
def Op.spares (a : Ptr) (w : World) : Op → Bool
  | .new_node _ _ => decide (w.st.brk ≠ a.addr)
  | .compare_and_swap_ref _ l old ref => decide (w.links l ≠ old ∨ (old ≠ a ∧ ref ≠ a))
  | _ => true

/-- Whether every call of a run spares node `a` in the world it is made in. -/
def run_spares (a : Ptr) : List Op → World → Bool
  | [], _ => true
  | op :: ops, w =>
    op.spares a w &&
      match op.run w with
      | none => true
      | some w1 => run_spares a ops w1

/-- Whether `free` has been called on the node `p` designates (line 59): from
then on its storage is no longer the program's to read or write. -/
def State.freed (s : State) (p : Ptr) : Bool :=
  decide (REFCNT_MARK_OFF p ∈ s.trace.filterMap Event.freed)

/-- The node pointers a call dereferences, in the world it is made in.
`deref_link_internal` reads the node of the link (lines 82-85) unless the link
is marked and `skip_deleted` is set (line 78); `retain_ref` is `deref_link` on
its own argument (line 168); `release_ref` with a non-null domain reads `ref`
(line 116) and with a `NULL` domain reads nothing (line 114); `store_ref`
retains `ref` and releases the stripped old content of the link (lines
158-162); a `compare_and_swap_ref` that succeeds writes the counts of `ref` and
`old` (lines 139-144), one that fails reads no node.  A `NULL` in the list
designates no node.  The sweep inside `release_ref` reads pending handles only. -/
def Op.reads (w : World) : Op → List Ptr
  | .new_node _ _ => []
  | .deref_link _ l => if (w.links l).mark then [] else [w.links l]
  | .deref_link_d _ l => [REFCNT_MARK_OFF (w.links l)]
  | .retain_ref _ ref => if ref.mark then [] else [ref]
  | .release_ref rc ref =>
    match rc with
    | .null => []
    | .dom => [ref]
  | .store_ref rc l ref =>
    (if ref.mark then [] else [ref]) ++
      match rc with
      | .null => []
      | .dom => [REFCNT_MARK_OFF (w.links l)]
  | .compare_and_swap_ref _ l old ref => if w.links l = old then [ref, old] else []

/-- Run one call of a program that owns the storage it touches: a call that
dereferences a node already passed to `free` has no defined result. -/
def Op.run_live (op : Op) (w : World) : Option World :=
  if (op.reads w).any w.st.freed = true then none else op.run w

/-- Run a sequence of calls; `none` when one of them has no defined result or
dereferences freed storage. -/
def run_ops_live : List Op → World → Option World
  | [], w => some w
  | op :: ops, w =>
    match op.run_live w with
    | none => none
    | some w1 => run_ops_live ops w1

/-- Calls made on node C (address 3) after the run `demo_ops`, where C is retired
and still pending: C is stored into link 1, dereferenced through it both ways,
retained, released again, and named as new value by a `compare_and_swap_ref`
that fails. -/
def demo_after_ops : List Op :=
  [.store_ref .dom 1 ⟨3, false⟩, .deref_link .dom 1, .deref_link_d .dom 1,
    .retain_ref .dom ⟨3, false⟩, .release_ref .dom ⟨3, false⟩,
    .compare_and_swap_ref .dom 1 ⟨2, false⟩ ⟨3, false⟩]

/-- The world after `demo_ops` followed by `demo_after_ops`. -/
def World.demo_after : World :=
  (run_ops demo_after_ops World.demo).getD World.demo

/-- A run on a domain of threshold 0: node A (address 1, payload 7) is created,
stored into link 0 and released by its creator, which leaves the anchor of the
link as its only pin; a second release (a caller error) drops the count to zero
while the link still holds A, so A is retired, and the sweep inside that release
pops and frees it at once. -/
def stale_ops : List Op :=
  [.new_node .dom 7, .store_ref .dom 0 ⟨1, false⟩, .release_ref .dom ⟨1, false⟩,
    .release_ref .dom ⟨1, false⟩]

/-! ## Basic facts about the state accessors -/

theorem node_valid {s : State} {p : Ptr} {n : Node} (h : s.node p = some n) :
    p.mark = false ∧ p.addr ≠ 0 ∧ s.nodes p.addr = some n := by
  unfold State.node at h
  split at h
  · cases h
  · rename_i hv
    simp only [not_or, Bool.not_eq_true] at hv
    exact ⟨hv.1, hv.2, h⟩

theorem node_ne_null {s : State} {p : Ptr} {n : Node} (h : s.node p = some n) : p ≠ NULL := by
  intro hp
  have := (node_valid h).2.1
  simp [hp, NULL] at this

theorem node_mark_off {s : State} {p : Ptr} {n : Node} (h : s.node p = some n) :
    p ≠ REFCNT_MARK_ON p := by
  intro hp
  have hm := (node_valid h).1
  have : p.mark = (REFCNT_MARK_ON p).mark := by rw [← hp]
  simp [REFCNT_MARK_ON, hm] at this

theorem node_setNode_self {s : State} {p : Ptr} {n : Node} (m : Node) (h : s.node p = some n) :
    (s.setNode p m).node p = some m := by
  have hv := node_valid h
  simp [State.node, State.setNode, hv.1, hv.2.1]

theorem node_setNode_other (s : State) (p q : Ptr) (m : Node) (h : q.addr ≠ p.addr) :
    (s.setNode p m).node q = s.node q := by
  simp [State.node, State.setNode, Function.update_noteq h]

theorem addr_ne_of_ne {p q : Ptr} (hp : p.mark = false) (hq : q.mark = false) (h : q ≠ p) :
    q.addr ≠ p.addr := by
  intro ha
  apply h
  cases p
  cases q
  simp_all

@[simp] theorem node_emit (s : State) (e : Event) (p : Ptr) : (s.emit e).node p = s.node p := rfl

@[simp] theorem node_setQueue (s : State) (q : RQueue) (p : Ptr) :
    (s.setQueue q).node p = s.node p := rfl

@[simp] theorem setNode_setNode (s : State) (p : Ptr) (m k : Node) :
    (s.setNode p m).setNode p k = s.setNode p k := by
  simp [State.setNode]

theorem setNode_same {s : State} {p : Ptr} {n : Node} (h : s.node p = some n) :
    s.setNode p n = s := by
  have hv := node_valid h
  cases s
  simp only [State.setNode, State.mk.injEq, true_and, and_true]
  simp only at hv
  rw [← hv.2.2]
  exact Function.update_eq_self _ _

@[simp] theorem node_swept (s : State) (k : Nat) (p : Ptr) : (s.swept k).node p = s.node p := rfl

@[simp] theorem sweep_one_emit (s : State) (e : Event) (p : Ptr) :
    sweep_one (s.emit e) p = sweep_one s p := rfl

theorem sweep_events_congr (s t : State) (ps : List Ptr)
    (hn : ∀ p, t.node p = s.node p) (hc : t.refcnt.free_node_ptr_cb = s.refcnt.free_node_ptr_cb) :
    sweep_events t ps = sweep_events s ps := by
  unfold sweep_events
  congr 1
  funext p
  simp [sweep_one, hn, hc]

theorem swept_zero (s : State) : s.swept 0 = s := by
  cases s
  simp [State.swept, sweep_events]

/-! ## The sweep in closed form -/

theorem swept_swept (s : State) (j k : Nat) : (s.swept j).swept k = s.swept (j + k) := by
  have hc : sweep_events (s.swept j) (List.take k (List.drop j s.refcnt.free_list.items)) =
      sweep_events s (List.take k (List.drop j s.refcnt.free_list.items)) :=
    sweep_events_congr s (s.swept j) _ (fun _ => rfl) rfl
  have ht : sweep_events s (List.take (j + k) s.refcnt.free_list.items) =
      sweep_events s (List.take j s.refcnt.free_list.items) ++
        sweep_events s (List.take k (List.drop j s.refcnt.free_list.items)) := by
    rw [List.take_add, sweep_events, sweep_events, sweep_events, List.flatMap_append]
  have hs : (s.swept j).swept k =
      { refcnt :=
          { terminate_node_cb := s.refcnt.terminate_node_cb
            free_node_ptr_cb := s.refcnt.free_node_ptr_cb
            free_list :=
              { items := (s.refcnt.free_list.items.drop j).drop k
                writes := s.refcnt.free_list.writes
                reads := s.refcnt.free_list.reads + j + k
                size := s.refcnt.free_list.size
                blocking := s.refcnt.free_list.blocking }
            gc_threshold := s.refcnt.gc_threshold }
        nodes := s.nodes
        brk := s.brk
        trace := (s.trace ++ sweep_events s (s.refcnt.free_list.items.take j)) ++
          sweep_events (s.swept j) (List.take k (List.drop j s.refcnt.free_list.items)) } := rfl
  rw [hs, hc, List.append_assoc, ← ht, List.drop_drop, Nat.add_assoc]
  rfl

theorem swept_queue_ok (s : State) (k : Nat) (hq : s.queue_ok)
    (hk : k ≤ s.refcnt.free_list.items.length) : (s.swept k).queue_ok := by
  obtain ⟨hw, hv⟩ := hq
  constructor
  · simp only [State.swept, List.length_drop]
    omega
  · intro p hp
    exact hv p (List.mem_of_mem_drop hp)

theorem gc_loop_succ (limit fuel : Nat) (s : State) :
    gc_loop limit (fuel + 1) s =
      if s.backlog > limit then
        match rqueue_read s.refcnt.free_list with
        | (ref, q) =>
          if ref = NULL then some (s.setQueue q)
          else
            match (s.setQueue q).node ref with
            | none => none
            | some n =>
              let s1 := s.setQueue q
              let s2 :=
                if s1.refcnt.free_node_ptr_cb then s1.emit (.free_node_ptr_cb ref n.ptr) else s1
              gc_loop limit fuel (s2.emit (.free ref))
      else some s := rfl

theorem gc_loop_step (limit fuel : Nat) (s : State) (x : Ptr) (xs : List Ptr) (n : Node)
    (hlt : s.backlog > limit) (hi : s.refcnt.free_list.items = x :: xs) (hn : s.node x = some n) :
    gc_loop limit (fuel + 1) s = gc_loop limit fuel (s.swept 1) := by
  have hxn : x ≠ NULL := node_ne_null hn
  rw [gc_loop_succ, if_pos hlt]
  simp only [rqueue_read, hi, hxn, if_false, node_setQueue, hn]
  congr 1
  cases hcb : s.refcnt.free_node_ptr_cb <;>
    simp [State.swept, State.emit, State.setQueue, hi, hcb, sweep_events, sweep_one, hn]

theorem gc_loop_swept (limit : Nat) :
    ∀ (fuel : Nat) (s : State), s.queue_ok →
      s.refcnt.free_list.items.length - limit < fuel →
      gc_loop limit fuel s = some (s.swept (s.refcnt.free_list.items.length - limit)) := by
  intro fuel
  induction fuel with
  | zero => intro s _ h; omega
  | succ fuel ih =>
    intro s hq hf
    have hb : s.backlog = s.refcnt.free_list.items.length := by
      simp [State.backlog, rqueue_write_count, rqueue_read_count, hq.1]
    by_cases hlt : s.backlog > limit
    · match hi : s.refcnt.free_list.items with
      | [] => simp [hb, hi] at hlt
      | x :: xs =>
        have hx : (s.node x).isSome = true := hq.2 x (by simp [hi])
        obtain ⟨n, hn⟩ := Option.isSome_iff_exists.mp hx
        have hlen : (s.swept 1).refcnt.free_list.items.length = xs.length := by
          simp [State.swept, hi]
        rw [hb, hi] at hlt
        rw [hi] at hf
        simp only [List.length_cons] at hlt hf
        rw [gc_loop_step limit fuel s x xs n (by rw [hb, hi]; simpa using hlt) hi hn,
          ih (s.swept 1) (swept_queue_ok s 1 hq (by simp [hi])) (by rw [hlen]; omega),
          swept_swept, hlen]
        congr 2
        simp only [List.length_cons]
        omega
    · rw [gc_loop_succ, if_neg hlt]
      rw [hb] at hlt
      have : s.refcnt.free_list.items.length - limit = 0 := by omega
      rw [this, swept_zero]

theorem gc_swept (force : Bool) (s : State) (hq : s.queue_ok) :
    gc force s = some (s.swept (s.refcnt.free_list.items.length -
      (if force then 0 else s.refcnt.gc_threshold / 2))) := by
  unfold gc
  exact gc_loop_swept _ _ s hq (by omega)

/-! ## `release_ref` in closed form -/

theorem uint32_dec {c : Nat} (h0 : 0 < c) (hM : c < UINT32_MOD) :
    (c + (UINT32_MOD - 1)) % UINT32_MOD = c - 1 := by
  unfold UINT32_MOD at *
  omega

theorem uint32_inc {c : Nat} (hM : c + 1 < UINT32_MOD) : (c + 1) % UINT32_MOD = c + 1 :=
  Nat.mod_eq_of_lt hM

theorem setNode_queue_ok {s : State} {p : Ptr} {n : Node} (m : Node) (hq : s.queue_ok)
    (hn : s.node p = some n) : (s.setNode p m).queue_ok := by
  refine ⟨hq.1, ?_⟩
  intro q hqm
  have h := hq.2 q hqm
  by_cases ha : q.addr = p.addr
  · obtain ⟨k, hk⟩ := Option.isSome_iff_exists.mp h
    have hv := node_valid hk
    have hp := (node_valid hn).2.1
    simp [State.node, State.setNode, hv.1, hp, ha]
  · rw [node_setNode_other s p q m ha]
    exact h

theorem retire_queue_ok {s : State} {p : Ptr} {n : Node} (hq : s.queue_ok)
    (hn : s.node p = some n) : (s.retire p n).queue_ok := by
  have hv := node_valid hn
  constructor
  · simp only [State.retire, rqueue_write, List.length_append, List.length_singleton]
    have := hq.1
    omega
  · intro q hqm
    simp only [State.retire, rqueue_write, List.mem_append, List.mem_singleton] at hqm
    by_cases ha : q.addr = p.addr
    · have hqv : q.mark = false ∧ q.addr ≠ 0 := by
        rcases hqm with h | h
        · obtain ⟨k, hk⟩ := Option.isSome_iff_exists.mp (hq.2 q h)
          exact ⟨(node_valid hk).1, (node_valid hk).2.1⟩
        · rw [h]
          exact ⟨hv.1, hv.2.1⟩
      simp [State.node, State.retire, hqv.1, hv.2.1, ha]
    · have hne : q ≠ p := fun h => ha (by rw [h])
      rcases hqm with h | h
      · have := hq.2 q h
        simpa [State.node, State.retire, Function.update_noteq ha] using this
      · exact absurd h hne

theorem sweep_if_gc (s : State) (hq : s.queue_ok) :
    (if s.backlog > s.refcnt.gc_threshold then gc false s else some s) = some s.sweep_if := by
  unfold State.sweep_if
  split
  · rw [gc_swept false s hq]
    simp
  · rfl

theorem atomic_read_count_eq {s : State} {ref : Ptr} {n : Node} (hn : s.node ref = some n) :
    atomic_read_count s ref = some n.count := by
  simp [atomic_read_count, hn]

theorem atomic_read_delete_eq {s : State} {ref : Ptr} {n : Node} (hn : s.node ref = some n) :
    atomic_read_delete s ref = some n.delete := by
  simp [atomic_read_delete, hn]

theorem atomic_increment_count_eq {s : State} {ref : Ptr} {n : Node} (hn : s.node ref = some n) :
    atomic_increment_count s ref =
      some (s.setNode ref { n with count := (n.count + 1) % UINT32_MOD }) := by
  simp [atomic_increment_count, hn]

theorem atomic_decrement_count_eq {s : State} {ref : Ptr} {n : Node} (hn : s.node ref = some n) :
    atomic_decrement_count s ref =
      some (s.setNode ref { n with count := (n.count + (UINT32_MOD - 1)) % UINT32_MOD }) := by
  simp [atomic_decrement_count, hn]

theorem atomic_cas_delete_hit {s : State} {ref : Ptr} {n : Node} (new : Nat)
    (hn : s.node ref = some n) :
    atomic_cas_delete s ref n.delete new = some (true, s.setNode ref { n with delete := new }) := by
  simp [atomic_cas_delete, hn]

theorem atomic_cas_delete_miss {s : State} {ref : Ptr} {n : Node} {old : Nat} (new : Nat)
    (hn : s.node ref = some n) (hd : n.delete ≠ old) :
    atomic_cas_delete s ref old new = some (false, s) := by
  simp [atomic_cas_delete, hn, hd]

theorem release_gate_retire {s : State} {ref : Ptr} {n : Node} (hn : s.node ref = some n)
    (hd : n.delete = 0) (hc : n.count = 0) :
    release_gate ref s = some (s.retire ref n, true) := by
  have h1 : (s.setNode ref { n with delete := 1 }).node ref = some { n with delete := 1 } :=
    node_setNode_self _ hn
  have hcas := atomic_cas_delete_hit 1 hn
  rw [hd] at hcas
  unfold release_gate
  rw [hcas]
  simp only []
  rw [atomic_read_count_eq h1]
  simp only [hc, if_true]
  cases hcb : s.refcnt.terminate_node_cb <;>
    simp [State.retire, State.setNode, State.emit, State.setQueue, retire_events, hcb]

theorem release_gate_live {s : State} {ref : Ptr} {n : Node} (hn : s.node ref = some n)
    (hc : n.count ≠ 0) :
    release_gate ref s = some (s, false) := by
  unfold release_gate
  by_cases hd : n.delete = 0
  · have h1 : (s.setNode ref { n with delete := 1 }).node ref = some { n with delete := 1 } :=
      node_setNode_self _ hn
    have hcas := atomic_cas_delete_hit 1 hn
    rw [hd] at hcas
    have hback := atomic_cas_delete_hit 0 h1
    have hs : (s.setNode ref { n with delete := 1 }).setNode ref
        { ({ n with delete := 1 } : Node) with delete := 0 } = s := by
      rw [setNode_setNode]
      have : ({ ptr := n.ptr, count := n.count, delete := 0 } : Node) = n := by
        cases n
        simp_all
      simp only [this]
      exact setNode_same hn
    rw [hs] at hback
    rw [hcas]
    simp only []
    rw [atomic_read_count_eq h1]
    simp only [hc, if_false]
    rw [hback]
    rfl
  · rw [atomic_cas_delete_miss 1 hn hd]

theorem release_ref_live {s : State} {ref : Ptr} {n : Node} (hq : s.queue_ok)
    (hn : s.node ref = some n) (hc : 2 ≤ n.count) (hM : n.count < UINT32_MOD) :
    release_ref .dom ref s =
      some (ref, (s.setNode ref { n with count := n.count - 1 }).sweep_if) := by
  have h1 : (s.setNode ref { n with count := n.count - 1 }).node ref =
      some { n with count := n.count - 1 } := node_setNode_self _ hn
  have hg := release_gate_live h1 (by simp only; omega)
  have hq1 := setNode_queue_ok { n with count := n.count - 1 } hq hn
  have hdec := atomic_decrement_count_eq hn
  rw [uint32_dec (show 0 < n.count by omega) hM] at hdec
  unfold release_ref
  simp only []
  rw [atomic_read_count_eq hn]
  simp only [show n.count > 0 by omega, if_true]
  rw [hdec]
  simp only []
  rw [hg]
  simp only []
  rw [sweep_if_gc _ hq1]
  rfl

theorem release_ref_last {s : State} {ref : Ptr} {n : Node} (hq : s.queue_ok)
    (hn : s.node ref = some n) (hd : n.delete = 0) (hc : n.count ≤ 1) :
    release_ref .dom ref s = some (NULL, (s.retire ref n).sweep_if) := by
  have hq2 := retire_queue_ok hq hn
  unfold release_ref
  simp only []
  rw [atomic_read_count_eq hn]
  by_cases h0 : n.count = 0
  · have hg := release_gate_retire hn hd h0
    simp only [h0, gt_iff_lt, Nat.lt_irrefl, if_false]
    rw [hg]
    simp only []
    rw [sweep_if_gc _ hq2]
    rfl
  · have h1 : n.count = 1 := by omega
    have hn1 : (s.setNode ref { n with count := 0 }).node ref = some { n with count := 0 } :=
      node_setNode_self _ hn
    have hg := release_gate_retire hn1 hd rfl
    have hr : (s.setNode ref { n with count := 0 }).retire ref { n with count := 0 } =
        s.retire ref n := by
      simp [State.retire, State.setNode, retire_events]
    rw [hr] at hg
    have hdec := atomic_decrement_count_eq hn
    rw [h1, show (1 + (UINT32_MOD - 1)) % UINT32_MOD = 0 by decide] at hdec
    simp only [h1, gt_iff_lt, Nat.zero_lt_one, if_true]
    rw [hdec]
    simp only []
    rw [hg]
    simp only []
    rw [sweep_if_gc _ hq2]
    rfl

/-! ## What a sweep adds to the trace -/

theorem sweep_if_eq_swept (s : State) : s.sweep_if = s.swept s.sweep_k := by
  unfold State.sweep_if State.sweep_k
  split
  · rfl
  · rw [swept_zero]

theorem trace_sweep_if (s : State) :
    s.sweep_if.trace =
      s.trace ++ sweep_events s (s.refcnt.free_list.items.take s.sweep_k) := by
  rw [sweep_if_eq_swept]
  rfl

@[simp] theorem node_sweep_if (s : State) (p : Ptr) : s.sweep_if.node p = s.node p := by
  rw [sweep_if_eq_swept]
  rfl

@[simp] theorem writes_sweep_if (s : State) :
    s.sweep_if.refcnt.free_list.writes = s.refcnt.free_list.writes := by
  rw [sweep_if_eq_swept]
  rfl

theorem sweep_events_terminated (s : State) (ps : List Ptr) :
    (sweep_events s ps).filterMap Event.terminated = [] := by
  induction ps with
  | nil => rfl
  | cons p ps ih =>
    simp only [sweep_events, List.flatMap_cons, List.filterMap_append] at ih ⊢
    rw [ih]
    unfold sweep_one
    cases s.node p <;> cases s.refcnt.free_node_ptr_cb <;> simp [Event.terminated]

theorem sweep_events_pushed (s : State) (ps : List Ptr) :
    (sweep_events s ps).filterMap Event.pushed = [] := by
  induction ps with
  | nil => rfl
  | cons p ps ih =>
    simp only [sweep_events, List.flatMap_cons, List.filterMap_append] at ih ⊢
    rw [ih]
    unfold sweep_one
    cases s.node p <;> cases s.refcnt.free_node_ptr_cb <;> simp [Event.pushed]

theorem sweep_events_freed (s : State) (ps : List Ptr)
    (hv : ∀ p ∈ ps, (s.node p).isSome = true) :
    (sweep_events s ps).filterMap Event.freed = ps := by
  induction ps with
  | nil => rfl
  | cons p ps ih =>
    simp only [sweep_events, List.flatMap_cons, List.filterMap_append] at ih ⊢
    rw [ih (fun q hq => hv q (List.mem_cons_of_mem _ hq))]
    obtain ⟨n, hn⟩ := Option.isSome_iff_exists.mp (hv p (List.mem_cons_self _ _))
    unfold sweep_one
    rw [hn]
    cases s.refcnt.free_node_ptr_cb <;> simp [Event.freed]

theorem sweep_events_freed_payload (s : State) (ps : List Ptr)
    (hv : ∀ p ∈ ps, (s.node p).isSome = true) :
    (sweep_events s ps).filterMap Event.freed_payload =
      if s.refcnt.free_node_ptr_cb then
        ps.filterMap fun p => (s.node p).map fun n => (p, n.ptr)
      else [] := by
  induction ps with
  | nil => simp [sweep_events]
  | cons p ps ih =>
    simp only [sweep_events, List.flatMap_cons, List.filterMap_append] at ih ⊢
    rw [ih (fun q hq => hv q (List.mem_cons_of_mem _ hq))]
    obtain ⟨n, hn⟩ := Option.isSome_iff_exists.mp (hv p (List.mem_cons_self _ _))
    unfold sweep_one
    rw [hn]
    cases s.refcnt.free_node_ptr_cb <;> simp [Event.freed_payload, hn]

theorem retire_events_terminated (s : State) (ref : Ptr) :
    (retire_events s ref).filterMap Event.terminated =
      if s.refcnt.terminate_node_cb then [ref] else [] := by
  unfold retire_events
  cases s.refcnt.terminate_node_cb <;> simp [Event.terminated]

theorem retire_events_pushed (s : State) (ref : Ptr) :
    (retire_events s ref).filterMap Event.pushed = [ref] := by
  unfold retire_events
  cases s.refcnt.terminate_node_cb <;> simp [Event.pushed]

theorem node_retire_self {s : State} {ref : Ptr} {n : Node} (hn : s.node ref = some n) :
    (s.retire ref n).node ref = some { n with count := 0, delete := 1 } := by
  have hv := node_valid hn
  simp [State.node, State.retire, hv.1, hv.2.1]

theorem node_retire_other (s : State) (ref q : Ptr) (n : Node) (h : q.addr ≠ ref.addr) :
    (s.retire ref n).node q = s.node q := by
  simp [State.node, State.retire, Function.update_noteq h]

/-! ## Claims -/

/-- C1: `release_ref` with a non-null domain on a node whose gate is clear.
With count `c >= 2` on entry the count becomes `c - 1`, the gate is clear on
return, no terminate callback and no push happen, and the node pointer is
returned.  With `c <= 1` the count is 0, the gate stays set, the terminate
callback (when configured) is called exactly once with this node, the node is
pushed exactly once (cumulative writes grow by one) and `NULL` is returned.  No
other node is touched. -/
theorem release_ref_by_count (s : State) (ref : Ptr) (n : Node) (hq : s.queue_ok)
    (hn : s.node ref = some n) (hd : n.delete = 0) (hM : n.count < UINT32_MOD) :
    ∃ r s1 evs, release_ref .dom ref s = some (r, s1) ∧ s1.trace = s.trace ++ evs ∧
      (∀ q : Ptr, q.addr ≠ ref.addr → s1.node q = s.node q) ∧
      (2 ≤ n.count →
        r = ref ∧ s1.node ref = some { ptr := n.ptr, count := n.count - 1, delete := 0 } ∧
        evs.filterMap Event.terminated = [] ∧ evs.filterMap Event.pushed = [] ∧
        s1.refcnt.free_list.writes = s.refcnt.free_list.writes) ∧
      (n.count ≤ 1 →
        r = NULL ∧ s1.node ref = some { ptr := n.ptr, count := 0, delete := 1 } ∧
        evs.filterMap Event.terminated = (if s.refcnt.terminate_node_cb then [ref] else []) ∧
        evs.filterMap Event.pushed = [ref] ∧
        s1.refcnt.free_list.writes = s.refcnt.free_list.writes + 1) := by
  by_cases hc : 2 ≤ n.count
  · refine ⟨ref, _, _, release_ref_live hq hn hc hM, trace_sweep_if _, ?_, ?_, fun h => by omega⟩
    · intro q hqa
      rw [node_sweep_if, node_setNode_other s ref q _ hqa]
    · intro _
      refine ⟨rfl, ?_, sweep_events_terminated _ _, sweep_events_pushed _ _, ?_⟩
      · rw [node_sweep_if, node_setNode_self _ hn, ← hd]
      · rw [writes_sweep_if]
        rfl
  · have hc1 : n.count ≤ 1 := by omega
    refine ⟨NULL, _, retire_events s ref ++ sweep_events (s.retire ref n)
      ((s.retire ref n).refcnt.free_list.items.take (s.retire ref n).sweep_k),
      release_ref_last hq hn hd hc1, ?_, ?_, fun h => absurd h hc, ?_⟩
    · rw [trace_sweep_if, ← List.append_assoc]
      rfl
    · intro q hqa
      rw [node_sweep_if, node_retire_other s ref q n hqa]
    · intro _
      refine ⟨rfl, ?_, ?_, ?_, ?_⟩
      · rw [node_sweep_if, node_retire_self hn]
      · rw [List.filterMap_append, sweep_events_terminated, retire_events_terminated,
          List.append_nil]
      · rw [List.filterMap_append, sweep_events_pushed, retire_events_pushed, List.append_nil]
      · rw [writes_sweep_if]
        rfl

/-- Witness of C1: a node with payload 7, count 2 and a clear gate. -/
theorem release_ref_by_count_witness :
    (State.single 4 7 2 0).queue_ok ∧
    (State.single 4 7 2 0).node ⟨1, false⟩ = some ⟨7, 2, 0⟩ ∧
    ∃ r s1 evs, release_ref .dom ⟨1, false⟩ (State.single 4 7 2 0) = some (r, s1) ∧
      s1.trace = (State.single 4 7 2 0).trace ++ evs ∧
      (∀ q : Ptr, q.addr ≠ (⟨1, false⟩ : Ptr).addr → s1.node q = (State.single 4 7 2 0).node q) ∧
      (2 ≤ (⟨7, 2, 0⟩ : Node).count →
        r = ⟨1, false⟩ ∧
        s1.node ⟨1, false⟩ =
          some { ptr := (⟨7, 2, 0⟩ : Node).ptr, count := (⟨7, 2, 0⟩ : Node).count - 1, delete := 0 } ∧
        evs.filterMap Event.terminated = [] ∧ evs.filterMap Event.pushed = [] ∧
        s1.refcnt.free_list.writes = (State.single 4 7 2 0).refcnt.free_list.writes) ∧
      ((⟨7, 2, 0⟩ : Node).count ≤ 1 →
        r = NULL ∧
        s1.node ⟨1, false⟩ = some { ptr := (⟨7, 2, 0⟩ : Node).ptr, count := 0, delete := 1 } ∧
        evs.filterMap Event.terminated =
          (if (State.single 4 7 2 0).refcnt.terminate_node_cb then [⟨1, false⟩] else []) ∧
        evs.filterMap Event.pushed = [⟨1, false⟩] ∧
        s1.refcnt.free_list.writes = (State.single 4 7 2 0).refcnt.free_list.writes + 1) :=
  ⟨by decide, rfl,
    release_ref_by_count (State.single 4 7 2 0) ⟨1, false⟩ ⟨7, 2, 0⟩ (by decide) rfl rfl
      (by decide)⟩

/-! ## Repeated release followed by the forced sweep -/

theorem sweep_one_eq {s : State} {p : Ptr} {n : Node} (hn : s.node p = some n) :
    sweep_one s p = free_events s.refcnt.free_node_ptr_cb p n.ptr := by
  simp [sweep_one, hn, free_events]

theorem pending_trace_swept (s : State) (k : Nat) :
    (s.swept k).pending_trace = s.pending_trace := by
  have hc : sweep_events (s.swept k) (s.refcnt.free_list.items.drop k) =
      sweep_events s (s.refcnt.free_list.items.drop k) :=
    sweep_events_congr s (s.swept k) _ (fun _ => rfl) rfl
  have hs : (s.swept k).pending_trace =
      (s.trace ++ sweep_events s (s.refcnt.free_list.items.take k)) ++
        sweep_events (s.swept k) (s.refcnt.free_list.items.drop k) := rfl
  rw [hs, hc, List.append_assoc, sweep_events, sweep_events, ← List.flatMap_append,
    List.take_append_drop]
  rfl

theorem gc_force_trace (s : State) (hq : s.queue_ok) :
    ∃ s1, gc true s = some s1 ∧ s1.trace = s.pending_trace ∧
      s1.refcnt.free_list.items = [] ∧ s1.backlog = 0 ∧ s1.nodes = s.nodes := by
  refine ⟨_, gc_swept true s hq, ?_, ?_, ?_, rfl⟩
  · simp [State.swept, State.pending_trace]
  · simp [State.swept]
  · simp only [State.backlog, State.swept, rqueue_write_count, rqueue_read_count, if_true]
    have := hq.1
    omega

theorem sweep_events_setNode {s : State} {ref : Ptr} {n : Node} (m : Node) (ps : List Ptr)
    (hn : s.node ref = some n) (hp : m.ptr = n.ptr) :
    sweep_events (s.setNode ref m) ps = sweep_events s ps := by
  unfold sweep_events
  congr 1
  funext p
  by_cases ha : p.addr = ref.addr
  · by_cases hv : p.mark = true ∨ p.addr = 0
    · simp [sweep_one, State.node, State.setNode, hv]
    · have hpr : p = ref := by
        have hm := (node_valid hn).1
        simp only [not_or, Bool.not_eq_true] at hv
        cases p
        cases ref
        simp_all
      rw [hpr, sweep_one_eq (node_setNode_self m hn), sweep_one_eq hn, hp]
      rfl
  · have hnode := node_setNode_other s ref p m ha
    unfold sweep_one
    rw [hnode]
    rfl

theorem sweep_events_retire {s : State} {ref : Ptr} {n : Node} (ps : List Ptr)
    (hn : s.node ref = some n) :
    sweep_events (s.retire ref n) ps = sweep_events s ps := by
  have h := sweep_events_setNode { ptr := n.ptr, count := 0, delete := 1 } ps hn rfl
  rw [← h]
  exact sweep_events_congr _ _ ps (fun _ => rfl) rfl

theorem pending_trace_retire {s : State} {ref : Ptr} {n : Node} (hn : s.node ref = some n) :
    (s.retire ref n).pending_trace =
      s.trace ++ retire_events s ref ++ sweep_events s s.refcnt.free_list.items ++
        free_events s.refcnt.free_node_ptr_cb ref n.ptr := by
  have hs : (s.retire ref n).pending_trace =
      (s.trace ++ retire_events s ref) ++
        sweep_events (s.retire ref n) (s.refcnt.free_list.items ++ [ref]) := rfl
  rw [hs, sweep_events_retire _ hn]
  simp only [sweep_events, List.flatMap_append, List.flatMap_cons, List.flatMap_nil,
    List.append_nil, sweep_one_eq hn, List.append_assoc]

theorem sweep_k_le (s : State) : s.sweep_k ≤ s.refcnt.free_list.items.length := by
  unfold State.sweep_k
  split <;> omega

theorem sweep_if_queue_ok {s : State} (hq : s.queue_ok) : s.sweep_if.queue_ok := by
  rw [sweep_if_eq_swept]
  exact swept_queue_ok s _ hq (sweep_k_le s)

theorem pending_trace_sweep_if (s : State) : s.sweep_if.pending_trace = s.pending_trace := by
  rw [sweep_if_eq_swept, pending_trace_swept]

theorem release_ref_n_succ (refcnt : RefcntPtr) (ref : Ptr) (k : Nat) (s : State) :
    release_ref_n refcnt ref (k + 1) s =
      match release_ref refcnt ref s with
      | none => none
      | some (r, s1) => (release_ref_n refcnt ref k s1).map fun rs => (r :: rs.1, rs.2) := rfl

theorem release_ref_n_trace (ref : Ptr) :
    ∀ (k : Nat) (s : State) (n : Node), s.queue_ok → s.node ref = some n → n.count = k + 1 →
      n.delete = 0 → n.count < UINT32_MOD →
      ∃ s1 A B, release_ref_n .dom ref (k + 1) s = some (List.replicate k ref ++ [NULL], s1) ∧
        s1.queue_ok ∧
        s1.pending_trace = s.trace ++ A ++ retire_events s ref ++ B ++
          free_events s.refcnt.free_node_ptr_cb ref n.ptr ∧
        A ++ B = sweep_events s s.refcnt.free_list.items := by
  intro k
  induction k with
  | zero =>
    intro s n hq hn hc hd _
    refine ⟨(s.retire ref n).sweep_if, [], sweep_events s s.refcnt.free_list.items, ?_,
      sweep_if_queue_ok (retire_queue_ok hq hn), ?_, rfl⟩
    · rw [release_ref_n_succ, release_ref_last hq hn hd (by omega)]
      rfl
    · rw [pending_trace_sweep_if, pending_trace_retire hn, List.append_nil]
  | succ k ih =>
    intro s n hq hn hc hd hM
    have hlive := release_ref_live hq hn (by omega) hM
    have hn1 : (s.setNode ref { n with count := n.count - 1 }).sweep_if.node ref =
        some { n with count := n.count - 1 } := by
      rw [node_sweep_if]
      exact node_setNode_self _ hn
    have hq1 : (s.setNode ref { n with count := n.count - 1 }).sweep_if.queue_ok :=
      sweep_if_queue_ok (setNode_queue_ok _ hq hn)
    obtain ⟨s1, A, B, hrun, hq2, htr, hAB⟩ :=
      ih _ _ hq1 hn1 (by simp only; omega) hd (by simp only; omega)
    have hev : ∀ ps, sweep_events (s.setNode ref { n with count := n.count - 1 }).sweep_if ps =
        sweep_events s ps := by
      intro ps
      rw [sweep_events_congr (s.setNode ref { n with count := n.count - 1 }) _ ps
        (fun q => node_sweep_if _ q) (by rw [sweep_if_eq_swept]; rfl)]
      exact sweep_events_setNode { n with count := n.count - 1 } ps hn rfl
    have hitems : (s.setNode ref { n with count := n.count - 1 }).sweep_if.refcnt.free_list.items =
        s.refcnt.free_list.items.drop
          (s.setNode ref { n with count := n.count - 1 }).sweep_k := by
      rw [sweep_if_eq_swept]
      rfl
    have htrace : (s.setNode ref { n with count := n.count - 1 }).sweep_if.trace =
        s.trace ++ sweep_events s (s.refcnt.free_list.items.take
          (s.setNode ref { n with count := n.count - 1 }).sweep_k) := by
      rw [trace_sweep_if, sweep_events_setNode { n with count := n.count - 1 } _ hn rfl]
      rfl
    have hret : retire_events (s.setNode ref { n with count := n.count - 1 }).sweep_if ref =
        retire_events s ref := by
      rw [sweep_if_eq_swept]
      rfl
    have hcb : (s.setNode ref { n with count := n.count - 1 }).sweep_if.refcnt.free_node_ptr_cb =
        s.refcnt.free_node_ptr_cb := by
      rw [sweep_if_eq_swept]
      rfl
    refine ⟨s1, sweep_events s (s.refcnt.free_list.items.take
      (s.setNode ref { n with count := n.count - 1 }).sweep_k) ++ A, B, ?_, hq2, ?_, ?_⟩
    · rw [release_ref_n_succ, hlive]
      simp only []
      rw [hrun]
      rfl
    · rw [htr, htrace, hret, hcb]
      simp only [List.append_assoc]
    · rw [List.append_assoc, hAB, hev, hitems, sweep_events, sweep_events, sweep_events,
        ← List.flatMap_append, List.take_append_drop]

theorem sweep_events_about (s : State) (ref : Ptr) (ps : List Ptr) (hp : ref ∉ ps) :
    ∀ e ∈ sweep_events s ps, e.about ref = false := by
  intro e he
  simp only [sweep_events, List.mem_flatMap] at he
  obtain ⟨p, hpm, hep⟩ := he
  have hne : p ≠ ref := fun h => hp (h ▸ hpm)
  unfold sweep_one at hep
  cases hnode : s.node p with
  | none => simp [hnode] at hep
  | some n =>
    simp only [hnode, List.mem_append, List.mem_singleton] at hep
    rcases hep with h | h
    · split at h
      · simp only [List.mem_singleton] at h
        simp [h, Event.about, hne]
      · simp at h
    · simp [h, Event.about, hne]

theorem freed_payload_not_about (ref : Ptr) (L : List Event)
    (h : ∀ e ∈ L, e.about ref = false) :
    (L.filterMap Event.freed_payload).filter (fun x => decide (x.1 = ref)) = [] := by
  rw [List.filter_eq_nil_iff]
  intro x hx
  simp only [List.mem_filterMap] at hx
  obtain ⟨e, he, hex⟩ := hx
  have hab := h e he
  cases e with
  | free_node_ptr_cb r a =>
    simp only [Event.freed_payload, Option.some.injEq] at hex
    simp only [Event.about, decide_eq_false_iff_not] at hab
    rw [← hex]
    simpa using hab
  | _ => simp [Event.freed_payload] at hex

theorem freed_not_about (ref : Ptr) (L : List Event) (h : ∀ e ∈ L, e.about ref = false) :
    (L.filterMap Event.freed).count ref = 0 := by
  rw [List.count_eq_zero]
  intro hx
  simp only [List.mem_filterMap] at hx
  obtain ⟨e, he, hex⟩ := hx
  have hab := h e he
  cases e with
  | free r =>
    simp only [Event.freed, Option.some.injEq] at hex
    simp only [Event.about, decide_eq_false_iff_not] at hab
    exact hab hex
  | _ => simp [Event.freed] at hex

theorem terminated_of_sweep_split (s : State) (ps : List Ptr) (A B : List Event)
    (h : A ++ B = sweep_events s ps) :
    A.filterMap Event.terminated = [] ∧ B.filterMap Event.terminated = [] := by
  have := sweep_events_terminated s ps
  rw [← h, List.filterMap_append, List.append_eq_nil] at this
  exact this

theorem free_events_terminated (cb : Bool) (ref : Ptr) (ptr : Nat) :
    (free_events cb ref ptr).filterMap Event.terminated = [] := by
  cases cb <;> simp [free_events, Event.terminated]

theorem retire_events_freed_payload (s : State) (ref : Ptr) :
    (retire_events s ref).filterMap Event.freed_payload = [] := by
  unfold retire_events
  cases s.refcnt.terminate_node_cb <;> simp [Event.freed_payload]

theorem retire_events_freed (s : State) (ref : Ptr) :
    (retire_events s ref).filterMap Event.freed = [] := by
  unfold retire_events
  cases s.refcnt.terminate_node_cb <;> simp [Event.freed]

/-- C2 (no double free): a node with count `N >= 1` and a clear gate, not yet
pending, is released `N` times in a row with a non-null domain.  The first
`N - 1` calls return the node and the last returns `NULL`; over the whole run
followed by the forced sweep `gc(refcnt, 1)` the terminate callback (when
configured) is called exactly once, with this node, the payload-free callback
(when configured) is called exactly once for this node, with its payload, and
`free` is called exactly once on it.  `refcnt_destroy` runs that same sweep. -/
theorem no_double_free (N : Nat) (s : State) (ref : Ptr) (n : Node) (hN : 1 ≤ N)
    (hq : s.queue_ok) (hn : s.node ref = some n) (hc : n.count = N) (hd : n.delete = 0)
    (hM : N < UINT32_MOD) (hp : ref ∉ s.refcnt.free_list.items) :
    ∃ s1 s2 evs,
      release_ref_n .dom ref N s = some (List.replicate (N - 1) ref ++ [NULL], s1) ∧
      gc true s1 = some s2 ∧
      refcnt_destroy s1 = some ((s2.emit .rqueue_destroy).emit .free_domain) ∧
      s2.trace = s.trace ++ evs ∧
      evs.filterMap Event.terminated = (if s.refcnt.terminate_node_cb then [ref] else []) ∧
      (evs.filterMap Event.freed_payload).filter (fun x => decide (x.1 = ref)) =
        (if s.refcnt.free_node_ptr_cb then [(ref, n.ptr)] else []) ∧
      (evs.filterMap Event.freed).count ref = 1 := by
  obtain ⟨k, rfl⟩ : ∃ k, N = k + 1 := ⟨N - 1, by omega⟩
  obtain ⟨s1, A, B, hrun, hq1, htr, hAB⟩ := release_ref_n_trace ref k s n hq hn hc hd (by omega)
  obtain ⟨s2, hgc, hs2, -, -, -⟩ := gc_force_trace s1 hq1
  have hab : ∀ e ∈ A ++ B, e.about ref = false := by
    rw [hAB]
    exact sweep_events_about s ref _ hp
  have hA : ∀ e ∈ A, e.about ref = false := fun e he => hab e (List.mem_append_left _ he)
  have hB : ∀ e ∈ B, e.about ref = false := fun e he => hab e (List.mem_append_right _ he)
  obtain ⟨htA, htB⟩ := terminated_of_sweep_split s _ A B hAB
  refine ⟨s1, s2, A ++ retire_events s ref ++ B ++
    free_events s.refcnt.free_node_ptr_cb ref n.ptr, hrun, hgc, ?_, ?_, ?_, ?_, ?_⟩
  · simp [refcnt_destroy, hgc]
  · rw [hs2, htr]
    simp only [List.append_assoc]
  · simp only [List.filterMap_append, htA, htB, retire_events_terminated,
      free_events_terminated, List.append_nil, List.nil_append]
  · simp only [List.filterMap_append, List.filter_append, freed_payload_not_about ref A hA,
      freed_payload_not_about ref B hB, retire_events_freed_payload, List.filter_nil,
      List.append_nil, List.nil_append]
    cases s.refcnt.free_node_ptr_cb <;> simp [free_events, Event.freed_payload]
  · simp only [List.filterMap_append, List.count_append, freed_not_about ref A hA,
      freed_not_about ref B hB, retire_events_freed, List.count_nil]
    cases s.refcnt.free_node_ptr_cb <;> simp [free_events, Event.freed]

/-- Witness of C2: threshold 4, node A with payload 88 and count 2 (created, then
retained once), released twice, then the forced sweep. -/
theorem no_double_free_witness :
    1 ≤ 2 ∧ (State.single 4 88 2 0).queue_ok ∧
    (State.single 4 88 2 0).node ⟨1, false⟩ = some ⟨88, 2, 0⟩ ∧
    (⟨1, false⟩ : Ptr) ∉ (State.single 4 88 2 0).refcnt.free_list.items ∧
    ∃ s1 s2 evs,
      release_ref_n .dom ⟨1, false⟩ 2 (State.single 4 88 2 0) =
        some (List.replicate (2 - 1) ⟨1, false⟩ ++ [NULL], s1) ∧
      gc true s1 = some s2 ∧
      refcnt_destroy s1 = some ((s2.emit .rqueue_destroy).emit .free_domain) ∧
      s2.trace = (State.single 4 88 2 0).trace ++ evs ∧
      evs.filterMap Event.terminated =
        (if (State.single 4 88 2 0).refcnt.terminate_node_cb then [⟨1, false⟩] else []) ∧
      (evs.filterMap Event.freed_payload).filter (fun x => decide (x.1 = ⟨1, false⟩)) =
        (if (State.single 4 88 2 0).refcnt.free_node_ptr_cb then
          [(⟨1, false⟩, (⟨88, 2, 0⟩ : Node).ptr)] else []) ∧
      (evs.filterMap Event.freed).count ⟨1, false⟩ = 1 :=
  ⟨by decide, by decide, rfl, by decide,
    no_double_free 2 (State.single 4 88 2 0) ⟨1, false⟩ ⟨88, 2, 0⟩ (by decide) (by decide) rfl
      rfl rfl (by decide) (by decide)⟩

/-- C3 (gate single-winner) fails on the code: two threads release a node of
count 2 whose gate is clear.  Thread 0 decrements, takes the gate and reads
count 1; thread 1 then decrements to 0 and loses the compare-and-swap on the
gate; thread 0 resets the gate.  Both calls are over, the count is 0, the gate
is clear, and no thread has retired the node: no terminate call, nothing
pushed. -/
theorem release_race_no_winner :
    (run_schedule ⟨1, false⟩ [0, 0, 0, 0, 1, 1, 1, 0]
        [ReleaseThread.start, ReleaseThread.start] (State.single 4 7 2 0)).map
      (fun r => (r.1, r.2.node ⟨1, false⟩, r.2.trace, r.2.refcnt.free_list.items)) =
    some ([⟨.done, false⟩, ⟨.done, false⟩], some ⟨7, 0, 0⟩, [], []) := by
  decide

/-! ## Dereferencing a link -/

theorem mark_on_iff (v : Ptr) : v = REFCNT_MARK_ON v ↔ v.mark = true := by
  cases v
  simp [REFCNT_MARK_ON]

theorem mark_off_of_unmarked {v : Ptr} (h : v.mark = false) : REFCNT_MARK_OFF v = v := by
  cases v
  simp_all [REFCNT_MARK_OFF]

theorem deref_strip (v : Ptr) :
    (if v = REFCNT_MARK_ON v then REFCNT_MARK_OFF v else v) = REFCNT_MARK_OFF v := by
  split
  · rfl
  · rename_i h
    rw [mark_on_iff] at h
    exact (mark_off_of_unmarked (by simpa using h)).symm

theorem deref_link_internal_eq (rc : RefcntPtr) (v : Ptr) (skip : Bool) (s : State) :
    deref_link_internal rc v skip s =
      if v.mark = true ∧ skip = true then some (NULL, v, s)
      else if REFCNT_MARK_OFF v = NULL then some (NULL, v, s)
      else
        match atomic_read_delete s (REFCNT_MARK_OFF v), atomic_read_count s (REFCNT_MARK_OFF v) with
        | some d, some c =>
          if ¬ (d = 1 ∧ c = 0) then
            (atomic_increment_count s (REFCNT_MARK_OFF v)).map fun s1 => (REFCNT_MARK_OFF v, v, s1)
          else some (NULL, v, s)
        | _, _ => none := by
  unfold deref_link_internal
  simp only [sync_fetch_and_add_zero]
  rw [deref_strip]
  simp only [mark_on_iff]

theorem deref_link_internal_skip (rc : RefcntPtr) (v : Ptr) (s : State) (hm : v.mark = true) :
    deref_link_internal rc v true s = some (NULL, v, s) := by
  rw [deref_link_internal_eq, if_pos ⟨hm, rfl⟩]

theorem deref_link_internal_null (rc : RefcntPtr) (v : Ptr) (skip : Bool) (s : State)
    (h0 : REFCNT_MARK_OFF v = NULL) :
    deref_link_internal rc v skip s = some (NULL, v, s) := by
  rw [deref_link_internal_eq, if_pos h0]
  split <;> rfl

theorem deref_link_internal_retired (rc : RefcntPtr) (v : Ptr) (skip : Bool) (s : State)
    (n : Node) (hn : s.node (REFCNT_MARK_OFF v) = some n) (hd : n.delete = 1)
    (hc : n.count = 0) :
    deref_link_internal rc v skip s = some (NULL, v, s) := by
  rw [deref_link_internal_eq, if_neg (node_ne_null hn), atomic_read_delete_eq hn,
    atomic_read_count_eq hn]
  simp only [hd, hc, and_self, not_true_eq_false, if_false]
  split <;> rfl

theorem deref_link_internal_pin (rc : RefcntPtr) (v : Ptr) (skip : Bool) (s : State)
    (n : Node) (hs : ¬ (v.mark = true ∧ skip = true))
    (hn : s.node (REFCNT_MARK_OFF v) = some n) (hl : ¬ (n.delete = 1 ∧ n.count = 0)) :
    deref_link_internal rc v skip s =
      some (REFCNT_MARK_OFF v, v,
        s.setNode (REFCNT_MARK_OFF v) { n with count := (n.count + 1) % UINT32_MOD }) := by
  rw [deref_link_internal_eq, if_neg hs, if_neg (node_ne_null hn), atomic_read_delete_eq hn,
    atomic_read_count_eq hn, atomic_increment_count_eq hn]
  simp only [hl, not_false_eq_true, if_true, Option.map_some']

/-- C4 as stated fails on the code: the count is a `uint32_t`.  A link holds a
node with a clear gate and count `2^32 - 1`; `deref_link` returns the node, and
its count is 0 afterwards, not one higher. -/
theorem deref_link_count_wraps :
    (deref_link .dom ⟨1, false⟩ (State.single 4 7 4294967295 0)).map
        (fun r => (r.1, r.2.1, r.2.2.node ⟨1, false⟩)) =
      some (⟨1, false⟩, ⟨1, false⟩, some ⟨7, 0, 0⟩) ∧
    (State.single 4 7 4294967295 0).node ⟨1, false⟩ = some ⟨7, 4294967295, 0⟩ := by
  decide

/-- C4 (amended): for a link value `v` whose mark-stripped pointer is null or an
allocated node, `deref_link_internal` returns `NULL` and leaves the whole state
unchanged exactly when `v` is marked and `skip_deleted` is set, or the stripped
pointer is null, or the stripped node has its gate set and count 0.  In every
other case it returns the stripped pointer, and the state differs only in that
node's count, which is one higher modulo `2^32` (exactly one higher when it
was below `2^32 - 1`).  The link keeps its content, mark included.
`deref_link` is this with `skip_deleted = 1`, `deref_link_d` with 0. -/
theorem deref_link_internal_spec (rc : RefcntPtr) (v : Ptr) (skip : Bool) (s : State)
    (hv : REFCNT_MARK_OFF v = NULL ∨ (s.node (REFCNT_MARK_OFF v)).isSome = true) :
    ((v.mark = true ∧ skip = true) ∨ REFCNT_MARK_OFF v = NULL ∨
        (∃ n, s.node (REFCNT_MARK_OFF v) = some n ∧ n.delete = 1 ∧ n.count = 0) →
      deref_link_internal rc v skip s = some (NULL, v, s)) ∧
    (¬ ((v.mark = true ∧ skip = true) ∨ REFCNT_MARK_OFF v = NULL ∨
        (∃ n, s.node (REFCNT_MARK_OFF v) = some n ∧ n.delete = 1 ∧ n.count = 0)) →
      ∃ n, s.node (REFCNT_MARK_OFF v) = some n ∧ REFCNT_MARK_OFF v ≠ NULL ∧
        deref_link_internal rc v skip s =
          some (REFCNT_MARK_OFF v, v,
            s.setNode (REFCNT_MARK_OFF v) { n with count := (n.count + 1) % UINT32_MOD }) ∧
        (n.count + 1 < UINT32_MOD → (n.count + 1) % UINT32_MOD = n.count + 1)) ∧
    deref_link rc v s = deref_link_internal rc v true s ∧
    deref_link_d rc v s = deref_link_internal rc v false s := by
  refine ⟨?_, ?_, rfl, rfl⟩
  · rintro (⟨hm, hs⟩ | h0 | ⟨n, hn, hd, hc⟩)
    · rw [hs]
      exact deref_link_internal_skip rc v s hm
    · exact deref_link_internal_null rc v skip s h0
    · exact deref_link_internal_retired rc v skip s n hn hd hc
  · intro hnot
    simp only [not_or] at hnot
    obtain ⟨hs, h0, hr⟩ := hnot
    rcases hv with h | h
    · exact absurd h h0
    · obtain ⟨n, hn⟩ := Option.isSome_iff_exists.mp h
      have hl : ¬ (n.delete = 1 ∧ n.count = 0) := fun hdc => hr ⟨n, hn, hdc.1, hdc.2⟩
      exact ⟨n, hn, h0, deref_link_internal_pin rc v skip s n hs hn hl, uint32_inc⟩

/-- Witness of C4: a marked link to a node of count 1, dereferenced with
`skip_deleted = 0`. -/
theorem deref_link_internal_spec_witness :
    (REFCNT_MARK_OFF ⟨1, true⟩ = NULL ∨
      ((State.single 4 7 1 0).node (REFCNT_MARK_OFF ⟨1, true⟩)).isSome = true) ∧
    (((⟨1, true⟩ : Ptr).mark = true ∧ false = true) ∨ REFCNT_MARK_OFF ⟨1, true⟩ = NULL ∨
        (∃ n, (State.single 4 7 1 0).node (REFCNT_MARK_OFF ⟨1, true⟩) = some n ∧
          n.delete = 1 ∧ n.count = 0) →
      deref_link_internal .dom ⟨1, true⟩ false (State.single 4 7 1 0) =
        some (NULL, ⟨1, true⟩, State.single 4 7 1 0)) ∧
    (¬ (((⟨1, true⟩ : Ptr).mark = true ∧ false = true) ∨ REFCNT_MARK_OFF ⟨1, true⟩ = NULL ∨
        (∃ n, (State.single 4 7 1 0).node (REFCNT_MARK_OFF ⟨1, true⟩) = some n ∧
          n.delete = 1 ∧ n.count = 0)) →
      ∃ n, (State.single 4 7 1 0).node (REFCNT_MARK_OFF ⟨1, true⟩) = some n ∧
        REFCNT_MARK_OFF ⟨1, true⟩ ≠ NULL ∧
        deref_link_internal .dom ⟨1, true⟩ false (State.single 4 7 1 0) =
          some (REFCNT_MARK_OFF ⟨1, true⟩, ⟨1, true⟩,
            (State.single 4 7 1 0).setNode (REFCNT_MARK_OFF ⟨1, true⟩)
              { n with count := (n.count + 1) % UINT32_MOD }) ∧
        (n.count + 1 < UINT32_MOD → (n.count + 1) % UINT32_MOD = n.count + 1)) ∧
    deref_link .dom ⟨1, true⟩ (State.single 4 7 1 0) =
      deref_link_internal .dom ⟨1, true⟩ true (State.single 4 7 1 0) ∧
    deref_link_d .dom ⟨1, true⟩ (State.single 4 7 1 0) =
      deref_link_internal .dom ⟨1, true⟩ false (State.single 4 7 1 0) :=
  ⟨Or.inr (by decide),
    deref_link_internal_spec .dom ⟨1, true⟩ false (State.single 4 7 1 0) (Or.inr (by decide))⟩

/-- C5 as stated fails on the code: `retain_ref` calls `deref_link`, which skips
a marked pointer.  On a handle carrying the mark to a node of count 1,
`retain_ref` returns `NULL` and leaves the count at 1, while `deref_link_d` on a
slot holding that handle returns the node and raises the count to 2. -/
theorem retain_ref_marked_differs :
    (retain_ref .dom ⟨1, true⟩ (State.single 4 7 1 0)).map
        (fun r => (r.1, r.2.node ⟨1, false⟩)) = some (NULL, some ⟨7, 1, 0⟩) ∧
    (deref_link_d .dom ⟨1, true⟩ (State.single 4 7 1 0)).map
        (fun r => (r.1, r.2.2.node ⟨1, false⟩)) = some (⟨1, false⟩, some ⟨7, 2, 0⟩) := by
  decide

/-- C5 (amended): `retain_ref(refcnt, h)` is `deref_link` (that is,
`deref_link_internal` with `skip_deleted = 1`) on a slot holding `h`.  For an
unmarked handle it returns the same pointer and leaves the same state as
`deref_link_d(refcnt, &h)`; for a handle carrying the removed mark it returns
`NULL` and takes no pin. -/
theorem retain_ref_spec (rc : RefcntPtr) (h : Ptr) (s : State) :
    retain_ref rc h s = (deref_link_internal rc h true s).map (fun r => (r.1, r.2.2)) ∧
    retain_ref rc h s =
      if h.mark = true then some (NULL, s)
      else (deref_link_d rc h s).map (fun r => (r.1, r.2.2)) := by
  refine ⟨rfl, ?_⟩
  unfold retain_ref deref_link deref_link_d
  split
  · rename_i hm
    rw [deref_link_internal_skip rc h s hm]
    rfl
  · rename_i hm
    have e : deref_link_internal rc h true s = deref_link_internal rc h false s := by
      rw [deref_link_internal_eq, deref_link_internal_eq,
        if_neg (show ¬ (h.mark = true ∧ true = true) from fun hc => hm hc.1),
        if_neg (show ¬ (h.mark = true ∧ false = true) from fun hc => hm hc.1)]
    rw [e]

/-- C7: when the link does not hold the expected value, `compare_and_swap_ref`
returns 0 and changes nothing: the link keeps its content and the state (every
count and gate, the deferred buffer, the trace of callbacks) is the same. -/
theorem compare_and_swap_ref_failure (rc : RefcntPtr) (link old ref : Ptr) (s : State)
    (h : link ≠ old) :
    compare_and_swap_ref rc link old ref s = some (0, link, s) := by
  simp [compare_and_swap_ref, sync_bool_compare_and_swap, h]

/-- Witness of C7: the link holds C; `compare_and_swap_ref(L, A, B)` returns 0 and
the state, with the counts of A, B and C, is unchanged. -/
theorem compare_and_swap_ref_failure_witness :
    (⟨3, false⟩ : Ptr) ≠ ⟨1, false⟩ ∧
    compare_and_swap_ref .dom ⟨3, false⟩ ⟨1, false⟩ ⟨2, false⟩ State.abc =
      some (0, ⟨3, false⟩, State.abc) :=
  ⟨by decide,
    compare_and_swap_ref_failure .dom ⟨3, false⟩ ⟨1, false⟩ ⟨2, false⟩ State.abc (by decide)⟩

/-! ## `release_ref` on an arbitrary node -/

theorem node_setNode_eq {s : State} {q : Ptr} {k : Node} (hq : s.node q = some k) (m : Node)
    (p : Ptr) : (s.setNode q m).node p = if p = q then some m else s.node p := by
  by_cases hpq : p = q
  · rw [if_pos hpq, hpq]
    exact node_setNode_self m hq
  · rw [if_neg hpq]
    by_cases ha : p.addr = q.addr
    · have hm : p.mark = true := by
        have hqm := (node_valid hq).1
        cases hp : p.mark
        · exact absurd rfl (addr_ne_of_ne hqm hp hpq |> fun h => fun _ => h ha)
        · rfl
      simp [State.node, hm]
    · exact node_setNode_other s q p m ha

theorem release_gate_miss {s : State} {ref : Ptr} {n : Node} (hn : s.node ref = some n)
    (hd : n.delete ≠ 0) : release_gate ref s = some (s, false) := by
  unfold release_gate
  rw [atomic_cas_delete_miss 1 hn hd]

theorem release_decrement {s : State} {ref : Ptr} {n : Node} (hn : s.node ref = some n) :
    (if n.count > 0 then atomic_decrement_count s ref else some s) =
      some (s.setNode ref { n with count := release_count n }) := by
  unfold release_count
  split
  · exact atomic_decrement_count_eq hn
  · have : ({ n with count := n.count } : Node) = n := by cases n; rfl
    rw [this, setNode_same hn]

theorem release_ref_eq {s : State} {ref : Ptr} {n : Node} (hq : s.queue_ok)
    (hn : s.node ref = some n) :
    release_ref .dom ref s =
      some (if n.delete = 0 ∧ release_count n = 0 then (NULL, (s.retire ref n).sweep_if)
        else (ref, (s.setNode ref { n with count := release_count n }).sweep_if)) := by
  have hn1 : (s.setNode ref { n with count := release_count n }).node ref =
      some { n with count := release_count n } := node_setNode_self _ hn
  have hq1 := setNode_queue_ok { n with count := release_count n } hq hn
  unfold release_ref
  simp only []
  rw [atomic_read_count_eq hn]
  simp only []
  rw [release_decrement hn]
  simp only []
  by_cases hr : n.delete = 0 ∧ release_count n = 0
  · have hg := release_gate_retire hn1 hr.1 hr.2
    have hret : (s.setNode ref { n with count := release_count n }).retire ref
        { n with count := release_count n } = s.retire ref n := by
      simp [State.retire, State.setNode, retire_events]
    rw [hret] at hg
    rw [hg, if_pos hr]
    simp only []
    rw [sweep_if_gc _ (retire_queue_ok hq hn)]
    rfl
  · have hg : release_gate ref (s.setNode ref { n with count := release_count n }) =
        some (s.setNode ref { n with count := release_count n }, false) := by
      by_cases hd : n.delete = 0
      · exact release_gate_live hn1 (fun h => hr ⟨hd, h⟩)
      · exact release_gate_miss hn1 hd
    rw [hg, if_neg hr]
    simp only []
    rw [sweep_if_gc _ hq1]
    rfl

theorem release_ref_other {s s1 : State} {ref r : Ptr} {n : Node} (hq : s.queue_ok)
    (hn : s.node ref = some n) (h : release_ref .dom ref s = some (r, s1)) (q : Ptr)
    (hqr : q ≠ ref) : s1.node q = s.node q := by
  rw [release_ref_eq hq hn] at h
  split at h
  · simp only [Option.some.injEq, Prod.mk.injEq] at h
    rw [← h.2, node_sweep_if]
    have h2 : (s.retire ref n).node q =
        (s.setNode ref { ptr := n.ptr, count := 0, delete := 1 }).node q := rfl
    rw [h2, node_setNode_eq hn, if_neg hqr]
  · simp only [Option.some.injEq, Prod.mk.injEq] at h
    rw [← h.2, node_sweep_if, node_setNode_eq hn, if_neg hqr]

/-! ## Replacing the target of a link -/

theorem store_ref_loop_fuel (ref : Ptr) (fuel : Nat) (link : Ptr) :
    store_ref_loop ref (fuel + 1) link = some (link, ref, 1) := by
  simp [store_ref_loop, sync_fetch_and_add_zero, sync_bool_compare_and_swap]

theorem retain_ref_pin {s : State} {ref : Ptr} {n : Node} (rc : RefcntPtr)
    (hn : s.node ref = some n) (hl : ¬ (n.delete = 1 ∧ n.count = 0)) :
    retain_ref rc ref s =
      some (ref, s.setNode ref { n with count := (n.count + 1) % UINT32_MOD }) := by
  have hm := (node_valid hn).1
  have hoff := mark_off_of_unmarked hm
  unfold retain_ref deref_link
  rw [deref_link_internal_pin rc ref true s n (by simp [hm]) (by rw [hoff]; exact hn) hl, hoff]
  rfl

theorem store_ref_eq (rc : RefcntPtr) (link ref : Ptr) (s : State) :
    store_ref rc link ref s =
      match (if ref ≠ NULL then (retain_ref rc ref s).map Prod.snd else some s) with
      | none => none
      | some s1 =>
        if link ≠ NULL then
          (release_ref rc (REFCNT_MARK_OFF link) s1).map fun r => (ref, r.2)
        else some (ref, s1) := by
  unfold store_ref
  rw [store_ref_loop_fuel]

theorem release_ref_total {s : State} {ref : Ptr} {n : Node} (hq : s.queue_ok)
    (hn : s.node ref = some n) : ∃ r s1, release_ref .dom ref s = some (r, s1) := by
  rw [release_ref_eq hq hn]
  split
  · exact ⟨_, _, rfl⟩
  · exact ⟨_, _, rfl⟩

/-- C6 as stated fails on the code when the new target is the node the link
already holds: the link holds A with count 2 and `store_ref(refcnt, L, A)` pins
A and then releases it, so the count of `ref` ends at 2, not one higher. -/
theorem store_ref_same_target :
    (State.single 4 7 2 0).node ⟨1, false⟩ = some ⟨7, 2, 0⟩ ∧
    (store_ref .dom ⟨1, false⟩ ⟨1, false⟩ (State.single 4 7 2 0)).map
        (fun r => (r.1, r.2.node ⟨1, false⟩)) = some (⟨1, false⟩, some ⟨7, 2, 0⟩) := by
  decide

theorem release_ref_state {s : State} {ref : Ptr} {n : Node} (hq : s.queue_ok)
    (hn : s.node ref = some n) :
    ∃ r, release_ref .dom ref s =
      some (r, if n.delete = 0 ∧ release_count n = 0 then (s.retire ref n).sweep_if
        else (s.setNode ref { n with count := release_count n }).sweep_if) := by
  rw [release_ref_eq hq hn]
  split
  · exact ⟨_, rfl⟩
  · exact ⟨_, rfl⟩

theorem retire_setNode (s : State) (ref : Ptr) (m n : Node) (h : m.ptr = n.ptr) :
    (s.setNode ref m).retire ref m = s.retire ref n := by
  simp [State.retire, State.setNode, retire_events, h]

/-- C6 (amended): `store_ref` with a non-null domain, on a link holding `old`
(null, a node, or a marked node), with a new target `ref` that is null or a node
`retain_ref` can pin.  Without interference the loop body runs exactly once,
whatever the fuel.  The link ends holding exactly `ref`.  The final state is the
one `release_ref(refcnt, MARK_OFF(old))` leaves when run after the pin on `ref`
(or the pinned state itself when `old` is null).  The pin raises the count of
`ref` by one modulo `2^32`, and this is the final count of `ref` whenever `ref`
is not the node the link held; the old node then ends retired (count 0, gate
set, retirement calls traced, handle pending) when its gate was clear and the
release leaves its count at zero, and with its count decremented (when
positive) otherwise.  When `ref` is the node the link already held: with a count
from 1 to `2^32 - 2` the pin and the release cancel and the state is the initial
one up to the opportunistic sweep; with a clear gate and a count of 0 or
`2^32 - 1` the release retires the node although the link holds it. -/
theorem store_ref_spec (s : State) (old ref : Ptr) (hq : s.queue_ok)
    (hold : old = NULL ∨ (s.node (REFCNT_MARK_OFF old)).isSome = true)
    (href : ref = NULL ∨ ∃ n, s.node ref = some n ∧ ¬ (n.delete = 1 ∧ n.count = 0)) :
    (∀ fuel, store_ref_loop ref (fuel + 1) old = some (old, ref, 1)) ∧
    ∃ s1 s2,
      (if ref = NULL then s1 = s else retain_ref .dom ref s = some (ref, s1)) ∧
      (if old = NULL then s2 = s1
        else ∃ r, release_ref .dom (REFCNT_MARK_OFF old) s1 = some (r, s2)) ∧
      store_ref .dom old ref s = some (ref, s2) ∧
      (∀ n, s.node ref = some n →
        s1.node ref = some { n with count := (n.count + 1) % UINT32_MOD } ∧
        (ref ≠ REFCNT_MARK_OFF old →
          s2.node ref = some { n with count := (n.count + 1) % UINT32_MOD }) ∧
        (ref = REFCNT_MARK_OFF old → 0 < n.count → n.count + 1 < UINT32_MOD →
          s2 = s.sweep_if) ∧
        (ref = REFCNT_MARK_OFF old → n.delete = 0 →
          (n.count = 0 ∨ n.count + 1 = UINT32_MOD) → s2 = (s.retire ref n).sweep_if)) ∧
      (∀ m, s.node (REFCNT_MARK_OFF old) = some m → ref ≠ REFCNT_MARK_OFF old →
        s2 = if m.delete = 0 ∧ release_count m = 0
          then (s1.retire (REFCNT_MARK_OFF old) m).sweep_if
          else (s1.setNode (REFCNT_MARK_OFF old) { m with count := release_count m }).sweep_if) := by
  refine ⟨fun fuel => store_ref_loop_fuel ref fuel old, ?_⟩
  -- the pin on `ref`
  obtain ⟨s1, hs1, hq1, hret, hnode1, hsome, hs1eq, hother⟩ : ∃ s1,
      (if ref = NULL then s1 = s else retain_ref .dom ref s = some (ref, s1)) ∧ s1.queue_ok ∧
      (if ref ≠ NULL then (retain_ref .dom ref s).map Prod.snd else some s) = some s1 ∧
      (∀ n, s.node ref = some n →
        s1.node ref = some { n with count := (n.count + 1) % UINT32_MOD }) ∧
      (∀ p, (s.node p).isSome = true → (s1.node p).isSome = true) ∧
      (∀ n, s.node ref = some n →
        s1 = s.setNode ref { n with count := (n.count + 1) % UINT32_MOD }) ∧
      (∀ p, p ≠ ref → s1.node p = s.node p) := by
    rcases href with h0 | ⟨n, hn, hl⟩
    · refine ⟨s, by rw [if_pos h0], hq, by simp [h0], ?_, fun _ h => h, ?_, fun _ _ => rfl⟩
      · intro n hn
        exact absurd h0 (node_ne_null hn)
      · intro n hn
        exact absurd h0 (node_ne_null hn)
    · have hne := node_ne_null hn
      have hpin := retain_ref_pin .dom hn hl
      refine ⟨_, by rw [if_neg hne]; exact hpin, setNode_queue_ok _ hq hn, ?_, ?_, ?_, ?_, ?_⟩
      · rw [if_pos hne, hpin]
        rfl
      · intro m hm
        rw [hn] at hm
        cases hm
        exact node_setNode_self _ hn
      · intro p hp
        rw [node_setNode_eq hn]
        split
        · rfl
        · exact hp
      · intro m hm
        rw [hn] at hm
        cases hm
        rfl
      · intro p hp
        rw [node_setNode_eq hn, if_neg hp]
  rw [store_ref_eq, hret]
  simp only []
  rcases hold with h0 | hv
  · refine ⟨s1, s1, hs1, by rw [if_pos h0], by simp [h0], ?_, ?_⟩
    · intro n hn
      have hna : ref ≠ REFCNT_MARK_OFF old := by
        intro hal
        rw [h0] at hal
        exact node_ne_null hn hal
      exact ⟨hnode1 n hn, fun _ => hnode1 n hn, fun hal => absurd hal hna,
        fun hal => absurd hal hna⟩
    · intro m hm
      rw [h0] at hm
      exact absurd rfl (node_ne_null hm)
  · obtain ⟨k, hk⟩ := Option.isSome_iff_exists.mp (hsome _ hv)
    have hne : old ≠ NULL := by
      intro h
      rw [h] at hk
      exact node_ne_null hk rfl
    obtain ⟨r, hrel⟩ := release_ref_state hq1 hk
    obtain ⟨s2, hs2⟩ : ∃ s2, s2 = if k.delete = 0 ∧ release_count k = 0
        then (s1.retire (REFCNT_MARK_OFF old) k).sweep_if
        else (s1.setNode (REFCNT_MARK_OFF old) { k with count := release_count k }).sweep_if :=
      ⟨_, rfl⟩
    rw [← hs2] at hrel
    refine ⟨s1, s2, hs1, by rw [if_neg hne]; exact ⟨r, hrel⟩, ?_, ?_, ?_⟩
    · rw [if_pos hne, hrel]
      rfl
    · intro n hn
      have hkn : ref = REFCNT_MARK_OFF old →
          k = { n with count := (n.count + 1) % UINT32_MOD } := by
        intro hal
        rw [← hal, hnode1 n hn] at hk
        exact (Option.some.inj hk).symm
      refine ⟨hnode1 n hn, ?_, ?_, ?_⟩
      · intro hdiff
        rw [release_ref_other hq1 hk hrel ref hdiff]
        exact hnode1 n hn
      · intro hal hpos hlt
        have hc1 : (n.count + 1) % UINT32_MOD = n.count + 1 := uint32_inc hlt
        have hrc : release_count { n with count := (n.count + 1) % UINT32_MOD } = n.count := by
          simp only [release_count, hc1]
          rw [if_pos (Nat.succ_pos _)]
          unfold UINT32_MOD at *
          omega
        have hback : ({ ptr := n.ptr, count := n.count, delete := n.delete } : Node) = n := by
          cases n
          rfl
        rw [hs2, hkn hal, hrc, if_neg (fun h => absurd h.2 (Nat.pos_iff_ne_zero.mp hpos)),
          ← hal, hs1eq n hn, setNode_setNode]
        simp only []
        rw [hback, setNode_same hn]
      · intro hal hd hc
        have hrc : release_count { n with count := (n.count + 1) % UINT32_MOD } = 0 := by
          simp only [release_count]
          unfold UINT32_MOD at *
          rcases hc with hc | hc
          · rw [hc]
            decide
          · rw [hc]
            decide
        rw [hs2, hkn hal, if_pos ⟨hd, hrc⟩, ← hal, hs1eq n hn,
          retire_setNode s ref { n with count := (n.count + 1) % UINT32_MOD } n rfl]
    · intro m hm hdiff
      have hkm : k = m := by
        rw [hother _ (Ne.symm hdiff), hm] at hk
        exact (Option.some.inj hk).symm
      rw [hs2, hkm]

/-- Witness of C6: the link holds A (count 2: its creation pin and the anchor)
and `store_ref(refcnt, L, B)` is run; B is pinned and A is released. -/
theorem store_ref_spec_witness :
    (State.abc_with 2).queue_ok ∧
    ((⟨1, false⟩ : Ptr) = NULL ∨
      ((State.abc_with 2).node (REFCNT_MARK_OFF ⟨1, false⟩)).isSome = true) ∧
    ((⟨2, false⟩ : Ptr) = NULL ∨
      ∃ n, (State.abc_with 2).node ⟨2, false⟩ = some n ∧ ¬ (n.delete = 1 ∧ n.count = 0)) ∧
    (∀ fuel, store_ref_loop ⟨2, false⟩ (fuel + 1) ⟨1, false⟩ =
      some (⟨1, false⟩, ⟨2, false⟩, 1)) ∧
    ∃ s1 s2,
      (if (⟨2, false⟩ : Ptr) = NULL then s1 = State.abc_with 2
        else retain_ref .dom ⟨2, false⟩ (State.abc_with 2) = some (⟨2, false⟩, s1)) ∧
      (if (⟨1, false⟩ : Ptr) = NULL then s2 = s1
        else ∃ r, release_ref .dom (REFCNT_MARK_OFF ⟨1, false⟩) s1 = some (r, s2)) ∧
      store_ref .dom ⟨1, false⟩ ⟨2, false⟩ (State.abc_with 2) = some (⟨2, false⟩, s2) ∧
      (∀ n, (State.abc_with 2).node ⟨2, false⟩ = some n →
        s1.node ⟨2, false⟩ = some { n with count := (n.count + 1) % UINT32_MOD } ∧
        ((⟨2, false⟩ : Ptr) ≠ REFCNT_MARK_OFF ⟨1, false⟩ →
          s2.node ⟨2, false⟩ = some { n with count := (n.count + 1) % UINT32_MOD }) ∧
        ((⟨2, false⟩ : Ptr) = REFCNT_MARK_OFF ⟨1, false⟩ → 0 < n.count →
          n.count + 1 < UINT32_MOD → s2 = (State.abc_with 2).sweep_if) ∧
        ((⟨2, false⟩ : Ptr) = REFCNT_MARK_OFF ⟨1, false⟩ → n.delete = 0 →
          (n.count = 0 ∨ n.count + 1 = UINT32_MOD) →
          s2 = ((State.abc_with 2).retire ⟨2, false⟩ n).sweep_if)) ∧
      (∀ m, (State.abc_with 2).node (REFCNT_MARK_OFF ⟨1, false⟩) = some m →
        (⟨2, false⟩ : Ptr) ≠ REFCNT_MARK_OFF ⟨1, false⟩ →
        s2 = if m.delete = 0 ∧ release_count m = 0
          then (s1.retire (REFCNT_MARK_OFF ⟨1, false⟩) m).sweep_if
          else (s1.setNode (REFCNT_MARK_OFF ⟨1, false⟩)
            { m with count := release_count m }).sweep_if) :=
  ⟨by decide, Or.inr rfl, Or.inr ⟨⟨20, 1, 0⟩, rfl, by decide⟩,
    store_ref_spec (State.abc_with 2) ⟨1, false⟩ ⟨2, false⟩ (by decide) (Or.inr rfl)
      (Or.inr ⟨⟨20, 1, 0⟩, rfl, by decide⟩)⟩

/-- The release half of `store_ref`, evaluated: the link holds A and receives
`NULL`.  With A at count 2 the count drops to 1; with A at count 1 the release
retires A (count 0, gate set, terminate callback and push traced). -/
theorem store_ref_release_scenario :
    (store_ref .dom ⟨1, false⟩ NULL (State.abc_with 2)).map
        (fun r => (r.1, r.2.node ⟨1, false⟩, r.2.trace, r.2.refcnt.free_list.items)) =
      some (NULL, some ⟨10, 1, 0⟩, [], []) ∧
    (store_ref .dom ⟨1, false⟩ NULL (State.abc_with 1)).map
        (fun r => (r.1, r.2.node ⟨1, false⟩, r.2.trace, r.2.refcnt.free_list.items)) =
      some (NULL, some ⟨10, 0, 1⟩,
        [.terminate_node_cb ⟨1, false⟩, .rqueue_write ⟨1, false⟩], [⟨1, false⟩]) := by
  decide

/-- Storing the node a link already holds, at the ends of the count range: with a
clear gate and count `2^32 - 1` the pin wraps the count to 0 and the release
retires the node; with a clear gate and count 0 the pin gives 1 and the release
takes it back to 0 and retires the node.  In both runs the link still holds the
node. -/
theorem store_ref_same_target_retires :
    (store_ref .dom ⟨1, false⟩ ⟨1, false⟩ (State.single 4 7 4294967295 0)).map
        (fun r => (r.1, r.2.node ⟨1, false⟩, r.2.trace, r.2.refcnt.free_list.items)) =
      some (⟨1, false⟩, some ⟨7, 0, 1⟩,
        [.terminate_node_cb ⟨1, false⟩, .rqueue_write ⟨1, false⟩], [⟨1, false⟩]) ∧
    (store_ref .dom ⟨1, false⟩ ⟨1, false⟩ (State.single 4 7 0 0)).map
        (fun r => (r.1, r.2.node ⟨1, false⟩, r.2.trace, r.2.refcnt.free_list.items)) =
      some (⟨1, false⟩, some ⟨7, 0, 1⟩,
        [.terminate_node_cb ⟨1, false⟩, .rqueue_write ⟨1, false⟩], [⟨1, false⟩]) := by
  decide

/-- The scenario of the spec: the link is null; storing A gives A count 2;
storing B then gives A count 1 and B count 2. -/
theorem store_ref_scenario :
    (store_ref .dom NULL ⟨1, false⟩ State.abc).map
        (fun r => (r.1, r.2.node ⟨1, false⟩, r.2.node ⟨2, false⟩)) =
      some (⟨1, false⟩, some ⟨10, 2, 0⟩, some ⟨20, 1, 0⟩) ∧
    ((store_ref .dom NULL ⟨1, false⟩ State.abc).bind
        (fun r => store_ref .dom r.1 ⟨2, false⟩ r.2)).map
        (fun r => (r.1, r.2.node ⟨1, false⟩, r.2.node ⟨2, false⟩)) =
      some (⟨2, false⟩, some ⟨10, 1, 0⟩, some ⟨20, 2, 0⟩) := by
  decide

/-- C8 as stated fails on the code when the old target drops to count zero.
The link holds A with count 1 and a clear gate.  `store_ref(refcnt, L, NULL)`
retires A: gate set, terminate callback called, A pushed.
`compare_and_swap_ref(refcnt, L, A, NULL)` returns 1 and only decrements: gate
clear, no callback, nothing pushed. -/
theorem compare_and_swap_ref_no_retire :
    (store_ref .dom ⟨1, false⟩ NULL (State.single 4 7 1 0)).map
        (fun r => (r.1, r.2.node ⟨1, false⟩, r.2.trace, r.2.refcnt.free_list.items)) =
      some (NULL, some ⟨7, 0, 1⟩,
        [.terminate_node_cb ⟨1, false⟩, .rqueue_write ⟨1, false⟩], [⟨1, false⟩]) ∧
    (compare_and_swap_ref .dom ⟨1, false⟩ ⟨1, false⟩ NULL (State.single 4 7 1 0)).map
        (fun r => (r.1, r.2.1, r.2.2.node ⟨1, false⟩, r.2.2.trace,
          r.2.2.refcnt.free_list.items)) =
      some (1, NULL, some ⟨7, 0, 0⟩, [], []) := by
  decide

theorem sweep_if_idle {s : State} (h : s.backlog ≤ s.refcnt.gc_threshold) : s.sweep_if = s := by
  unfold State.sweep_if
  rw [if_neg (by omega)]

theorem compare_and_swap_ref_eq (rc : RefcntPtr) (old ref : Ptr) (s : State) :
    compare_and_swap_ref rc old old ref s =
      match (if ref ≠ NULL then atomic_increment_count s ref else some s) with
      | none => none
      | some s1 =>
        match (if old ≠ NULL then atomic_decrement_count s1 old else some s1) with
        | none => none
        | some s2 => some (1, ref, s2) := by
  simp [compare_and_swap_ref, sync_bool_compare_and_swap]

theorem atomic_increment_count_frame {s s1 : State} {ref : Ptr}
    (h : atomic_increment_count s ref = some s1) :
    s1.trace = s.trace ∧ s1.refcnt = s.refcnt := by
  unfold atomic_increment_count at h
  cases hn : s.node ref with
  | none => simp [hn] at h
  | some n =>
    simp only [hn, Option.map_some', Option.some.injEq] at h
    rw [← h]
    exact ⟨rfl, rfl⟩

theorem atomic_decrement_count_frame {s s1 : State} {ref : Ptr}
    (h : atomic_decrement_count s ref = some s1) :
    s1.trace = s.trace ∧ s1.refcnt = s.refcnt := by
  unfold atomic_decrement_count at h
  cases hn : s.node ref with
  | none => simp [hn] at h
  | some n =>
    simp only [hn, Option.map_some', Option.some.injEq] at h
    rw [← h]
    exact ⟨rfl, rfl⟩

theorem compare_and_swap_ref_as_store (s : State) (old ref : Ptr) (hq : s.queue_ok)
    (hb : s.backlog ≤ s.refcnt.gc_threshold)
    (href : ref = NULL ∨ ∃ n, s.node ref = some n ∧ ¬ (n.delete = 1 ∧ n.count = 0) ∧
      n.count + 1 < UINT32_MOD)
    (hold : old = NULL ∨ ∃ n, s.node old = some n ∧ 2 ≤ n.count ∧ n.count < UINT32_MOD) :
    ∃ s1 s2,
      (if ref ≠ NULL then atomic_increment_count s ref else some s) = some s1 ∧
      (if old ≠ NULL then atomic_decrement_count s1 old else some s1) = some s2 ∧
      compare_and_swap_ref .dom old old ref s = some (1, ref, s2) ∧
      store_ref .dom old ref s = some (ref, s2) := by
  -- the pin on `ref`, taken the same way by both functions
  obtain ⟨s1, hq1, hb1, hinc, hret, hold1⟩ : ∃ s1, s1.queue_ok ∧
      s1.backlog ≤ s1.refcnt.gc_threshold ∧
      (if ref ≠ NULL then atomic_increment_count s ref else some s) = some s1 ∧
      (if ref ≠ NULL then (retain_ref .dom ref s).map Prod.snd else some s) = some s1 ∧
      (old = NULL ∨ ∃ n, s1.node old = some n ∧ 2 ≤ n.count ∧ n.count < UINT32_MOD) := by
    rcases href with h0 | ⟨n, hn, hl, hM⟩
    · exact ⟨s, hq, hb, by simp [h0], by simp [h0], hold⟩
    · have hne := node_ne_null hn
      refine ⟨s.setNode ref { n with count := (n.count + 1) % UINT32_MOD },
        setNode_queue_ok _ hq hn, hb, ?_, ?_, ?_⟩
      · rw [if_pos hne, atomic_increment_count_eq hn]
      · rw [if_pos hne, retain_ref_pin .dom hn hl]
        rfl
      · rcases hold with h0 | ⟨m, hm, h2, hmM⟩
        · exact Or.inl h0
        · right
          rw [node_setNode_eq hn]
          by_cases hor : old = ref
          · rw [if_pos hor]
            rw [hor, hn] at hm
            cases hm
            refine ⟨_, rfl, ?_, ?_⟩
            · simp only [uint32_inc hM]
              omega
            · simp only [uint32_inc hM]
              exact hM
          · rw [if_neg hor]
            exact ⟨m, hm, h2, hmM⟩
  rw [compare_and_swap_ref_eq, store_ref_eq, hinc, hret]
  simp only []
  rcases hold1 with h0 | ⟨m, hm, h2, hmM⟩
  · exact ⟨s1, s1, rfl, by simp [h0], by simp [h0], by simp [h0]⟩
  · have hne := node_ne_null hm
    have hoff := mark_off_of_unmarked (node_valid hm).1
    have hdec : (if old ≠ NULL then atomic_decrement_count s1 old else some s1) =
        some (s1.setNode old { m with count := m.count - 1 }) := by
      rw [if_pos hne, atomic_decrement_count_eq hm, uint32_dec (by omega) hmM]
    refine ⟨s1, s1.setNode old { m with count := m.count - 1 }, rfl, hdec, ?_, ?_⟩
    · rw [hdec]
    · rw [if_pos hne, hoff, release_ref_live hq1 hm h2 hmM, sweep_if_idle]
      · rfl
      · exact hb1

/-- C8 (amended): a successful `compare_and_swap_ref` returns 1, puts `ref` in the
link, and adjusts the counts directly: the count of `ref` is incremented and
the count of `old` decremented, with no gate, callback, push or sweep (domain
and trace are untouched).  It leaves the same link and the same state as
`store_ref(refcnt, link, ref)` when the backlog does not exceed the threshold,
`ref` is null or a node that `retain_ref` pins without wrapping its count, and
`old` is null or an unmarked node of count at least 2.  (When the count of `old`
drops to zero the two differ: `store_ref` retires the node,
`compare_and_swap_ref` does not.) -/
theorem compare_and_swap_ref_success (s : State) (old ref : Ptr) (hq : s.queue_ok)
    (hb : s.backlog ≤ s.refcnt.gc_threshold)
    (href : ref = NULL ∨ ∃ n, s.node ref = some n ∧ ¬ (n.delete = 1 ∧ n.count = 0) ∧
      n.count + 1 < UINT32_MOD)
    (hold : old = NULL ∨ ∃ n, s.node old = some n ∧ 2 ≤ n.count ∧ n.count < UINT32_MOD) :
    ∃ s2, compare_and_swap_ref .dom old old ref s = some (1, ref, s2) ∧
      store_ref .dom old ref s = some (ref, s2) ∧
      s2.trace = s.trace ∧ s2.refcnt = s.refcnt := by
  obtain ⟨s1, s2, hinc, hdec, hcas, hstore⟩ :=
    compare_and_swap_ref_as_store s old ref hq hb href hold
  have h1 : s1.trace = s.trace ∧ s1.refcnt = s.refcnt := by
    split at hinc
    · exact atomic_increment_count_frame hinc
    · cases hinc
      exact ⟨rfl, rfl⟩
  have h2 : s2.trace = s1.trace ∧ s2.refcnt = s1.refcnt := by
    split at hdec
    · exact atomic_decrement_count_frame hdec
    · cases hdec
      exact ⟨rfl, rfl⟩
  exact ⟨s2, hcas, hstore, h2.1.trans h1.1, h2.2.trans h1.2⟩

/-- Witness of C8: the link holds A (count 2), the new target is B (count 1). -/
theorem compare_and_swap_ref_success_witness :
    (State.abc_with 2).queue_ok ∧
    (State.abc_with 2).backlog ≤ (State.abc_with 2).refcnt.gc_threshold ∧
    ∃ s2, compare_and_swap_ref .dom ⟨1, false⟩ ⟨1, false⟩ ⟨2, false⟩ (State.abc_with 2) =
        some (1, ⟨2, false⟩, s2) ∧
      store_ref .dom ⟨1, false⟩ ⟨2, false⟩ (State.abc_with 2) = some (⟨2, false⟩, s2) ∧
      s2.trace = (State.abc_with 2).trace ∧ s2.refcnt = (State.abc_with 2).refcnt :=
  ⟨by decide, by decide,
    compare_and_swap_ref_success (State.abc_with 2) ⟨1, false⟩ ⟨2, false⟩ (by decide)
      (by decide) (Or.inr ⟨⟨20, 1, 0⟩, rfl, by decide, by decide⟩)
      (Or.inr ⟨⟨10, 2, 0⟩, rfl, by decide, by decide⟩)⟩

/-! ## Pin/anchor balance on one link -/

theorem node_with_count (n : Node) (c : Nat) (h : n.count = c) :
    ({ n with count := c } : Node) = n := by
  cases n
  simp_all

theorem balanced_intro {s0 s s1 : State} {link link1 : Ptr} (hb : Balanced s0 link s)
    (hr : s1.refcnt = s.refcnt) (ht : s1.trace = s.trace)
    (hl : link1 = NULL ∨ (s.node link1).isSome = true)
    (hn : ∀ p, s1.node p =
      (s.node p).map fun n => { n with count := if p = link1 then 2 else 1 }) :
    Balanced s0 link1 s1 := by
  obtain ⟨h1, h2, _, h4, h5⟩ := hb
  refine ⟨hr.trans h1, ht.trans h2, ?_, ?_, ?_⟩
  · rcases hl with h | h
    · exact Or.inl h
    · right
      rw [hn]
      simpa using h
  · intro p
    rw [hn, ← h4]
    simp
  · intro p n hpn
    rw [hn] at hpn
    cases hsp : s.node p with
    | none => simp [hsp] at hpn
    | some m =>
      simp only [hsp, Option.map_some', Option.some.injEq] at hpn
      rw [← hpn]
      exact ⟨(h5 p m hsp).1, rfl⟩

theorem balanced_idle {s0 s : State} {link : Ptr} (hb : Balanced s0 link s)
    (hi : s0.refcnt.free_list.items = [])
    (hw : s0.refcnt.free_list.writes = s0.refcnt.free_list.reads) :
    s.queue_ok ∧ s.backlog ≤ s.refcnt.gc_threshold := by
  obtain ⟨h1, -⟩ := hb
  constructor
  · constructor
    · rw [h1, hi, hw]
      rfl
    · intro p hp
      rw [h1, hi] at hp
      cases hp
  · simp [State.backlog, rqueue_write_count, rqueue_read_count, h1, hw]

theorem balanced_adjust {s0 s : State} {link ref : Ptr} (hb : Balanced s0 link s)
    (hi : s0.refcnt.free_list.items = [])
    (hw : s0.refcnt.free_list.writes = s0.refcnt.free_list.reads)
    (href : ref = NULL ∨ (s0.node ref).isSome = true) :
    ∃ s2, compare_and_swap_ref .dom link link ref s = some (1, ref, s2) ∧
      store_ref .dom link ref s = some (ref, s2) ∧ Balanced s0 ref s2 := by
  obtain ⟨hq, hidle⟩ := balanced_idle hb hi hw
  have hb5 := hb.2.2.2.2
  have href1 : ref = NULL ∨ ∃ n, s.node ref = some n := by
    rcases href with h | h
    · exact Or.inl h
    · rw [← hb.2.2.2.1] at h
      exact Or.inr (Option.isSome_iff_exists.mp h)
  have hlink1 : link = NULL ∨ ∃ n, s.node link = some n := by
    rcases hb.2.2.1 with h | h
    · exact Or.inl h
    · exact Or.inr (Option.isSome_iff_exists.mp h)
  have hM : (2 : Nat) + 1 < UINT32_MOD := by decide
  obtain ⟨s1, s2, hinc, hdec, hcas, hstore⟩ := compare_and_swap_ref_as_store s link ref hq hidle
    (by
      rcases href1 with h | ⟨n, hn⟩
      · exact Or.inl h
      · have h5 := hb5 ref n hn
        refine Or.inr ⟨n, hn, fun hc => ?_, ?_⟩
        · rw [h5.1] at hc
          exact absurd hc.1 (by decide)
        · rw [h5.2]
          split <;> decide)
    (by
      rcases hlink1 with h | ⟨n, hn⟩
      · exact Or.inl h
      · have h5 := hb5 link n hn
        rw [if_pos rfl] at h5
        refine Or.inr ⟨n, hn, by omega, ?_⟩
        rw [h5.2]
        decide)
  refine ⟨s2, hcas, hstore, ?_⟩
  have hf1 : s1.trace = s.trace ∧ s1.refcnt = s.refcnt := by
    split at hinc
    · exact atomic_increment_count_frame hinc
    · cases hinc
      exact ⟨rfl, rfl⟩
  have hf2 : s2.trace = s1.trace ∧ s2.refcnt = s1.refcnt := by
    split at hdec
    · exact atomic_decrement_count_frame hdec
    · cases hdec
      exact ⟨rfl, rfl⟩
  refine balanced_intro hb (hf2.2.trans hf1.2) (hf2.1.trans hf1.1)
    (by
      rcases href1 with h | ⟨n, hn⟩
      · exact Or.inl h
      · exact Or.inr (by rw [hn]; rfl)) ?_
  -- the node at `p` after the pin on `ref`
  have hs1 : ∀ p, s1.node p =
      (s.node p).map fun n => { n with count := if p = ref then n.count + 1 else n.count } := by
    intro p
    rcases href1 with h | ⟨n, hn⟩
    · rw [if_neg (by simp [h])] at hinc
      cases hinc
      cases hsp : s.node p with
      | none => rfl
      | some m =>
        have : p ≠ ref := by rw [h]; exact node_ne_null hsp
        simp [this, node_with_count]
    · rw [if_pos (node_ne_null hn), atomic_increment_count_eq hn] at hinc
      cases hinc
      rw [node_setNode_eq hn]
      have hc := (hb5 ref n hn).2
      by_cases hpr : p = ref
      · rw [if_pos hpr, hpr, hn]
        have : (n.count + 1) % UINT32_MOD = n.count + 1 := by
          apply uint32_inc
          rw [hc]
          split <;> decide
        simp [this]
      · rw [if_neg hpr]
        cases hsp : s.node p with
        | none => rfl
        | some m => simp [hpr, node_with_count]
  intro p
  rcases hlink1 with h | ⟨n, hn⟩
  · rw [if_neg (by simp [h])] at hdec
    cases hdec
    rw [hs1]
    cases hsp : s.node p with
    | none => rfl
    | some m =>
      have hne : p ≠ link := by rw [h]; exact node_ne_null hsp
      have hc := (hb5 p m hsp).2
      rw [if_neg hne] at hc
      simp only [Option.map_some', hc]
  · have hl1 : ∃ m, s1.node link = some m ∧
        m = { n with count := if link = ref then n.count + 1 else n.count } := by
      rw [hs1 link, hn]
      exact ⟨_, rfl, rfl⟩
    obtain ⟨m, hm, hmeq⟩ := hl1
    rw [if_pos (node_ne_null hn), atomic_decrement_count_eq hm] at hdec
    cases hdec
    rw [node_setNode_eq hm]
    have hcl := (hb5 link n hn).2
    rw [if_pos rfl] at hcl
    by_cases hpl : p = link
    · rw [if_pos hpl, hpl, hn, hmeq]
      by_cases hlr : link = ref <;> simp [hlr, hcl, UINT32_MOD]
    · rw [if_neg hpl, hs1]
      cases hsp : s.node p with
      | none => rfl
      | some k =>
        have hc := (hb5 p k hsp).2
        rw [if_neg hpl] at hc
        simp only [Option.map_some', hc]

theorem balanced_cas {s0 s : State} {link ref : Ptr} (old : Ptr) (hb : Balanced s0 link s)
    (hi : s0.refcnt.free_list.items = [])
    (hw : s0.refcnt.free_list.writes = s0.refcnt.free_list.reads)
    (href : ref = NULL ∨ (s0.node ref).isSome = true) :
    ∃ r link1 s1, compare_and_swap_ref .dom link old ref s = some (r, link1, s1) ∧
      Balanced s0 link1 s1 := by
  by_cases h : link = old
  · obtain ⟨s2, hcas, -, hb2⟩ := balanced_adjust hb hi hw href
    rw [← h]
    exact ⟨1, ref, s2, hcas, hb2⟩
  · refine ⟨0, link, s, ?_, hb⟩
    simp [compare_and_swap_ref, sync_bool_compare_and_swap, h]

theorem run_link_ops_balanced (s0 : State) (hi : s0.refcnt.free_list.items = [])
    (hw : s0.refcnt.free_list.writes = s0.refcnt.free_list.reads) :
    ∀ (ops : List LinkOp) (link : Ptr) (s : State), Balanced s0 link s →
      (∀ op ∈ ops, ∀ p ∈ op.args, p = NULL ∨ (s0.node p).isSome = true) →
      ∃ link1 s1, run_link_ops .dom ops link s = some (link1, s1) ∧ Balanced s0 link1 s1 := by
  intro ops
  induction ops with
  | nil => intro link s hb _; exact ⟨link, s, rfl, hb⟩
  | cons op ops ih =>
    intro link s hb hargs
    have hrest : ∀ op1 ∈ ops, ∀ p ∈ op1.args, p = NULL ∨ (s0.node p).isSome = true :=
      fun op1 h1 => hargs op1 (List.mem_cons_of_mem _ h1)
    cases op with
    | store ref =>
      have href := hargs (.store ref) (List.mem_cons_self _ _) ref (by simp [LinkOp.args])
      obtain ⟨s2, -, hstore, hb2⟩ := balanced_adjust hb hi hw href
      obtain ⟨link1, s1, hrun, hb1⟩ := ih ref s2 hb2 hrest
      refine ⟨link1, s1, ?_, hb1⟩
      simp only [run_link_ops, hstore]
      exact hrun
    | cas old ref =>
      have href := hargs (.cas old ref) (List.mem_cons_self _ _) ref (by simp [LinkOp.args])
      obtain ⟨r, link2, s2, hcas, hb2⟩ := balanced_cas old hb hi hw href
      obtain ⟨link1, s1, hrun, hb1⟩ := ih link2 s2 hb2 hrest
      refine ⟨link1, s1, ?_, hb1⟩
      simp only [run_link_ops, hcas]
      exact hrun

/-- C9 as stated fails on the code when the calls are made with a `NULL` domain:
`release_ref` then returns at line 114 without decrementing, so `store_ref`
never removes an anchor.  On the fresh nodes A, B, C and a null link,
`store_ref(NULL, L, A)` followed by `store_ref(NULL, L, B)` leaves the link
holding B while A, no longer held, still has count 2. -/
theorem pin_anchor_null_domain :
    (run_link_ops .null [.store ⟨1, false⟩, .store ⟨2, false⟩] NULL State.abc).map
        (fun r => (r.1, r.2.node ⟨1, false⟩, r.2.node ⟨2, false⟩, r.2.node ⟨3, false⟩)) =
      some (⟨2, false⟩, some ⟨10, 2, 0⟩, some ⟨20, 2, 0⟩, some ⟨30, 1, 0⟩) := by
  decide

/-- C9 (amended, pin/anchor balance): start from a null link, nodes that all
have count 1 and a clear gate, and an empty deferred buffer.  After every finite
sequence of `store_ref` and `compare_and_swap_ref` calls on that link, made with
a non-null domain, whose node arguments are null or those nodes, the run is
defined, the node the link holds has count exactly 2 and every other node count
exactly 1, every gate is clear, and nothing was retired: trace and domain (with
its empty buffer) are unchanged.  As this holds after every call of the
sequence, no count ever left the values 1 and 2 between calls. -/
theorem pin_anchor_balance (s0 : State) (ops : List LinkOp)
    (hfresh : ∀ p n, s0.node p = some n → n.count = 1 ∧ n.delete = 0)
    (hi : s0.refcnt.free_list.items = [])
    (hw : s0.refcnt.free_list.writes = s0.refcnt.free_list.reads)
    (hargs : ∀ op ∈ ops, ∀ p ∈ op.args, p = NULL ∨ (s0.node p).isSome = true) :
    ∃ link s, run_link_ops .dom ops NULL s0 = some (link, s) ∧
      (link = NULL ∨ (s.node link).isSome = true) ∧
      (∀ p n, s.node p = some n → n.delete = 0 ∧ n.count = if p = link then 2 else 1) ∧
      (∀ p, (s.node p).isSome = (s0.node p).isSome) ∧
      s.trace = s0.trace ∧ s.refcnt = s0.refcnt ∧ s.refcnt.free_list.items = [] := by
  have h0 : Balanced s0 NULL s0 := by
    refine ⟨rfl, rfl, Or.inl rfl, fun _ => rfl, ?_⟩
    intro p n hpn
    rw [if_neg (node_ne_null hpn)]
    exact ⟨(hfresh p n hpn).2, (hfresh p n hpn).1⟩
  obtain ⟨link, s, hrun, h1, h2, h3, h4, h5⟩ := run_link_ops_balanced s0 hi hw ops NULL s0 h0 hargs
  exact ⟨link, s, hrun, h3, h5, h4, h2, h1, by rw [h1, hi]⟩

theorem abc_fresh : ∀ p n, State.abc.node p = some n → n.count = 1 ∧ n.delete = 0 := by
  intro p n h
  have hv := (node_valid h).2.2
  simp only [State.abc, new_node, State.setNode, State.fresh, Function.update, eq_rec_constant,
    dite_eq_ite] at hv
  split_ifs at hv <;> cases hv <;> exact ⟨by decide, rfl⟩

/-- Witness of C9: on the fresh nodes A, B, C the link receives A, is swapped
from A to B, sees a failing swap expecting A, is swapped to the same node B,
receives C and is finally cleared. -/
theorem pin_anchor_balance_witness :
    State.abc.refcnt.free_list.items = [] ∧
    State.abc.refcnt.free_list.writes = State.abc.refcnt.free_list.reads ∧
    ∃ link s,
      run_link_ops .dom
        [.store ⟨1, false⟩, .cas ⟨1, false⟩ ⟨2, false⟩, .cas ⟨1, false⟩ ⟨3, false⟩,
          .cas ⟨2, false⟩ ⟨2, false⟩, .store ⟨3, false⟩, .store NULL] NULL State.abc =
        some (link, s) ∧
      (link = NULL ∨ (s.node link).isSome = true) ∧
      (∀ p n, s.node p = some n → n.delete = 0 ∧ n.count = if p = link then 2 else 1) ∧
      (∀ p, (s.node p).isSome = (State.abc.node p).isSome) ∧
      s.trace = State.abc.trace ∧ s.refcnt = State.abc.refcnt ∧
      s.refcnt.free_list.items = [] :=
  ⟨rfl, rfl,
    pin_anchor_balance State.abc
      [.store ⟨1, false⟩, .cas ⟨1, false⟩ ⟨2, false⟩, .cas ⟨1, false⟩ ⟨3, false⟩,
        .cas ⟨2, false⟩ ⟨2, false⟩, .store ⟨3, false⟩, .store NULL]
      abc_fresh rfl rfl (by decide)⟩

/-! ## The forced sweep -/

theorem pending_payloads_fst (s : State) (ps : List Ptr)
    (hv : ∀ p ∈ ps, (s.node p).isSome = true) :
    (ps.filterMap fun p => (s.node p).map fun n => (p, n.ptr)).map Prod.fst = ps := by
  induction ps with
  | nil => rfl
  | cons p ps ih =>
    obtain ⟨n, hn⟩ := Option.isSome_iff_exists.mp (hv p (List.mem_cons_self _ _))
    rw [List.filterMap_cons_some (by rw [hn]; rfl), List.map_cons,
      ih (fun q hq => hv q (List.mem_cons_of_mem _ hq))]

/-- C10 (backpressure): in every state whose deferred buffer is consistent (the
counters account for the pending handles, which are allocated nodes), the
forced sweep `gc(refcnt, 1)` returns, with any amount of fuel above the number
of pending handles, and leaves the buffer empty with cumulative writes equal to
cumulative reads.  It changes no node record; it calls `free` once on each
pending handle in arrival order and, when the payload-free callback is
configured, calls it exactly once per pending handle with that node's payload,
in the same order (otherwise never).  `refcnt_destroy` runs this sweep and then
destroys the buffer and frees the domain. -/
theorem gc_force_drains (s : State) (hq : s.queue_ok) :
    ∃ s1 evs, gc true s = some s1 ∧
      (∀ fuel, s.refcnt.free_list.items.length < fuel → gc_loop 0 fuel s = some s1) ∧
      s1.refcnt.free_list.items = [] ∧
      s1.refcnt.free_list.writes = s1.refcnt.free_list.reads ∧
      rqueue_write_count s1.refcnt.free_list - rqueue_read_count s1.refcnt.free_list = 0 ∧
      s1.nodes = s.nodes ∧ s1.trace = s.trace ++ evs ∧
      evs.filterMap Event.freed = s.refcnt.free_list.items ∧
      evs.filterMap Event.freed_payload =
        (if s.refcnt.free_node_ptr_cb then
          s.refcnt.free_list.items.filterMap fun p => (s.node p).map fun n => (p, n.ptr)
        else []) ∧
      (s.refcnt.free_node_ptr_cb = true →
        (evs.filterMap Event.freed_payload).map Prod.fst = s.refcnt.free_list.items) ∧
      refcnt_destroy s = some ((s1.emit .rqueue_destroy).emit .free_domain) := by
  obtain ⟨s1, hgc, htr, hitems, hback, hnodes⟩ := gc_force_trace s hq
  have hs1 : s1 = s.swept s.refcnt.free_list.items.length := by
    have h := gc_swept true s hq
    rw [hgc] at h
    simpa using h
  refine ⟨s1, sweep_events s s.refcnt.free_list.items, hgc, ?_, hitems, ?_, hback, hnodes, htr,
    sweep_events_freed s _ hq.2, sweep_events_freed_payload s _ hq.2, ?_, ?_⟩
  · intro fuel hf
    rw [hs1]
    exact gc_loop_swept 0 fuel s hq (by omega)
  · rw [hs1]
    simp only [State.swept]
    exact hq.1
  · intro hcb
    rw [sweep_events_freed_payload s _ hq.2, if_pos hcb]
    exact pending_payloads_fst s _ hq.2
  · simp [refcnt_destroy, hgc]

/-- Witness of C10: two retired nodes are pending when the forced sweep runs. -/
theorem gc_force_drains_witness :
    State.retired_ab.queue_ok ∧
    ∃ s1 evs, gc true State.retired_ab = some s1 ∧
      (∀ fuel, State.retired_ab.refcnt.free_list.items.length < fuel →
        gc_loop 0 fuel State.retired_ab = some s1) ∧
      s1.refcnt.free_list.items = [] ∧
      s1.refcnt.free_list.writes = s1.refcnt.free_list.reads ∧
      rqueue_write_count s1.refcnt.free_list - rqueue_read_count s1.refcnt.free_list = 0 ∧
      s1.nodes = State.retired_ab.nodes ∧ s1.trace = State.retired_ab.trace ++ evs ∧
      evs.filterMap Event.freed = State.retired_ab.refcnt.free_list.items ∧
      evs.filterMap Event.freed_payload =
        (if State.retired_ab.refcnt.free_node_ptr_cb then
          State.retired_ab.refcnt.free_list.items.filterMap
            fun p => (State.retired_ab.node p).map fun n => (p, n.ptr)
        else []) ∧
      (State.retired_ab.refcnt.free_node_ptr_cb = true →
        (evs.filterMap Event.freed_payload).map Prod.fst =
          State.retired_ab.refcnt.free_list.items) ∧
      refcnt_destroy State.retired_ab = some ((s1.emit .rqueue_destroy).emit .free_domain) :=
  ⟨by decide, gc_force_drains State.retired_ab (by decide)⟩

/-- The forced sweep on the two pending nodes, evaluated: both payloads are
passed to the callback once, in arrival order, and both nodes are freed. -/
theorem gc_force_scenario :
    (gc true State.retired_ab).map
        (fun s1 => (s1.refcnt.free_list, s1.trace.drop State.retired_ab.trace.length)) =
      some ({ items := [], writes := 2, reads := 2, size := 256, blocking := true },
        [.free_node_ptr_cb ⟨1, false⟩ 10, .free ⟨1, false⟩,
          .free_node_ptr_cb ⟨2, false⟩ 20, .free ⟨2, false⟩]) := by
  decide

/-! ## Creating a domain -/

/-- C12 as stated fails on the code for large thresholds: the sum `t + t/2` is
taken in `uint32_t` and stored in an `int`.  For `t = 1431655766` the sum is
`2^31 + 1`, negative as an `int`, so the capacity is the minimum 256; for
`t = 2^32 - 1` the sum wraps to `2^31 - 2`.  Both are below `1.5 * t`. -/
theorem refcnt_create_capacity_small :
    (refcnt_create 1431655766 true true).free_list.size = 256 ∧
    (256 : Int) < ((1431655766 + 1431655766 / 2 : Nat) : Int) ∧
    (refcnt_create 4294967295 true true).free_list.size = 2147483646 ∧
    (2147483646 : Int) < ((4294967295 + 4294967295 / 2 : Nat) : Int) := by
  decide

theorem rqueue_size_of_small {t : Nat} (h : t + t / 2 < 2147483648) :
    rqueue_size_of t = ((t + t / 2 : Nat) : Int) := by
  have hm : (t + t / 2) % UINT32_MOD = t + t / 2 :=
    Nat.mod_eq_of_lt (by unfold UINT32_MOD; omega)
  simp only [rqueue_size_of, hm, if_pos h]

/-- C12 (amended): for every 32-bit unsigned threshold `t`, `refcnt_create` stores
`t` as the threshold of the domain and creates the deferred buffer in blocking
mode with capacity `max(r, 256)`, where `r` is the `uint32_t` sum `t + t/2`
converted to `int`.  The capacity is always at least 256.  When `t + t/2` is
below `2^31` (that is, `t <= 1431655765`) the capacity is
`max(floor(1.5 * t), 256)` and so at least `1.5 * t` rounded down. -/
theorem refcnt_create_capacity (t : Nat) (cb_t cb_f : Bool) (_ht : t < UINT32_MOD) :
    (refcnt_create t cb_t cb_f).gc_threshold = t ∧
    (refcnt_create t cb_t cb_f).terminate_node_cb = cb_t ∧
    (refcnt_create t cb_t cb_f).free_node_ptr_cb = cb_f ∧
    (refcnt_create t cb_t cb_f).free_list.items = [] ∧
    (refcnt_create t cb_t cb_f).free_list.blocking = true ∧
    (refcnt_create t cb_t cb_f).free_list.size = max (rqueue_size_of t) 256 ∧
    256 ≤ (refcnt_create t cb_t cb_f).free_list.size ∧
    (t + t / 2 < 2147483648 →
      (refcnt_create t cb_t cb_f).free_list.size = max (((t + t / 2 : Nat) : Int)) 256 ∧
      ((t + t / 2 : Nat) : Int) ≤ (refcnt_create t cb_t cb_f).free_list.size) := by
  have hsize : (refcnt_create t cb_t cb_f).free_list.size = max (rqueue_size_of t) 256 := by
    simp only [refcnt_create, rqueue_create, RQUEUE_MIN_SIZE]
    split
    · rw [max_eq_right (by omega)]
    · rw [max_eq_left (by omega)]
  refine ⟨rfl, rfl, rfl, rfl, rfl, hsize, ?_, ?_⟩
  · rw [hsize]
    exact le_max_right _ _
  · intro h
    rw [hsize, rqueue_size_of_small h]
    exact ⟨rfl, le_max_left _ _⟩

/-- Witness of C12: threshold 4 gives the minimum capacity 256, threshold 1000
gives 1500. -/
theorem refcnt_create_capacity_witness :
    1000 < UINT32_MOD ∧
    (refcnt_create 1000 true false).gc_threshold = 1000 ∧
    (refcnt_create 1000 true false).terminate_node_cb = true ∧
    (refcnt_create 1000 true false).free_node_ptr_cb = false ∧
    (refcnt_create 1000 true false).free_list.items = [] ∧
    (refcnt_create 1000 true false).free_list.blocking = true ∧
    (refcnt_create 1000 true false).free_list.size = max (rqueue_size_of 1000) 256 ∧
    256 ≤ (refcnt_create 1000 true false).free_list.size ∧
    (1000 + 1000 / 2 < 2147483648 →
      (refcnt_create 1000 true false).free_list.size =
        max (((1000 + 1000 / 2 : Nat) : Int)) 256 ∧
      ((1000 + 1000 / 2 : Nat) : Int) ≤ (refcnt_create 1000 true false).free_list.size) :=
  ⟨by decide, refcnt_create_capacity 1000 true false (by decide)⟩

/-! ## The sweep with either limit -/

/-- C14: in every state whose deferred buffer is consistent, with backlog `b`
and threshold `t`, `gc(refcnt, 0)` pops exactly `b - floor(t/2)` handles (none
when `b <= floor(t/2)`, in which case the state is unchanged).  The popped
handles are the oldest pending ones in arrival order: `free` is called on each
in that order and, when the payload-free callback is configured, it is called
exactly once per popped handle with that node's payload, in the same order.
The remaining handles stay pending in order, cumulative reads grow by the
number popped, and no node record changes.  The forced sweep is the same with
limit 0 in place of `floor(t/2)`. -/
theorem gc_sweep_spec (force : Bool) (s : State) (hq : s.queue_ok) :
    ∃ s1 evs, gc force s = some s1 ∧
      s1.refcnt.free_list.items = s.refcnt.free_list.items.drop
        (s.backlog - (if force then 0 else s.refcnt.gc_threshold / 2)) ∧
      (s.refcnt.free_list.items.take
        (s.backlog - (if force then 0 else s.refcnt.gc_threshold / 2))).length =
        s.backlog - (if force then 0 else s.refcnt.gc_threshold / 2) ∧
      s1.refcnt.free_list.reads = s.refcnt.free_list.reads +
        (s.backlog - (if force then 0 else s.refcnt.gc_threshold / 2)) ∧
      s1.refcnt.free_list.writes = s.refcnt.free_list.writes ∧
      s1.nodes = s.nodes ∧
      s1.trace = s.trace ++ evs ∧
      evs.filterMap Event.freed = s.refcnt.free_list.items.take
        (s.backlog - (if force then 0 else s.refcnt.gc_threshold / 2)) ∧
      evs.filterMap Event.freed_payload =
        (if s.refcnt.free_node_ptr_cb then
          (s.refcnt.free_list.items.take
            (s.backlog - (if force then 0 else s.refcnt.gc_threshold / 2))).filterMap
            fun p => (s.node p).map fun n => (p, n.ptr)
        else []) ∧
      evs.filterMap Event.terminated = [] ∧ evs.filterMap Event.pushed = [] ∧
      (s.backlog ≤ (if force then 0 else s.refcnt.gc_threshold / 2) → s1 = s) := by
  have hb : s.backlog = s.refcnt.free_list.items.length := by
    simp [State.backlog, rqueue_write_count, rqueue_read_count, hq.1]
  have hv : ∀ p ∈ s.refcnt.free_list.items.take
      (s.backlog - (if force then 0 else s.refcnt.gc_threshold / 2)),
      (s.node p).isSome = true := fun p hp => hq.2 p (List.mem_of_mem_take hp)
  refine ⟨_, sweep_events s (s.refcnt.free_list.items.take
    (s.backlog - (if force then 0 else s.refcnt.gc_threshold / 2))), gc_swept force s hq,
    ?_, ?_, ?_, rfl, rfl, ?_, sweep_events_freed s _ hv, sweep_events_freed_payload s _ hv,
    sweep_events_terminated s _, sweep_events_pushed s _, ?_⟩
  · rw [hb]
    rfl
  · rw [List.length_take, hb]
    omega
  · rw [hb]
    rfl
  · rw [hb]
    rfl
  · intro hle
    have h0 : s.refcnt.free_list.items.length -
        (if force then 0 else s.refcnt.gc_threshold / 2) = 0 := by
      rw [hb] at hle
      omega
    rw [h0, swept_zero]

/-- Witness of C14: two handles pending with threshold 4, swept with either
limit. -/
theorem gc_sweep_spec_witness :
    State.retired_ab.queue_ok ∧
    ∃ s1 evs, gc false State.retired_ab = some s1 ∧
      s1.refcnt.free_list.items = State.retired_ab.refcnt.free_list.items.drop
        (State.retired_ab.backlog -
          (if false then 0 else State.retired_ab.refcnt.gc_threshold / 2)) ∧
      (State.retired_ab.refcnt.free_list.items.take
        (State.retired_ab.backlog -
          (if false then 0 else State.retired_ab.refcnt.gc_threshold / 2))).length =
        State.retired_ab.backlog -
          (if false then 0 else State.retired_ab.refcnt.gc_threshold / 2) ∧
      s1.refcnt.free_list.reads = State.retired_ab.refcnt.free_list.reads +
        (State.retired_ab.backlog -
          (if false then 0 else State.retired_ab.refcnt.gc_threshold / 2)) ∧
      s1.refcnt.free_list.writes = State.retired_ab.refcnt.free_list.writes ∧
      s1.nodes = State.retired_ab.nodes ∧
      s1.trace = State.retired_ab.trace ++ evs ∧
      evs.filterMap Event.freed = State.retired_ab.refcnt.free_list.items.take
        (State.retired_ab.backlog -
          (if false then 0 else State.retired_ab.refcnt.gc_threshold / 2)) ∧
      evs.filterMap Event.freed_payload =
        (if State.retired_ab.refcnt.free_node_ptr_cb then
          (State.retired_ab.refcnt.free_list.items.take
            (State.retired_ab.backlog -
              (if false then 0 else State.retired_ab.refcnt.gc_threshold / 2))).filterMap
            fun p => (State.retired_ab.node p).map fun n => (p, n.ptr)
        else []) ∧
      evs.filterMap Event.terminated = [] ∧ evs.filterMap Event.pushed = [] ∧
      (State.retired_ab.backlog ≤
          (if false then 0 else State.retired_ab.refcnt.gc_threshold / 2) →
        s1 = State.retired_ab) :=
  ⟨by decide, gc_sweep_spec false State.retired_ab (by decide)⟩

/-- The non-forced sweep evaluated with threshold 2: of the two pending handles
one (the older, A) is popped and freed, B stays pending. -/
theorem gc_sweep_scenario :
    (gc false (State.retired_ab.setQueue State.retired_ab.refcnt.free_list |>
        fun s => { s with refcnt := { s.refcnt with gc_threshold := 2 } })).map
        (fun s1 => (s1.refcnt.free_list.items, s1.refcnt.free_list.reads,
          s1.trace.drop State.retired_ab.trace.length)) =
      some ([⟨2, false⟩], 1, [.free_node_ptr_cb ⟨1, false⟩ 10, .free ⟨1, false⟩]) := by
  decide

/-! ## Node construction and the accessors -/

theorem new_node_node (rc : RefcntPtr) (ptr : Nat) (s : State) (hb : s.brk ≠ 0) :
    (new_node rc ptr s).2.node (new_node rc ptr s).1 =
      some { ptr := ptr, count := 1, delete := 0 } := by
  simp [new_node, State.node, State.setNode, hb, UINT32_MOD]

theorem new_node_other (rc : RefcntPtr) (ptr : Nat) (s : State) (q : Ptr)
    (hq : q.addr ≠ s.brk) : (new_node rc ptr s).2.node q = s.node q := by
  simp [new_node, State.node, State.setNode, Function.update_noteq hq]

theorem new_node_queue_ok (rc : RefcntPtr) (ptr : Nat) (s : State) (hq : s.queue_ok) :
    (new_node rc ptr s).2.queue_ok := by
  refine ⟨hq.1, ?_⟩
  intro q hqm
  have h := hq.2 q hqm
  by_cases ha : q.addr = s.brk
  · obtain ⟨k, hk⟩ := Option.isSome_iff_exists.mp h
    have hv := node_valid hk
    have hb : s.brk ≠ 0 := ha ▸ hv.2.1
    simp [new_node, State.node, State.setNode, hv.1, hb, ha]
  · rw [new_node_other rc ptr s q ha]
    exact h

/-- C13: for every state in which `calloc` hands out a non-null address, the
node returned by `new_node(refcnt, p)` has payload `p`, count exactly 1 and a
clear gate; `get_node_refcount` of it returns 1 and `get_node_ptr` of it returns
`p`; `get_node_ptr(NULL)` returns `NULL`.  The accessors are reads: the model
gives them no state to return, so they change none.  A single `release_ref`
(non-null domain) on the fresh node retires it: it returns `NULL`, the count
is 0, the gate is set, the terminate callback (when configured) is called once
with the node and the node is pushed once. -/
theorem new_node_spec (rc : RefcntPtr) (p : Nat) (s : State) (hb : s.brk ≠ 0)
    (hq : s.queue_ok) :
    (new_node rc p s).2.node (new_node rc p s).1 = some { ptr := p, count := 1, delete := 0 } ∧
    get_node_refcount (new_node rc p s).2 (new_node rc p s).1 = some 1 ∧
    get_node_ptr (new_node rc p s).2 (new_node rc p s).1 = some p ∧
    get_node_ptr (new_node rc p s).2 NULL = some 0 ∧
    ∃ s1 evs, release_ref .dom (new_node rc p s).1 (new_node rc p s).2 = some (NULL, s1) ∧
      s1.node (new_node rc p s).1 = some { ptr := p, count := 0, delete := 1 } ∧
      s1.trace = (new_node rc p s).2.trace ++ evs ∧
      evs.filterMap Event.terminated =
        (if s.refcnt.terminate_node_cb then [(new_node rc p s).1] else []) ∧
      evs.filterMap Event.pushed = [(new_node rc p s).1] := by
  have hn := new_node_node rc p s hb
  have hq1 := new_node_queue_ok rc p s hq
  have hne : (new_node rc p s).1 ≠ NULL := node_ne_null hn
  refine ⟨hn, ?_, ?_, ?_, ?_⟩
  · rw [get_node_refcount, atomic_read_count_eq hn]
    rfl
  · rw [get_node_ptr, if_pos hne, hn]
    rfl
  · rfl
  · have hrel := release_ref_last hq1 hn rfl (Nat.le_refl 1)
    obtain ⟨sr, hsr⟩ : ∃ sr, sr = (new_node rc p s).2.retire (new_node rc p s).1
        { ptr := p, count := 1, delete := 0 } := ⟨_, rfl⟩
    rw [← hsr] at hrel
    refine ⟨sr.sweep_if, retire_events (new_node rc p s).2 (new_node rc p s).1 ++
      sweep_events sr (sr.refcnt.free_list.items.take sr.sweep_k), hrel, ?_, ?_, ?_, ?_⟩
    · rw [node_sweep_if, hsr, node_retire_self hn]
    · rw [trace_sweep_if, ← List.append_assoc, hsr]
      rfl
    · rw [List.filterMap_append, sweep_events_terminated, retire_events_terminated,
        List.append_nil]
      rfl
    · rw [List.filterMap_append, sweep_events_pushed, retire_events_pushed, List.append_nil]

/-- Witness of C13: a fourth node created next to A, B, C. -/
theorem new_node_spec_witness :
    State.abc.brk ≠ 0 ∧ State.abc.queue_ok ∧
    (new_node .dom 40 State.abc).2.node (new_node .dom 40 State.abc).1 =
      some { ptr := 40, count := 1, delete := 0 } ∧
    get_node_refcount (new_node .dom 40 State.abc).2 (new_node .dom 40 State.abc).1 = some 1 ∧
    get_node_ptr (new_node .dom 40 State.abc).2 (new_node .dom 40 State.abc).1 = some 40 ∧
    get_node_ptr (new_node .dom 40 State.abc).2 NULL = some 0 ∧
    ∃ s1 evs,
      release_ref .dom (new_node .dom 40 State.abc).1 (new_node .dom 40 State.abc).2 =
        some (NULL, s1) ∧
      s1.node (new_node .dom 40 State.abc).1 = some { ptr := 40, count := 0, delete := 1 } ∧
      s1.trace = (new_node .dom 40 State.abc).2.trace ++ evs ∧
      evs.filterMap Event.terminated =
        (if State.abc.refcnt.terminate_node_cb then [(new_node .dom 40 State.abc).1] else []) ∧
      evs.filterMap Event.pushed = [(new_node .dom 40 State.abc).1] :=
  ⟨by decide, by decide, new_node_spec .dom 40 State.abc (by decide) (by decide)⟩

/-! ## Calls with a null domain -/

theorem retain_ref_frame {rc : RefcntPtr} {ref r : Ptr} {s s1 : State}
    (h : retain_ref rc ref s = some (r, s1)) :
    s1.trace = s.trace ∧ s1.refcnt = s.refcnt ∧ ∀ q, q ≠ ref → s1.node q = s.node q := by
  unfold retain_ref deref_link at h
  rw [deref_link_internal_eq] at h
  by_cases hm : ref.mark = true
  · rw [if_pos ⟨hm, rfl⟩] at h
    cases h
    exact ⟨rfl, rfl, fun _ _ => rfl⟩
  · rw [if_neg (fun hc => hm hc.1)] at h
    have hoff : REFCNT_MARK_OFF ref = ref := mark_off_of_unmarked (by simpa using hm)
    rw [hoff] at h
    split at h
    · cases h
      exact ⟨rfl, rfl, fun _ _ => rfl⟩
    · cases hn : s.node ref with
      | none => simp [atomic_read_delete, atomic_read_count, hn] at h
      | some n =>
        rw [atomic_read_delete_eq hn, atomic_read_count_eq hn] at h
        simp only [] at h
        split at h
        · rw [atomic_increment_count_eq hn] at h
          cases h
          exact ⟨rfl, rfl, fun q hq => by rw [node_setNode_eq hn, if_neg hq]⟩
        · cases h
          exact ⟨rfl, rfl, fun _ _ => rfl⟩

/-- C18 as stated fails on the code when the previous target is also the new
target: with a null domain, the link holds A (count 1) and
`store_ref(NULL, L, A)` pins A and releases nothing, so the count of the
previous target goes from 1 to 2. -/
theorem store_ref_null_same_target :
    (State.single 4 7 1 0).node ⟨1, false⟩ = some ⟨7, 1, 0⟩ ∧
    (store_ref .null ⟨1, false⟩ ⟨1, false⟩ (State.single 4 7 1 0)).map
        (fun r => (r.1, r.2.node ⟨1, false⟩)) = some (⟨1, false⟩, some ⟨7, 2, 0⟩) := by
  decide

/-- C18 (amended): with a null domain, `release_ref` returns `NULL` for every
pointer and leaves the state as it is (no count decremented, no gate touched,
no callback, nothing pushed).  `store_ref` with a null domain puts `ref` in the
link and leaves exactly the state `retain_ref` leaves on the new target: domain
and trace are unchanged and so is every node other than the new target, the
previous target included when it is a different node; a new target that
`retain_ref` can pin has its count raised by one modulo `2^32`. -/
theorem null_domain_spec (link ref : Ptr) (s : State) :
    release_ref .null ref s = some (NULL, s) ∧
    store_ref .null link ref s =
      (if ref ≠ NULL then (retain_ref .null ref s).map fun r => (ref, r.2)
        else some (ref, s)) ∧
    (∀ l1 s1, store_ref .null link ref s = some (l1, s1) →
      l1 = ref ∧ s1.trace = s.trace ∧ s1.refcnt = s.refcnt ∧
      ∀ q, q ≠ ref → s1.node q = s.node q) ∧
    (∀ n, s.node ref = some n → ¬ (n.delete = 1 ∧ n.count = 0) →
      store_ref .null link ref s =
        some (ref, s.setNode ref { n with count := (n.count + 1) % UINT32_MOD })) := by
  have hstore : store_ref .null link ref s =
      (if ref ≠ NULL then (retain_ref .null ref s).map fun r => (ref, r.2)
        else some (ref, s)) := by
    rw [store_ref_eq]
    by_cases h0 : ref = NULL
    · simp only [h0, ne_eq, not_true_eq_false, if_false]
      split <;> rfl
    · simp only [ne_eq, h0, not_false_eq_true, if_true]
      cases hr : retain_ref .null ref s with
      | none => rfl
      | some r =>
        simp only [Option.map_some']
        split <;> rfl
  refine ⟨rfl, hstore, ?_, ?_⟩
  · intro l1 s1 h
    rw [hstore] at h
    split at h
    · cases hr : retain_ref .null ref s with
      | none => simp [hr] at h
      | some r =>
        obtain ⟨r1, r2⟩ := r
        simp only [hr, Option.map_some', Option.some.injEq, Prod.mk.injEq] at h
        obtain ⟨h1, h2⟩ := h
        have hf := retain_ref_frame hr
        rw [← h1, ← h2]
        exact ⟨rfl, hf⟩
    · cases h
      exact ⟨rfl, rfl, rfl, fun _ _ => rfl⟩
  · intro n hn hl
    rw [hstore, if_pos (node_ne_null hn), retain_ref_pin .null hn hl]
    rfl

/-- Witness of C18: the link holds A and receives B under a null domain; A keeps
count 1 and B gets count 2. -/
theorem null_domain_spec_witness :
    release_ref .null ⟨2, false⟩ State.abc = some (NULL, State.abc) ∧
    store_ref .null ⟨1, false⟩ ⟨2, false⟩ State.abc =
      (if (⟨2, false⟩ : Ptr) ≠ NULL then
        (retain_ref .null ⟨2, false⟩ State.abc).map fun r => (⟨2, false⟩, r.2)
        else some (⟨2, false⟩, State.abc)) ∧
    (∀ l1 s1, store_ref .null ⟨1, false⟩ ⟨2, false⟩ State.abc = some (l1, s1) →
      l1 = ⟨2, false⟩ ∧ s1.trace = State.abc.trace ∧ s1.refcnt = State.abc.refcnt ∧
      ∀ q, q ≠ ⟨2, false⟩ → s1.node q = State.abc.node q) ∧
    (∀ n, State.abc.node ⟨2, false⟩ = some n → ¬ (n.delete = 1 ∧ n.count = 0) →
      store_ref .null ⟨1, false⟩ ⟨2, false⟩ State.abc =
        some (⟨2, false⟩,
          State.abc.setNode ⟨2, false⟩ { n with count := (n.count + 1) % UINT32_MOD })) :=
  null_domain_spec ⟨1, false⟩ ⟨2, false⟩ State.abc

/-- The same scenario evaluated: with a null domain the previous target A keeps
count 1 (no release), the new target B has count 2. -/
theorem store_ref_null_scenario :
    (store_ref .null ⟨1, false⟩ ⟨2, false⟩ State.abc).map
        (fun r => (r.1, r.2.node ⟨1, false⟩, r.2.node ⟨2, false⟩, r.2.trace)) =
      some (⟨2, false⟩, some ⟨10, 1, 0⟩, some ⟨20, 2, 0⟩, []) := by
  decide

/-! ## The invariant of a run -/

theorem core_queue_ok {t : Nat} {cb_t cb_f : Bool} {s : State} (h : s.Core t cb_t cb_f) :
    s.queue_ok := by
  refine ⟨h.counters, fun p hp => h.pushed_alloc p ?_⟩
  rw [← h.fifo]
  exact List.mem_append_right _ hp

theorem core_fresh (t : Nat) (cb_t cb_f : Bool) : (State.fresh t cb_t cb_f).Core t cb_t cb_f where
  threshold := rfl
  terminate_cb := rfl
  free_cb := rfl
  counters := rfl
  brk_pos := Nat.one_ne_zero
  unalloc := fun _ _ => rfl
  gate := fun p n h => by simp [State.node, State.fresh] at h
  pushed_alloc := fun p hp => by simp [State.fresh] at hp
  fifo := rfl
  nodup := List.nodup_nil
  terminated := by cases cb_t <;> rfl
  paid := by cases cb_f <;> rfl
  retire_order := fun p hp => by simp [State.fresh] at hp
  free_order := fun x hx => by simp [State.fresh] at hx

theorem core_setNode {t : Nat} {cb_t cb_f : Bool} {s : State} {p : Ptr} {n : Node} (m : Node)
    (h : s.Core t cb_t cb_f) (hn : s.node p = some n) (hd : m.delete = n.delete) :
    (s.setNode p m).Core t cb_t cb_f where
  threshold := h.threshold
  terminate_cb := h.terminate_cb
  free_cb := h.free_cb
  counters := h.counters
  brk_pos := h.brk_pos
  unalloc := by
    intro a ha
    have hv := node_valid hn
    have hne : a ≠ p.addr := by
      intro hap
      have := h.unalloc a ha
      rw [hap, hv.2.2] at this
      cases this
    simp only [State.setNode, Function.update_noteq hne]
    exact h.unalloc a ha
  gate := by
    intro q k hqk
    rw [node_setNode_eq hn] at hqk
    split at hqk
    · rename_i hqp
      cases hqk
      rw [hd, hqp]
      exact h.gate p n hn
    · exact h.gate q k hqk
  pushed_alloc := by
    intro q hq
    rw [node_setNode_eq hn]
    split
    · rfl
    · exact h.pushed_alloc q hq
  fifo := h.fifo
  nodup := h.nodup
  terminated := h.terminated
  paid := h.paid
  retire_order := h.retire_order
  free_order := h.free_order

theorem node_retire_eq {s : State} {p : Ptr} {n : Node} (hn : s.node p = some n) (q : Ptr) :
    (s.retire p n).node q =
      if q = p then some { ptr := n.ptr, count := 0, delete := 1 } else s.node q := by
  have h : (s.retire p n).node q =
      (s.setNode p { ptr := n.ptr, count := 0, delete := 1 }).node q := rfl
  rw [h, node_setNode_eq hn]

theorem retire_pushed (s : State) (p : Ptr) (n : Node) :
    (s.retire p n).trace.filterMap Event.pushed = s.trace.filterMap Event.pushed ++ [p] := by
  simp only [State.retire, List.filterMap_append, retire_events_pushed]

theorem retire_freed (s : State) (p : Ptr) (n : Node) :
    (s.retire p n).trace.filterMap Event.freed = s.trace.filterMap Event.freed := by
  simp only [State.retire, List.filterMap_append, retire_events_freed, List.append_nil]

theorem retire_freed_payload (s : State) (p : Ptr) (n : Node) :
    (s.retire p n).trace.filterMap Event.freed_payload =
      s.trace.filterMap Event.freed_payload := by
  simp only [State.retire, List.filterMap_append, retire_events_freed_payload, List.append_nil]

theorem retire_terminated (s : State) (p : Ptr) (n : Node) :
    (s.retire p n).trace.filterMap Event.terminated =
      s.trace.filterMap Event.terminated ++ (if s.refcnt.terminate_node_cb then [p] else []) := by
  simp only [State.retire, List.filterMap_append, retire_events_terminated]

theorem core_retire {t : Nat} {cb_t cb_f : Bool} {s : State} {p : Ptr} {n : Node}
    (h : s.Core t cb_t cb_f) (hn : s.node p = some n) (hd : n.delete = 0) :
    (s.retire p n).Core t cb_t cb_f := by
  have hp : p ∉ s.trace.filterMap Event.pushed := by
    rcases h.gate p n hn with hg | hg
    · exact hg.2
    · rw [hd] at hg
      exact absurd hg.1 (by decide)
  have hsub : List.Sublist s.trace (s.retire p n).trace := List.sublist_append_left _ _
  refine
    { threshold := h.threshold
      terminate_cb := h.terminate_cb
      free_cb := h.free_cb
      counters := ?_
      brk_pos := h.brk_pos
      unalloc := ?_
      gate := ?_
      pushed_alloc := ?_
      fifo := ?_
      nodup := ?_
      terminated := ?_
      paid := ?_
      retire_order := ?_
      free_order := ?_ }
  · simp only [State.retire, rqueue_write, List.length_append, List.length_singleton]
    have := h.counters
    omega
  · intro a ha
    have hv := node_valid hn
    have hne : a ≠ p.addr := by
      intro hap
      have := h.unalloc a ha
      rw [hap, hv.2.2] at this
      cases this
    simp only [State.retire, Function.update_noteq hne]
    exact h.unalloc a ha
  · intro q k hqk
    rw [retire_pushed]
    rw [node_retire_eq hn] at hqk
    split at hqk
    · rename_i hqp
      cases hqk
      right
      exact ⟨rfl, by simp [hqp]⟩
    · rename_i hqp
      rcases h.gate q k hqk with hg | hg
      · left
        refine ⟨hg.1, ?_⟩
        simp only [List.mem_append, List.mem_singleton, not_or]
        exact ⟨hg.2, hqp⟩
      · right
        exact ⟨hg.1, List.mem_append_left _ hg.2⟩
  · intro q hq
    rw [retire_pushed] at hq
    rw [node_retire_eq hn]
    split
    · rfl
    · rename_i hqp
      simp only [List.mem_append, List.mem_singleton] at hq
      rcases hq with hq | hq
      · exact h.pushed_alloc q hq
      · exact absurd hq hqp
  · rw [retire_pushed, retire_freed, ← h.fifo]
    simp only [State.retire, rqueue_write, List.append_assoc]
  · rw [retire_pushed]
    exact List.Nodup.append h.nodup (List.nodup_singleton p) (by
      intro x hx hx1
      simp only [List.mem_singleton] at hx1
      rw [hx1] at hx
      exact hp hx)
  · rw [retire_pushed, retire_terminated, h.terminated, h.terminate_cb]
    cases cb_t <;> simp
  · rw [retire_freed_payload, retire_freed]
    exact h.paid
  · intro q hq
    rw [retire_pushed] at hq
    simp only [List.mem_append, List.mem_singleton] at hq
    rcases hq with hq | hq
    · exact (h.retire_order q hq).trans hsub
    · rw [hq]
      exact List.sublist_append_right _ _
  · intro x hx
    rw [retire_freed_payload] at hx
    exact (h.free_order x hx).trans hsub

theorem sweep_events_payload_mem (s : State) (ps : List Ptr) (x : Ptr × Nat)
    (hx : x ∈ (sweep_events s ps).filterMap Event.freed_payload) :
    x.1 ∈ ps ∧ Event.free_node_ptr_cb x.1 x.2 ∈ sweep_events s ps := by
  simp only [List.mem_filterMap] at hx
  obtain ⟨e, he, hex⟩ := hx
  cases e with
  | free_node_ptr_cb r a =>
    simp only [Event.freed_payload, Option.some.injEq] at hex
    rw [← hex]
    refine ⟨?_, he⟩
    simp only [sweep_events, List.mem_flatMap] at he
    obtain ⟨q, hq, heq⟩ := he
    unfold sweep_one at heq
    cases hnode : s.node q with
    | none => simp [hnode] at heq
    | some n =>
      simp only [hnode, List.mem_append, List.mem_singleton] at heq
      rcases heq with h1 | h1
      · split at h1
        · simp only [List.mem_singleton, Event.free_node_ptr_cb.injEq] at h1
          rw [h1.1]
          exact hq
        · simp at h1
      · cases h1
  | _ => simp [Event.freed_payload] at hex

theorem core_swept {t : Nat} {cb_t cb_f : Bool} {s : State} (k : Nat)
    (h : s.Core t cb_t cb_f) (hk : k ≤ s.refcnt.free_list.items.length) :
    (s.swept k).Core t cb_t cb_f := by
  have hq := core_queue_ok h
  have hv : ∀ p ∈ s.refcnt.free_list.items.take k, (s.node p).isSome = true :=
    fun p hp => hq.2 p (List.mem_of_mem_take hp)
  have hsub : List.Sublist s.trace (s.swept k).trace := List.sublist_append_left _ _
  have hpushed : (s.swept k).trace.filterMap Event.pushed = s.trace.filterMap Event.pushed := by
    simp only [State.swept, List.filterMap_append, sweep_events_pushed, List.append_nil]
  have hfreed : (s.swept k).trace.filterMap Event.freed =
      s.trace.filterMap Event.freed ++ s.refcnt.free_list.items.take k := by
    simp only [State.swept, List.filterMap_append, sweep_events_freed s _ hv]
  have hterm : (s.swept k).trace.filterMap Event.terminated =
      s.trace.filterMap Event.terminated := by
    simp only [State.swept, List.filterMap_append, sweep_events_terminated, List.append_nil]
  have hpaid : (s.swept k).trace.filterMap Event.freed_payload =
      s.trace.filterMap Event.freed_payload ++
        (sweep_events s (s.refcnt.free_list.items.take k)).filterMap Event.freed_payload := by
    simp only [State.swept, List.filterMap_append]
  refine
    { threshold := h.threshold
      terminate_cb := h.terminate_cb
      free_cb := h.free_cb
      counters := ?_
      brk_pos := h.brk_pos
      unalloc := h.unalloc
      gate := ?_
      pushed_alloc := ?_
      fifo := ?_
      nodup := ?_
      terminated := ?_
      paid := ?_
      retire_order := ?_
      free_order := ?_ }
  · simp only [State.swept, List.length_drop]
    have := h.counters
    omega
  · intro q n hqn
    rw [hpushed]
    exact h.gate q n hqn
  · intro q hq1
    rw [hpushed] at hq1
    exact h.pushed_alloc q hq1
  · rw [hpushed, hfreed, ← h.fifo, List.append_assoc]
    simp only [State.swept, List.take_append_drop]
  · rw [hpushed]
    exact h.nodup
  · rw [hpushed, hterm]
    exact h.terminated
  · rw [hpaid, hfreed, List.map_append, h.paid, sweep_events_freed_payload s _ hv, h.free_cb]
    cases cb_f
    · rfl
    · simp only [if_true]
      rw [pending_payloads_fst s _ hv]
  · intro q hq1
    rw [hpushed] at hq1
    exact (h.retire_order q hq1).trans hsub
  · intro x hx
    rw [hpaid, List.mem_append] at hx
    rcases hx with hx | hx
    · exact (h.free_order x hx).trans hsub
    · obtain ⟨hmem, hev⟩ := sweep_events_payload_mem s _ x hx
      have hpush : x.1 ∈ s.trace.filterMap Event.pushed := by
        rw [← h.fifo]
        exact List.mem_append_right _ (List.mem_of_mem_take hmem)
      exact List.Sublist.append (h.retire_order x.1 hpush) (List.singleton_sublist.mpr hev)

theorem core_backlog {t : Nat} {cb_t cb_f : Bool} {s : State} (h : s.Core t cb_t cb_f) :
    s.backlog = s.refcnt.free_list.items.length := by
  simp [State.backlog, rqueue_write_count, rqueue_read_count, h.counters]

theorem sound_sweep_if {t : Nat} {cb_t cb_f : Bool} {s : State} (h : s.Core t cb_t cb_f) :
    s.sweep_if.Sound t cb_t cb_f := by
  rw [sweep_if_eq_swept]
  refine ⟨core_swept _ h (sweep_k_le s), ?_⟩
  simp only [State.swept, List.length_drop, State.sweep_k, core_backlog h, h.threshold]
  split <;> omega

theorem core_new_node {t : Nat} {cb_t cb_f : Bool} {s : State} (rc : RefcntPtr) (ptr : Nat)
    (h : s.Core t cb_t cb_f) : (new_node rc ptr s).2.Core t cb_t cb_f := by
  have hnode : ∀ q, (new_node rc ptr s).2.node q =
      if q = ⟨s.brk, false⟩ then some { ptr := ptr, count := 1, delete := 0 } else s.node q := by
    intro q
    by_cases hq : q = ⟨s.brk, false⟩
    · rw [if_pos hq, hq]
      exact new_node_node rc ptr s h.brk_pos
    · rw [if_neg hq]
      by_cases ha : q.addr = s.brk
      · have hm : q.mark = true := by
          cases hqm : q.mark
          · exact absurd (by cases q; simp_all) hq
          · rfl
        simp [State.node, hm]
      · exact new_node_other rc ptr s q ha
  have hfresh : (⟨s.brk, false⟩ : Ptr) ∉ s.trace.filterMap Event.pushed := by
    intro hmem
    have hs := h.pushed_alloc _ hmem
    have hnone : s.node ⟨s.brk, false⟩ = none := by
      simp [State.node, h.unalloc s.brk (Nat.le_refl _)]
    rw [hnone] at hs
    cases hs
  refine
    { threshold := h.threshold
      terminate_cb := h.terminate_cb
      free_cb := h.free_cb
      counters := h.counters
      brk_pos := Nat.succ_ne_zero _
      unalloc := ?_
      gate := ?_
      pushed_alloc := ?_
      fifo := h.fifo
      nodup := h.nodup
      terminated := h.terminated
      paid := h.paid
      retire_order := h.retire_order
      free_order := h.free_order }
  · intro a ha
    have ha1 : s.brk + 1 ≤ a := ha
    have hne : a ≠ s.brk := by omega
    simp only [new_node, State.setNode, Function.update_noteq hne]
    exact h.unalloc a (by omega)
  · intro q k hqk
    rw [hnode] at hqk
    split at hqk
    · rename_i hq
      cases hqk
      left
      rw [hq]
      exact ⟨rfl, hfresh⟩
    · exact h.gate q k hqk
  · intro q hq
    rw [hnode]
    split
    · rfl
    · exact h.pushed_alloc q hq

theorem sound_setNode {t : Nat} {cb_t cb_f : Bool} {s : State} {p : Ptr} {n : Node} (m : Node)
    (h : s.Sound t cb_t cb_f) (hn : s.node p = some n) (hd : m.delete = n.delete) :
    (s.setNode p m).Sound t cb_t cb_f :=
  ⟨core_setNode m h.1 hn hd, h.2⟩

theorem atomic_increment_count_shape {s s1 : State} {ref : Ptr}
    (h : atomic_increment_count s ref = some s1) :
    ∃ n, s.node ref = some n ∧
      s1 = s.setNode ref { n with count := (n.count + 1) % UINT32_MOD } := by
  cases hn : s.node ref with
  | none => simp [atomic_increment_count, hn] at h
  | some n =>
    rw [atomic_increment_count_eq hn] at h
    cases h
    exact ⟨n, rfl, rfl⟩

theorem atomic_decrement_count_shape {s s1 : State} {ref : Ptr}
    (h : atomic_decrement_count s ref = some s1) :
    ∃ n, s.node ref = some n ∧
      s1 = s.setNode ref { n with count := (n.count + (UINT32_MOD - 1)) % UINT32_MOD } := by
  cases hn : s.node ref with
  | none => simp [atomic_decrement_count, hn] at h
  | some n =>
    rw [atomic_decrement_count_eq hn] at h
    cases h
    exact ⟨n, rfl, rfl⟩

theorem deref_link_internal_shape {rc : RefcntPtr} {v r l : Ptr} {skip : Bool} {s s1 : State}
    (h : deref_link_internal rc v skip s = some (r, l, s1)) :
    l = v ∧ ((r = NULL ∧ s1 = s) ∨
      ∃ n, s.node (REFCNT_MARK_OFF v) = some n ∧ ¬ (n.delete = 1 ∧ n.count = 0) ∧
        r = REFCNT_MARK_OFF v ∧
        s1 = s.setNode (REFCNT_MARK_OFF v) { n with count := (n.count + 1) % UINT32_MOD }) := by
  rw [deref_link_internal_eq] at h
  split at h
  · cases h
    exact ⟨rfl, Or.inl ⟨rfl, rfl⟩⟩
  · split at h
    · cases h
      exact ⟨rfl, Or.inl ⟨rfl, rfl⟩⟩
    · cases hn : s.node (REFCNT_MARK_OFF v) with
      | none => simp [atomic_read_delete, atomic_read_count, hn] at h
      | some n =>
        rw [atomic_read_delete_eq hn, atomic_read_count_eq hn] at h
        simp only [] at h
        split at h
        · rename_i hl
          rw [atomic_increment_count_eq hn] at h
          cases h
          exact ⟨rfl, Or.inr ⟨n, rfl, hl, rfl, rfl⟩⟩
        · cases h
          exact ⟨rfl, Or.inl ⟨rfl, rfl⟩⟩

theorem release_ref_shape {ref r : Ptr} {s s1 : State} (hq : s.queue_ok)
    (h : release_ref .dom ref s = some (r, s1)) :
    ∃ n, s.node ref = some n ∧
      ((n.delete = 0 ∧ release_count n = 0 ∧ r = NULL ∧ s1 = (s.retire ref n).sweep_if) ∨
        (¬ (n.delete = 0 ∧ release_count n = 0) ∧ r = ref ∧
          s1 = (s.setNode ref { n with count := release_count n }).sweep_if)) := by
  cases hn : s.node ref with
  | none => simp [release_ref, atomic_read_count, hn] at h
  | some n =>
    rw [release_ref_eq hq hn] at h
    refine ⟨n, rfl, ?_⟩
    split at h
    · rename_i hc
      cases h
      exact Or.inl ⟨hc.1, hc.2, rfl, rfl⟩
    · rename_i hc
      cases h
      exact Or.inr ⟨hc, rfl, rfl⟩

theorem compare_and_swap_ref_shape {rc : RefcntPtr} {link old ref l : Ptr} {r : Nat}
    {s s2 : State} (h : compare_and_swap_ref rc link old ref s = some (r, l, s2)) :
    (link ≠ old ∧ r = 0 ∧ l = link ∧ s2 = s) ∨
    (link = old ∧ r = 1 ∧ l = ref ∧ ∃ s1,
      (if ref ≠ NULL then atomic_increment_count s ref else some s) = some s1 ∧
      (if old ≠ NULL then atomic_decrement_count s1 old else some s1) = some s2) := by
  by_cases hlo : link = old
  · right
    rw [hlo, compare_and_swap_ref_eq] at h
    cases h1 : (if ref ≠ NULL then atomic_increment_count s ref else some s) with
    | none => simp [h1] at h
    | some s1 =>
      rw [h1] at h
      simp only [] at h
      cases h2 : (if old ≠ NULL then atomic_decrement_count s1 old else some s1) with
      | none => simp [h2] at h
      | some s3 =>
        rw [h2] at h
        cases h
        exact ⟨hlo, rfl, rfl, s1, rfl, h2⟩
  · left
    simp only [compare_and_swap_ref, sync_bool_compare_and_swap, hlo, if_false] at h
    cases h
    exact ⟨hlo, rfl, rfl, rfl⟩

theorem store_ref_shape {rc : RefcntPtr} {link ref l : Ptr} {s s2 : State}
    (h : store_ref rc link ref s = some (l, s2)) :
    l = ref ∧ ∃ s1,
      (if ref ≠ NULL then (retain_ref rc ref s).map Prod.snd else some s) = some s1 ∧
      (if link ≠ NULL then (release_ref rc (REFCNT_MARK_OFF link) s1).map Prod.snd
        else some s1) = some s2 := by
  rw [store_ref_eq] at h
  cases h1 : (if ref ≠ NULL then (retain_ref rc ref s).map Prod.snd else some s) with
  | none => simp [h1] at h
  | some s1 =>
    rw [h1] at h
    simp only [] at h
    split at h
    · rename_i hl
      cases h2 : release_ref rc (REFCNT_MARK_OFF link) s1 with
      | none => simp [h2] at h
      | some x =>
        simp only [h2, Option.map_some', Option.some.injEq, Prod.mk.injEq] at h
        refine ⟨h.1.symm, s1, rfl, ?_⟩
        rw [if_pos hl, h2, ← h.2]
        rfl
    · rename_i hl
      simp only [Option.some.injEq, Prod.mk.injEq] at h
      refine ⟨h.1.symm, s1, rfl, ?_⟩
      rw [if_neg hl, h.2]

/-! ## Every call keeps the invariant -/

theorem deref_link_internal_sound {t : Nat} {cb_t cb_f : Bool} {rc : RefcntPtr} {v r l : Ptr}
    {skip : Bool} {s s1 : State} (hs : s.Sound t cb_t cb_f)
    (h : deref_link_internal rc v skip s = some (r, l, s1)) :
    s1.Sound t cb_t cb_f ∧ ∃ evs, s1.trace = s.trace ++ evs := by
  obtain ⟨-, h1 | ⟨n, hn, -, -, h1⟩⟩ := deref_link_internal_shape h
  · rw [h1.2]
    exact ⟨hs, [], (List.append_nil _).symm⟩
  · rw [h1]
    exact ⟨sound_setNode _ hs hn rfl, [], (List.append_nil _).symm⟩

theorem retain_ref_sound {t : Nat} {cb_t cb_f : Bool} {rc : RefcntPtr} {ref : Ptr}
    {s s1 : State} (hs : s.Sound t cb_t cb_f)
    (h : (retain_ref rc ref s).map Prod.snd = some s1) :
    s1.Sound t cb_t cb_f ∧ ∃ evs, s1.trace = s.trace ++ evs := by
  unfold retain_ref deref_link at h
  cases hd : deref_link_internal rc ref true s with
  | none => simp [hd] at h
  | some x =>
    obtain ⟨r, l, s2⟩ := x
    simp only [hd, Option.map_some', Option.some.injEq] at h
    rw [← h]
    exact deref_link_internal_sound hs hd

theorem release_ref_sound {t : Nat} {cb_t cb_f : Bool} {rc : RefcntPtr} {ref : Ptr}
    {s s1 : State} (hs : s.Sound t cb_t cb_f)
    (h : (release_ref rc ref s).map Prod.snd = some s1) :
    s1.Sound t cb_t cb_f ∧ ∃ evs, s1.trace = s.trace ++ evs := by
  cases rc with
  | null =>
    simp only [release_ref, Option.map_some', Option.some.injEq] at h
    rw [← h]
    exact ⟨hs, [], (List.append_nil _).symm⟩
  | dom =>
    cases hr : release_ref .dom ref s with
    | none => simp [hr] at h
    | some x =>
      obtain ⟨r, s2⟩ := x
      simp only [hr, Option.map_some', Option.some.injEq] at h
      obtain ⟨n, hn, ⟨hd, -, -, h1⟩ | ⟨-, -, h1⟩⟩ := release_ref_shape (core_queue_ok hs.1) hr
      · rw [← h, h1]
        refine ⟨sound_sweep_if (core_retire hs.1 hn hd),
          retire_events s ref ++ sweep_events (s.retire ref n)
            ((s.retire ref n).refcnt.free_list.items.take (s.retire ref n).sweep_k), ?_⟩
        rw [trace_sweep_if, ← List.append_assoc]
        rfl
      · rw [← h, h1]
        exact ⟨sound_sweep_if (core_setNode _ hs.1 hn rfl), _, trace_sweep_if _⟩

theorem compare_and_swap_ref_sound {t : Nat} {cb_t cb_f : Bool} {rc : RefcntPtr}
    {link old ref l : Ptr} {r : Nat} {s s2 : State} (hs : s.Sound t cb_t cb_f)
    (h : compare_and_swap_ref rc link old ref s = some (r, l, s2)) :
    s2.Sound t cb_t cb_f ∧ ∃ evs, s2.trace = s.trace ++ evs := by
  rcases compare_and_swap_ref_shape h with ⟨-, -, -, h1⟩ | ⟨-, -, -, s1, hinc, hdec⟩
  · rw [h1]
    exact ⟨hs, [], (List.append_nil _).symm⟩
  · have hs1 : s1.Sound t cb_t cb_f ∧ s1.trace = s.trace := by
      split at hinc
      · obtain ⟨n, hn, h1⟩ := atomic_increment_count_shape hinc
        rw [h1]
        exact ⟨sound_setNode _ hs hn rfl, rfl⟩
      · cases hinc
        exact ⟨hs, rfl⟩
    have hs2 : s2.Sound t cb_t cb_f ∧ s2.trace = s1.trace := by
      split at hdec
      · obtain ⟨n, hn, h1⟩ := atomic_decrement_count_shape hdec
        rw [h1]
        exact ⟨sound_setNode _ hs1.1 hn rfl, rfl⟩
      · cases hdec
        exact ⟨hs1.1, rfl⟩
    exact ⟨hs2.1, [], by rw [hs2.2, hs1.2, List.append_nil]⟩

theorem store_ref_sound {t : Nat} {cb_t cb_f : Bool} {rc : RefcntPtr} {link ref l : Ptr}
    {s s2 : State} (hs : s.Sound t cb_t cb_f) (h : store_ref rc link ref s = some (l, s2)) :
    s2.Sound t cb_t cb_f ∧ ∃ evs, s2.trace = s.trace ++ evs := by
  obtain ⟨-, s1, hret, hrel⟩ := store_ref_shape h
  have hs1 : s1.Sound t cb_t cb_f ∧ ∃ evs, s1.trace = s.trace ++ evs := by
    split at hret
    · exact retain_ref_sound hs hret
    · cases hret
      exact ⟨hs, [], (List.append_nil _).symm⟩
  have hs2 : s2.Sound t cb_t cb_f ∧ ∃ evs, s2.trace = s1.trace ++ evs := by
    split at hrel
    · exact release_ref_sound hs1.1 hrel
    · cases hrel
      exact ⟨hs1.1, [], (List.append_nil _).symm⟩
  obtain ⟨e1, he1⟩ := hs1.2
  obtain ⟨e2, he2⟩ := hs2.2
  exact ⟨hs2.1, e1 ++ e2, by rw [he2, he1, List.append_assoc]⟩

theorem op_run_sound {t : Nat} {cb_t cb_f : Bool} {op : Op} {w w1 : World}
    (hs : w.st.Sound t cb_t cb_f) (h : op.run w = some w1) :
    w1.st.Sound t cb_t cb_f ∧ ∃ evs, w1.st.trace = w.st.trace ++ evs := by
  cases op with
  | new_node rc ptr =>
    simp only [Op.run, Option.some.injEq] at h
    rw [← h]
    exact ⟨⟨core_new_node rc ptr hs.1, hs.2⟩, [], (List.append_nil _).symm⟩
  | deref_link rc l =>
    simp only [Op.run, deref_link] at h
    cases hd : deref_link_internal rc (w.links l) true w.st with
    | none => simp [hd] at h
    | some x =>
      obtain ⟨r, l1, s2⟩ := x
      simp only [hd, Option.map_some', Option.some.injEq] at h
      rw [← h]
      exact deref_link_internal_sound hs hd
  | deref_link_d rc l =>
    simp only [Op.run, deref_link_d] at h
    cases hd : deref_link_internal rc (w.links l) false w.st with
    | none => simp [hd] at h
    | some x =>
      obtain ⟨r, l1, s2⟩ := x
      simp only [hd, Option.map_some', Option.some.injEq] at h
      rw [← h]
      exact deref_link_internal_sound hs hd
  | retain_ref rc ref =>
    simp only [Op.run] at h
    cases hd : retain_ref rc ref w.st with
    | none => simp [hd] at h
    | some x =>
      simp only [hd, Option.map_some', Option.some.injEq] at h
      rw [← h]
      exact retain_ref_sound hs (by rw [hd]; rfl)
  | release_ref rc ref =>
    simp only [Op.run] at h
    cases hd : release_ref rc ref w.st with
    | none => simp [hd] at h
    | some x =>
      simp only [hd, Option.map_some', Option.some.injEq] at h
      rw [← h]
      exact release_ref_sound hs (by rw [hd]; rfl)
  | store_ref rc l ref =>
    simp only [Op.run] at h
    cases hd : store_ref rc (w.links l) ref w.st with
    | none => simp [hd] at h
    | some x =>
      obtain ⟨l1, s2⟩ := x
      simp only [hd, Option.map_some', Option.some.injEq] at h
      rw [← h]
      exact store_ref_sound hs hd
  | compare_and_swap_ref rc l old ref =>
    simp only [Op.run] at h
    cases hd : compare_and_swap_ref rc (w.links l) old ref w.st with
    | none => simp [hd] at h
    | some x =>
      obtain ⟨r, l1, s2⟩ := x
      simp only [hd, Option.map_some', Option.some.injEq] at h
      rw [← h]
      exact compare_and_swap_ref_sound hs hd

theorem run_ops_sound {t : Nat} {cb_t cb_f : Bool} :
    ∀ (ops : List Op) (w w1 : World), w.st.Sound t cb_t cb_f → run_ops ops w = some w1 →
      w1.st.Sound t cb_t cb_f ∧ ∃ evs, w1.st.trace = w.st.trace ++ evs := by
  intro ops
  induction ops with
  | nil =>
    intro w w1 hs h
    simp only [run_ops, Option.some.injEq] at h
    rw [← h]
    exact ⟨hs, [], (List.append_nil _).symm⟩
  | cons op ops ih =>
    intro w w1 hs h
    simp only [run_ops] at h
    cases ho : op.run w with
    | none => simp [ho] at h
    | some w2 =>
      rw [ho] at h
      obtain ⟨hs2, e2, he2⟩ := op_run_sound hs ho
      obtain ⟨hs1, e1, he1⟩ := ih w2 w1 hs2 h
      exact ⟨hs1, e2 ++ e1, by rw [he1, he2, List.append_assoc]⟩

theorem sound_fresh (t : Nat) (cb_t cb_f : Bool) : (State.fresh t cb_t cb_f).Sound t cb_t cb_f :=
  ⟨core_fresh t cb_t cb_f, Nat.zero_le _⟩

/-! ## The opportunistic sweep -/

theorem release_ref_mid_eq {s : State} {ref : Ptr} {n : Node} (hn : s.node ref = some n) :
    release_ref_mid ref s =
      some (if n.delete = 0 ∧ release_count n = 0 then (s.retire ref n, true)
        else (s.setNode ref { n with count := release_count n }, false)) := by
  have hn1 : (s.setNode ref { n with count := release_count n }).node ref =
      some { n with count := release_count n } := node_setNode_self _ hn
  unfold release_ref_mid
  rw [atomic_read_count_eq hn]
  simp only []
  rw [release_decrement hn]
  simp only []
  by_cases hr : n.delete = 0 ∧ release_count n = 0
  · have hg := release_gate_retire hn1 hr.1 hr.2
    have hret : (s.setNode ref { n with count := release_count n }).retire ref
        { n with count := release_count n } = s.retire ref n := by
      simp [State.retire, State.setNode, retire_events]
    rw [hret] at hg
    rw [hg, if_pos hr]
  · rw [if_neg hr]
    by_cases hd : n.delete = 0
    · exact release_gate_live hn1 (fun h => hr ⟨hd, h⟩)
    · exact release_gate_miss hn1 hd

theorem release_ref_via_mid (ref : Ptr) (s : State) :
    release_ref .dom ref s =
      match release_ref_mid ref s with
      | none => none
      | some (s2, terminated) =>
        match (if s2.backlog > s2.refcnt.gc_threshold then gc false s2 else some s2) with
        | none => none
        | some s3 => some (if terminated then NULL else ref, s3) := by
  unfold release_ref release_ref_mid
  cases atomic_read_count s ref with
  | none => rfl
  | some c =>
    simp only []
    cases (if c > 0 then atomic_decrement_count s ref else some s) with
    | none => rfl
    | some s1 => rfl

theorem release_ref_mid_shape {s s2 : State} {ref : Ptr} {term : Bool}
    (h : release_ref_mid ref s = some (s2, term)) :
    ∃ n, s.node ref = some n ∧
      (s2 = s.retire ref n ∨ s2 = s.setNode ref { n with count := release_count n }) := by
  cases hn : s.node ref with
  | none => simp [release_ref_mid, atomic_read_count, hn] at h
  | some n =>
    rw [release_ref_mid_eq hn] at h
    refine ⟨n, rfl, ?_⟩
    split at h
    · cases h
      exact Or.inl rfl
    · cases h
      exact Or.inr rfl

/-- C15: on any state with a consistent deferred buffer, `release_ref` (non-null
domain, allocated node) runs the sweep exactly when the backlog after its
decrement and gate steps is strictly above the threshold: then its final state
is the result of `gc(refcnt, 0)`, with backlog `floor(threshold/2)`; otherwise
the final state is the state after the gate step, nothing popped.  In every
run of public operations from a freshly created domain of threshold `t`, the
backlog is at most `t` after every call (in particular when a `release_ref`
returns), and inside a `release_ref` started there the backlog before the sweep
test is at most `t + 1`. -/
theorem opportunistic_sweep (s : State) (ref : Ptr) (n : Node) (hq : s.queue_ok)
    (hn : s.node ref = some n) (t : Nat) (cb_t cb_f : Bool) (ops : List Op) (w0 w : World)
    (h0 : w0.st = State.fresh t cb_t cb_f) (hrun : run_ops ops w0 = some w) :
    (∃ s2 term s3, release_ref_mid ref s = some (s2, term) ∧
      release_ref .dom ref s = some (if term then NULL else ref, s3) ∧
      (s2.refcnt.gc_threshold < s2.backlog →
        gc false s2 = some s3 ∧ s3.backlog = s2.refcnt.gc_threshold / 2 ∧
        s2.refcnt.free_list.reads < s3.refcnt.free_list.reads) ∧
      (s2.backlog ≤ s2.refcnt.gc_threshold → s3 = s2)) ∧
    (w.st.refcnt.gc_threshold = t ∧ w.st.backlog ≤ t ∧
      ∀ ref1 s2 term, release_ref_mid ref1 w.st = some (s2, term) → s2.backlog ≤ t + 1) := by
  constructor
  · have hmid := release_ref_mid_eq hn
    obtain ⟨s2, term, hs2⟩ : ∃ s2 term, release_ref_mid ref s = some (s2, term) :=
      ⟨_, _, hmid⟩
    have hq2 : s2.queue_ok := by
      obtain ⟨k, hk, h2 | h2⟩ := release_ref_mid_shape hs2
      · rw [h2]
        exact retire_queue_ok hq hk
      · rw [h2]
        exact setNode_queue_ok _ hq hk
    have hb2 : s2.backlog = s2.refcnt.free_list.items.length := by
      simp [State.backlog, rqueue_write_count, rqueue_read_count, hq2.1]
    by_cases hgt : s2.refcnt.gc_threshold < s2.backlog
    · refine ⟨s2, term, _, hs2, ?_, fun _ => ⟨gc_swept false s2 hq2, ?_, ?_⟩,
        fun hle => absurd hgt (by omega)⟩
      · rw [release_ref_via_mid, hs2]
        simp only []
        rw [if_pos hgt, gc_swept false s2 hq2]
      · simp only [State.backlog, State.swept, rqueue_write_count, rqueue_read_count,
          Bool.false_eq_true, if_false]
        have := hq2.1
        rw [hb2] at hgt
        omega
      · simp only [State.swept, Bool.false_eq_true, if_false]
        rw [hb2] at hgt
        omega
    · refine ⟨s2, term, s2, hs2, ?_, fun h => absurd h hgt, fun _ => rfl⟩
      rw [release_ref_via_mid, hs2]
      simp only []
      rw [if_neg hgt]
  · have hs0 : w0.st.Sound t cb_t cb_f := by
      rw [h0]
      exact sound_fresh t cb_t cb_f
    obtain ⟨hs, -⟩ := run_ops_sound ops w0 w hs0 hrun
    refine ⟨hs.1.threshold, ?_, ?_⟩
    · rw [core_backlog hs.1]
      exact hs.2
    · intro ref1 s2 term hmid
      obtain ⟨k, hk, h2 | h2⟩ := release_ref_mid_shape hmid
      · rw [h2]
        simp only [State.backlog, State.retire, rqueue_write, rqueue_write_count,
          rqueue_read_count]
        have h1 := hs.1.counters
        have h3 := hs.2
        omega
      · have hsame : (w.st.setNode ref1 { k with count := release_count k }).backlog =
            w.st.backlog := rfl
        rw [h2, hsame, core_backlog hs.1]
        exact Nat.le_succ_of_le hs.2

theorem demo_run : run_ops demo_ops (World.start 1 true true) = some World.demo := rfl

/-- Witness of C15: a release that retires the only node of a domain of
threshold 0 (so that the sweep runs), and the run `demo_ops`. -/
theorem opportunistic_sweep_witness :
    (State.single 0 7 1 0).queue_ok ∧
    (State.single 0 7 1 0).node ⟨1, false⟩ = some ⟨7, 1, 0⟩ ∧
    (World.start 1 true true).st = State.fresh 1 true true ∧
    run_ops demo_ops (World.start 1 true true) = some World.demo ∧
    (∃ s2 term s3, release_ref_mid ⟨1, false⟩ (State.single 0 7 1 0) = some (s2, term) ∧
      release_ref .dom ⟨1, false⟩ (State.single 0 7 1 0) =
        some (if term then NULL else ⟨1, false⟩, s3) ∧
      (s2.refcnt.gc_threshold < s2.backlog →
        gc false s2 = some s3 ∧ s3.backlog = s2.refcnt.gc_threshold / 2 ∧
        s2.refcnt.free_list.reads < s3.refcnt.free_list.reads) ∧
      (s2.backlog ≤ s2.refcnt.gc_threshold → s3 = s2)) ∧
    (World.demo.st.refcnt.gc_threshold = 1 ∧ World.demo.st.backlog ≤ 1 ∧
      ∀ ref1 s2 term, release_ref_mid ref1 World.demo.st = some (s2, term) →
        s2.backlog ≤ 1 + 1) :=
  ⟨by decide, rfl, rfl, rfl,
    opportunistic_sweep (State.single 0 7 1 0) ⟨1, false⟩ ⟨7, 1, 0⟩ (by decide) rfl 1 true true
      demo_ops (World.start 1 true true) World.demo rfl rfl⟩

/-! ## Order of retirement and freeing -/

theorem mem_pushed_iff (T : List Event) (p : Ptr) :
    p ∈ T.filterMap Event.pushed ↔ Event.rqueue_write p ∈ T := by
  rw [List.mem_filterMap]
  constructor
  · rintro ⟨e, he, hep⟩
    cases e with
    | rqueue_write r =>
      simp only [Event.pushed, Option.some.injEq] at hep
      rw [← hep]
      exact he
    | _ => simp [Event.pushed] at hep
  · intro h
    exact ⟨_, h, rfl⟩

/-- C16 (retire before free): in every run of public operations from a freshly
created domain, with `T` the trace of external calls at the end of the run:
the payload-free callback is called only for handles that have been pushed by
`release_ref` and at most once per handle; each handle is pushed at most once
and the terminate callback is called at most once per handle; when the
terminate callback is configured, its call for a handle occurs in `T` before
the push of that handle; the retirement calls of a handle occur in `T` before
its payload-free call; the handles freed are, in order, an initial segment of
the handles pushed, and the payload-free calls follow the same order. -/
theorem retire_before_free (t : Nat) (cb_t cb_f : Bool) (ops : List Op) (w0 w : World)
    (h0 : w0.st = State.fresh t cb_t cb_f) (hrun : run_ops ops w0 = some w) :
    (∀ x ∈ w.st.trace.filterMap Event.freed_payload, Event.rqueue_write x.1 ∈ w.st.trace) ∧
    ((w.st.trace.filterMap Event.freed_payload).map Prod.fst).Nodup ∧
    (w.st.trace.filterMap Event.pushed).Nodup ∧
    (w.st.trace.filterMap Event.terminated).Nodup ∧
    (cb_t = true → ∀ p, Event.rqueue_write p ∈ w.st.trace →
      List.Sublist [Event.terminate_node_cb p, Event.rqueue_write p] w.st.trace) ∧
    (∀ x ∈ w.st.trace.filterMap Event.freed_payload,
      List.Sublist ((if cb_t then [Event.terminate_node_cb x.1] else []) ++
        [Event.rqueue_write x.1, Event.free_node_ptr_cb x.1 x.2]) w.st.trace) ∧
    w.st.trace.filterMap Event.freed <+: w.st.trace.filterMap Event.pushed ∧
    (w.st.trace.filterMap Event.freed_payload).map Prod.fst =
      (if cb_f then w.st.trace.filterMap Event.freed else []) := by
  have hs0 : w0.st.Sound t cb_t cb_f := by
    rw [h0]
    exact sound_fresh t cb_t cb_f
  obtain ⟨⟨hc, -⟩, -⟩ := run_ops_sound ops w0 w hs0 hrun
  have hprefix : w.st.trace.filterMap Event.freed <+: w.st.trace.filterMap Event.pushed :=
    ⟨_, hc.fifo⟩
  have hfreed : (w.st.trace.filterMap Event.freed).Nodup := hc.nodup.sublist hprefix.sublist
  refine ⟨?_, ?_, hc.nodup, ?_, ?_, ?_, hprefix, hc.paid⟩
  · intro x hx
    have hsub := hc.free_order x hx
    have hmem : Event.rqueue_write x.1 ∈
        retire_events w.st x.1 ++ [Event.free_node_ptr_cb x.1 x.2] := by
      simp [retire_events]
    exact hsub.subset hmem
  · rw [hc.paid]
    cases cb_f
    · exact List.nodup_nil
    · exact hfreed
  · rw [hc.terminated]
    cases cb_t
    · exact List.nodup_nil
    · exact hc.nodup
  · intro hcb p hp
    have hsub := hc.retire_order p ((mem_pushed_iff _ p).mpr hp)
    simpa [retire_events, hc.terminate_cb, hcb] using hsub
  · intro x hx
    have hsub := hc.free_order x hx
    simpa [retire_events, hc.terminate_cb, List.append_assoc] using hsub

/-- Witness of C16: the run `demo_ops`. -/
theorem retire_before_free_witness :
    (World.start 1 true true).st = State.fresh 1 true true ∧
    run_ops demo_ops (World.start 1 true true) = some World.demo ∧
    (∀ x ∈ World.demo.st.trace.filterMap Event.freed_payload,
      Event.rqueue_write x.1 ∈ World.demo.st.trace) ∧
    ((World.demo.st.trace.filterMap Event.freed_payload).map Prod.fst).Nodup ∧
    (World.demo.st.trace.filterMap Event.pushed).Nodup ∧
    (World.demo.st.trace.filterMap Event.terminated).Nodup ∧
    (true = true → ∀ p, Event.rqueue_write p ∈ World.demo.st.trace →
      List.Sublist [Event.terminate_node_cb p, Event.rqueue_write p] World.demo.st.trace) ∧
    (∀ x ∈ World.demo.st.trace.filterMap Event.freed_payload,
      List.Sublist ((if true then [Event.terminate_node_cb x.1] else []) ++
        [Event.rqueue_write x.1, Event.free_node_ptr_cb x.1 x.2]) World.demo.st.trace) ∧
    World.demo.st.trace.filterMap Event.freed <+:
      World.demo.st.trace.filterMap Event.pushed ∧
    (World.demo.st.trace.filterMap Event.freed_payload).map Prod.fst =
      (if true then World.demo.st.trace.filterMap Event.freed else []) :=
  ⟨rfl, rfl,
    retire_before_free 1 true true demo_ops (World.start 1 true true) World.demo rfl rfl⟩

/-- The trace of the run `demo_ops`, evaluated: A and B are retired, then freed
in that order by the sweep, then C is retired. -/
theorem demo_trace :
    World.demo.st.trace =
      [.terminate_node_cb ⟨1, false⟩, .rqueue_write ⟨1, false⟩,
        .terminate_node_cb ⟨2, false⟩, .rqueue_write ⟨2, false⟩,
        .free_node_ptr_cb ⟨1, false⟩ 10, .free ⟨1, false⟩,
        .free_node_ptr_cb ⟨2, false⟩ 20, .free ⟨2, false⟩,
        .terminate_node_cb ⟨3, false⟩, .rqueue_write ⟨3, false⟩] := by
  decide

/-! ## Gate permanence -/

/-! ## No use after retire -/

theorem kept_setNode {s : State} {a p : Ptr} {n k : Node} (m : Node) (hq : s.queue_ok)
    (ha : s.node a = some n) (hp : s.node p = some k) (hm : p = a → m = n) :
    (s.setNode p m).queue_ok ∧ (s.setNode p m).node a = some n := by
  refine ⟨setNode_queue_ok m hq hp, ?_⟩
  rw [node_setNode_eq hp]
  split
  · rename_i hap
    rw [hm hap.symm]
  · exact ha

theorem kept_deref {rc : RefcntPtr} {v r l a : Ptr} {skip : Bool} {s s1 : State} {n : Node}
    (hq : s.queue_ok) (ha : s.node a = some n) (hd : n.delete = 1) (hc : n.count = 0)
    (h : deref_link_internal rc v skip s = some (r, l, s1)) :
    s1.queue_ok ∧ s1.node a = some n := by
  obtain ⟨-, h1 | ⟨k, hk, hl, -, h1⟩⟩ := deref_link_internal_shape h
  · rw [h1.2]
    exact ⟨hq, ha⟩
  · rw [h1]
    refine kept_setNode _ hq ha hk ?_
    intro hpa
    rw [hpa, ha] at hk
    cases hk
    exact absurd ⟨hd, hc⟩ hl

theorem kept_retain {rc : RefcntPtr} {ref a : Ptr} {s s1 : State} {n : Node}
    (hq : s.queue_ok) (ha : s.node a = some n) (hd : n.delete = 1) (hc : n.count = 0)
    (h : (retain_ref rc ref s).map Prod.snd = some s1) :
    s1.queue_ok ∧ s1.node a = some n := by
  unfold retain_ref deref_link at h
  cases hx : deref_link_internal rc ref true s with
  | none => simp [hx] at h
  | some x =>
    obtain ⟨r, l, s2⟩ := x
    simp only [hx, Option.map_some', Option.some.injEq] at h
    rw [← h]
    exact kept_deref hq ha hd hc hx

theorem kept_release {rc : RefcntPtr} {ref a : Ptr} {s s1 : State} {n : Node}
    (hq : s.queue_ok) (ha : s.node a = some n) (hd : n.delete = 1) (hc : n.count = 0)
    (h : (release_ref rc ref s).map Prod.snd = some s1) :
    s1.queue_ok ∧ s1.node a = some n := by
  cases rc with
  | null =>
    simp only [release_ref, Option.map_some', Option.some.injEq] at h
    rw [← h]
    exact ⟨hq, ha⟩
  | dom =>
    cases hr : release_ref .dom ref s with
    | none => simp [hr] at h
    | some x =>
      obtain ⟨r, s2⟩ := x
      simp only [hr, Option.map_some', Option.some.injEq] at h
      obtain ⟨k, hk, ⟨hd0, -, -, h1⟩ | ⟨-, -, h1⟩⟩ := release_ref_shape hq hr
      · have hne : a ≠ ref := by
          intro har
          rw [har, hk] at ha
          cases ha
          rw [hd] at hd0
          exact absurd hd0 (by decide)
        rw [← h, h1]
        refine ⟨sweep_if_queue_ok (retire_queue_ok hq hk), ?_⟩
        rw [node_sweep_if, node_retire_eq hk, if_neg hne]
        exact ha
      · rw [← h, h1]
        have hkept := kept_setNode { k with count := release_count k } hq ha hk (by
          intro hra
          rw [hra, ha] at hk
          cases hk
          cases n
          simp_all [release_count])
        exact ⟨sweep_if_queue_ok hkept.1, by rw [node_sweep_if]; exact hkept.2⟩

theorem kept_store {rc : RefcntPtr} {link ref l a : Ptr} {s s2 : State} {n : Node}
    (hq : s.queue_ok) (ha : s.node a = some n) (hd : n.delete = 1) (hc : n.count = 0)
    (h : store_ref rc link ref s = some (l, s2)) :
    s2.queue_ok ∧ s2.node a = some n := by
  obtain ⟨-, s1, hret, hrel⟩ := store_ref_shape h
  have h1 : s1.queue_ok ∧ s1.node a = some n := by
    split at hret
    · exact kept_retain hq ha hd hc hret
    · cases hret
      exact ⟨hq, ha⟩
  split at hrel
  · exact kept_release h1.1 h1.2 hd hc hrel
  · cases hrel
    exact h1

theorem kept_cas {rc : RefcntPtr} {link old ref l a : Ptr} {r : Nat} {s s2 : State} {n : Node}
    (hq : s.queue_ok) (ha : s.node a = some n)
    (hsp : link ≠ old ∨ (old ≠ a ∧ ref ≠ a))
    (h : compare_and_swap_ref rc link old ref s = some (r, l, s2)) :
    s2.queue_ok ∧ s2.node a = some n := by
  rcases compare_and_swap_ref_shape h with ⟨-, -, -, h1⟩ | ⟨hlo, -, -, s1, hinc, hdec⟩
  · rw [h1]
    exact ⟨hq, ha⟩
  · have hne : old ≠ a ∧ ref ≠ a := by
      rcases hsp with h1 | h1
      · exact absurd hlo h1
      · exact h1
    have hs1 : s1.queue_ok ∧ s1.node a = some n := by
      split at hinc
      · obtain ⟨k, hk, h1⟩ := atomic_increment_count_shape hinc
        rw [h1]
        exact kept_setNode _ hq ha hk (fun hra => absurd hra hne.2)
      · cases hinc
        exact ⟨hq, ha⟩
    split at hdec
    · obtain ⟨k, hk, h1⟩ := atomic_decrement_count_shape hdec
      rw [h1]
      exact kept_setNode _ hs1.1 hs1.2 hk (fun hra => absurd hra hne.1)
    · cases hdec
      exact hs1

theorem kept_op {op : Op} {a : Ptr} {w w1 : World} {n : Node} (hq : w.st.queue_ok)
    (ha : w.st.node a = some n) (hd : n.delete = 1) (hc : n.count = 0)
    (hsp : op.spares a w = true) (h : op.run w = some w1) :
    w1.st.queue_ok ∧ w1.st.node a = some n := by
  cases op with
  | new_node rc ptr =>
    simp only [Op.run, Option.some.injEq] at h
    simp only [Op.spares, decide_eq_true_eq] at hsp
    rw [← h]
    refine ⟨new_node_queue_ok rc ptr w.st hq, ?_⟩
    rw [new_node_other rc ptr w.st a (fun hab => hsp hab.symm)]
    exact ha
  | deref_link rc l =>
    simp only [Op.run, deref_link] at h
    cases hx : deref_link_internal rc (w.links l) true w.st with
    | none => simp [hx] at h
    | some x =>
      obtain ⟨r, l1, s2⟩ := x
      simp only [hx, Option.map_some', Option.some.injEq] at h
      rw [← h]
      exact kept_deref hq ha hd hc hx
  | deref_link_d rc l =>
    simp only [Op.run, deref_link_d] at h
    cases hx : deref_link_internal rc (w.links l) false w.st with
    | none => simp [hx] at h
    | some x =>
      obtain ⟨r, l1, s2⟩ := x
      simp only [hx, Option.map_some', Option.some.injEq] at h
      rw [← h]
      exact kept_deref hq ha hd hc hx
  | retain_ref rc ref =>
    simp only [Op.run] at h
    cases hx : retain_ref rc ref w.st with
    | none => simp [hx] at h
    | some x =>
      simp only [hx, Option.map_some', Option.some.injEq] at h
      rw [← h]
      exact kept_retain hq ha hd hc (by rw [hx]; rfl)
  | release_ref rc ref =>
    simp only [Op.run] at h
    cases hx : release_ref rc ref w.st with
    | none => simp [hx] at h
    | some x =>
      simp only [hx, Option.map_some', Option.some.injEq] at h
      rw [← h]
      exact kept_release hq ha hd hc (by rw [hx]; rfl)
  | store_ref rc l ref =>
    simp only [Op.run] at h
    cases hx : store_ref rc (w.links l) ref w.st with
    | none => simp [hx] at h
    | some x =>
      obtain ⟨l1, s2⟩ := x
      simp only [hx, Option.map_some', Option.some.injEq] at h
      rw [← h]
      exact kept_store hq ha hd hc hx
  | compare_and_swap_ref rc l old ref =>
    simp only [Op.run] at h
    simp only [Op.spares, decide_eq_true_eq] at hsp
    cases hx : compare_and_swap_ref rc (w.links l) old ref w.st with
    | none => simp [hx] at h
    | some x =>
      obtain ⟨r, l1, s2⟩ := x
      simp only [hx, Option.map_some', Option.some.injEq] at h
      rw [← h]
      exact kept_cas hq ha hsp hx

theorem kept_run {a : Ptr} {n : Node} (hd : n.delete = 1) (hc : n.count = 0) :
    ∀ (ops : List Op) (w w1 : World), w.st.queue_ok → w.st.node a = some n →
      run_spares a ops w = true → run_ops ops w = some w1 →
      w1.st.queue_ok ∧ w1.st.node a = some n := by
  intro ops
  induction ops with
  | nil =>
    intro w w1 hq ha _ h
    simp only [run_ops, Option.some.injEq] at h
    rw [← h]
    exact ⟨hq, ha⟩
  | cons op ops ih =>
    intro w w1 hq ha hsp h
    simp only [run_ops] at h
    simp only [run_spares, Bool.and_eq_true] at hsp
    cases ho : op.run w with
    | none => simp [ho] at h
    | some w2 =>
      rw [ho] at h hsp
      obtain ⟨hq2, ha2⟩ := kept_op hq ha hd hc hsp.1 ho
      exact ih w2 w1 hq2 ha2 hsp.2 h

/-! ## Runs that do not touch freed storage -/

theorem run_live_run {op : Op} {w w1 : World} (h : op.run_live w = some w1) :
    op.run w = some w1 := by
  unfold Op.run_live at h
  split at h
  · cases h
  · exact h

theorem run_ops_live_run :
    ∀ (ops : List Op) (w w1 : World), run_ops_live ops w = some w1 →
      run_ops ops w = some w1 := by
  intro ops
  induction ops with
  | nil =>
    intro w w1 h
    exact h
  | cons op ops ih =>
    intro w w1 h
    simp only [run_ops_live] at h
    cases ho : op.run_live w with
    | none => simp [ho] at h
    | some w2 =>
      rw [ho] at h
      simp only [run_ops, run_live_run ho]
      exact ih w2 w1 h

theorem freed_iff {s : State} {p : Ptr} {n : Node} (hn : s.node p = some n) :
    s.freed p = true ↔ p ∈ s.trace.filterMap Event.freed := by
  unfold State.freed
  rw [mark_off_of_unmarked (node_valid hn).1, decide_eq_true_eq]

theorem pending_of_gate {t : Nat} {cb_t cb_f : Bool} {s : State} {p : Ptr} {n : Node}
    (hc : s.Core t cb_t cb_f) (hn : s.node p = some n) (hd : n.delete = 1)
    (hf : s.freed p = false) :
    Event.rqueue_write p ∈ s.trace ∧ p ∈ s.refcnt.free_list.items := by
  have hp : p ∈ s.trace.filterMap Event.pushed := by
    rcases hc.gate p n hn with hg | hg
    · rw [hd] at hg
      exact absurd hg.1 (by decide)
    · exact hg.2
  refine ⟨(mem_pushed_iff _ p).mp hp, ?_⟩
  rw [← hc.fifo] at hp
  rcases List.mem_append.mp hp with h | h
  · rw [(freed_iff hn).mpr h] at hf
    exact absurd hf (by decide)
  · exact h

theorem demo_run_live :
    run_ops_live demo_ops (World.start 1 true true) = some World.demo := rfl

theorem demo_after_run_live :
    run_ops_live demo_after_ops World.demo = some World.demo_after := rfl

/-! ## Gate permanence -/

/-- The state the witness of C17 starts from, evaluated: after `demo_ops` nodes
A and B have been freed and node C is retired, not freed and pending; a second
`release_ref` on C returns C and changes neither trace nor buffer. -/
theorem gate_permanence_scenario :
    (World.demo.st.freed ⟨1, false⟩, World.demo.st.freed ⟨2, false⟩,
      World.demo.st.freed ⟨3, false⟩, World.demo.st.node ⟨3, false⟩,
      World.demo.st.refcnt.free_list.items) =
      (true, true, false, some ⟨30, 0, 1⟩, [⟨3, false⟩]) ∧
    (release_ref .dom ⟨3, false⟩ World.demo.st).map
        (fun r => (r.1, r.2.node ⟨3, false⟩, decide (r.2.trace = World.demo.st.trace),
          r.2.refcnt.free_list.items)) =
      some (⟨3, false⟩, some ⟨30, 0, 1⟩, true, [⟨3, false⟩]) := by
  refine ⟨rfl, ?_⟩
  decide

/-! ## No use after retire: the claim -/

/-- C11 as stated fails on the code: once the sweep has popped a node it has
passed it to `free` (line 59), and a later `deref_link`, `deref_link_d` or
`retain_ref` on a link or pointer still designating it reads `node->delete` and
`node->count` (lines 82-83) in freed storage.  In the run `stale_ops` node A is
retired by a release and popped and freed by the sweep inside that release while
link 0 still holds it; each of the three calls that follows dereferences A and
has no defined result, so none of them is bound to return `NULL`. -/
theorem stale_link_after_free :
    (run_ops_live stale_ops (World.start 0 true true)).map
        (fun w => (w.links 0, w.st.trace, w.st.freed ⟨1, false⟩,
          (Op.deref_link .dom 0).reads w, (Op.deref_link_d .dom 0).reads w,
          (Op.retain_ref .dom ⟨1, false⟩).reads w)) =
      some (⟨1, false⟩,
        [.terminate_node_cb ⟨1, false⟩, .rqueue_write ⟨1, false⟩,
          .free_node_ptr_cb ⟨1, false⟩ 7, .free ⟨1, false⟩],
        true, [⟨1, false⟩], [⟨1, false⟩], [⟨1, false⟩]) ∧
    run_ops_live (stale_ops ++ [.deref_link .dom 0]) (World.start 0 true true) = none ∧
    run_ops_live (stale_ops ++ [.deref_link_d .dom 0]) (World.start 0 true true) = none ∧
    run_ops_live (stale_ops ++ [.retain_ref .dom ⟨1, false⟩]) (World.start 0 true true) =
      none :=
  ⟨rfl, rfl, rfl, rfl⟩

/-- A retired node that is still pending is made dereferenceable again by a
`compare_and_swap_ref` that succeeds with it as new value: node A (count 1) is
retired by its last release (`NULL` returned, count 0, gate set, A pending);
`compare_and_swap_ref(refcnt, L, NULL, A)` on a null link raises the count to 1
without looking at the gate, after which `deref_link` through `L` and
`retain_ref` both return a handle to A and pin it. -/
theorem pending_node_revived :
    ((release_ref .dom ⟨1, false⟩ (State.single 4 7 1 0)).bind fun r1 =>
      (compare_and_swap_ref .dom NULL NULL ⟨1, false⟩ r1.2).bind fun r2 =>
        (deref_link .dom r2.2.1 r2.2.2).bind fun r3 =>
          (retain_ref .dom ⟨1, false⟩ r3.2.2).map fun r4 =>
            (r1.1, r1.2.node ⟨1, false⟩, r1.2.refcnt.free_list.items, r1.2.freed ⟨1, false⟩,
              r2.1, r2.2.1, r3.1, r4.1, r4.2.node ⟨1, false⟩)) =
      some (NULL, some ⟨7, 0, 1⟩, [⟨1, false⟩], false, 1, ⟨1, false⟩,
        ⟨1, false⟩, ⟨1, false⟩, some ⟨7, 3, 1⟩) :=
  rfl

/-- C11 (amended): in a run of public operations from a freshly created domain
that touches no freed storage, let node `a` have its gate set and count 0.  Then
`a` was retired by `release_ref` (it was pushed onto the deferred buffer).  Let
any sequence of calls follow, on any links and pointers, in which no
`compare_and_swap_ref` succeeds with `a` as its expected or new value (and
`calloc` does not hand out the address of `a` again).  As long as the sweep has
not popped and freed `a`, it is still pending, its record is unchanged, and
every `deref_link`, `deref_link_d` and `retain_ref` on `a` or on a link value
designating `a`, marked or not, returns `NULL`, takes no pin and leaves the
state as it is. -/
theorem no_use_after_retire (t : Nat) (cb_t cb_f : Bool) (ops0 ops : List Op)
    (w0 w w1 : World) (a : Ptr) (n : Node)
    (h0 : w0.st = State.fresh t cb_t cb_f) (hrun0 : run_ops_live ops0 w0 = some w)
    (ha : w.st.node a = some n) (hd : n.delete = 1) (hc : n.count = 0)
    (hsp : run_spares a ops w = true) (hrun : run_ops_live ops w = some w1)
    (hlive : w1.st.freed a = false) :
    Event.rqueue_write a ∈ w.st.trace ∧
    a ∈ w1.st.refcnt.free_list.items ∧
    w1.st.node a = some n ∧
    (∀ rc link skip, REFCNT_MARK_OFF link = a →
      deref_link_internal rc link skip w1.st = some (NULL, link, w1.st)) ∧
    (∀ rc link, REFCNT_MARK_OFF link = a →
      deref_link rc link w1.st = some (NULL, link, w1.st) ∧
      deref_link_d rc link w1.st = some (NULL, link, w1.st) ∧
      retain_ref rc link w1.st = some (NULL, w1.st)) := by
  have hs0 : w0.st.Sound t cb_t cb_f := by
    rw [h0]
    exact sound_fresh t cb_t cb_f
  obtain ⟨hs, -⟩ := run_ops_sound ops0 w0 w hs0 (run_ops_live_run ops0 w0 w hrun0)
  obtain ⟨hs1, -⟩ := run_ops_sound ops w w1 hs (run_ops_live_run ops w w1 hrun)
  obtain ⟨-, ha1⟩ :=
    kept_run hd hc ops w w1 (core_queue_ok hs.1) ha hsp (run_ops_live_run ops w w1 hrun)
  have hpushed : Event.rqueue_write a ∈ w.st.trace := by
    rcases hs.1.gate a n ha with hg | hg
    · rw [hd] at hg
      exact absurd hg.1 (by decide)
    · exact (mem_pushed_iff _ a).mp hg.2
  have hderef : ∀ rc link skip, REFCNT_MARK_OFF link = a →
      deref_link_internal rc link skip w1.st = some (NULL, link, w1.st) := by
    intro rc link skip hl
    exact deref_link_internal_retired rc link skip w1.st n (by rw [hl]; exact ha1) hd hc
  refine ⟨hpushed, (pending_of_gate hs1.1 ha1 hd hlive).2, ha1, hderef, ?_⟩
  intro rc link hl
  refine ⟨hderef rc link true hl, hderef rc link false hl, ?_⟩
  unfold retain_ref deref_link
  rw [hderef rc link true hl]
  rfl

/-- Witness of C11: after the run `demo_ops` node C is retired and still
pending; the calls of `demo_after_ops` follow and leave it pending. -/
theorem no_use_after_retire_witness :
    (World.start 1 true true).st = State.fresh 1 true true ∧
    run_ops_live demo_ops (World.start 1 true true) = some World.demo ∧
    World.demo.st.node ⟨3, false⟩ = some ⟨30, 0, 1⟩ ∧
    run_spares ⟨3, false⟩ demo_after_ops World.demo = true ∧
    run_ops_live demo_after_ops World.demo = some World.demo_after ∧
    World.demo_after.st.freed ⟨3, false⟩ = false ∧
    Event.rqueue_write ⟨3, false⟩ ∈ World.demo.st.trace ∧
    (⟨3, false⟩ : Ptr) ∈ World.demo_after.st.refcnt.free_list.items ∧
    World.demo_after.st.node ⟨3, false⟩ = some ⟨30, 0, 1⟩ ∧
    (∀ rc link skip, REFCNT_MARK_OFF link = ⟨3, false⟩ →
      deref_link_internal rc link skip World.demo_after.st =
        some (NULL, link, World.demo_after.st)) ∧
    (∀ rc link, REFCNT_MARK_OFF link = ⟨3, false⟩ →
      deref_link rc link World.demo_after.st = some (NULL, link, World.demo_after.st) ∧
      deref_link_d rc link World.demo_after.st = some (NULL, link, World.demo_after.st) ∧
      retain_ref rc link World.demo_after.st = some (NULL, World.demo_after.st)) :=
  ⟨rfl, rfl, rfl, rfl, rfl, rfl,
    no_use_after_retire 1 true true demo_ops demo_after_ops (World.start 1 true true)
      World.demo World.demo_after ⟨3, false⟩ ⟨30, 0, 1⟩ rfl rfl rfl rfl rfl rfl rfl rfl⟩

/-- The scenario of the spec: A is created and retained (count 2), released
twice (the second release retires it; with threshold 4 it stays pending), and a
dereference through a link still holding A returns `NULL`. -/
theorem deref_after_retire_scenario :
    ((release_ref .dom ⟨1, false⟩ (State.single 4 7 2 0)).bind fun r1 =>
      (release_ref .dom ⟨1, false⟩ r1.2).bind fun r2 =>
        (deref_link .dom ⟨1, false⟩ r2.2).map fun r3 =>
          (r1.1, r2.1, r2.2.freed ⟨1, false⟩, r3.1, r3.2.1, r3.2.2.node ⟨1, false⟩)) =
      some (⟨1, false⟩, NULL, false, NULL, ⟨1, false⟩, some ⟨7, 0, 1⟩) :=
  rfl

/-! ## The count as an `int` -/

/-- The accessor `get_node_refcount` returns the `uint32_t` count converted to
`int`: a count of `2^31 - 1` is returned as it is, a count of `2^31` comes out
as `-2^31` and a count of `2^32 - 1` as `-1`. -/
theorem get_node_refcount_sign :
    get_node_refcount (State.single 4 7 2147483647 0) ⟨1, false⟩ = some 2147483647 ∧
    get_node_refcount (State.single 4 7 2147483648 0) ⟨1, false⟩ = some (-2147483648) ∧
    get_node_refcount (State.single 4 7 4294967295 0) ⟨1, false⟩ = some (-1) := by
  decide

end Refcnt
